import Mathlib

/-!
Verification of the GrowProxy packet codec, text codec, command registry,
world state, task scheduler and relay/bootstrap rewrite logic against the
JavaScript sources in `src/`.

Modelling conventions, used throughout:

* A Node `Buffer` is a `List Nat` of byte values.
* A JavaScript string is modelled at the byte level (its UTF-8 bytes,
  `List Nat`) where it travels through buffers, and at the character level
  (`List Char`) where the source manipulates text; all delimiters the source
  splits on are ASCII, so byte-level splitting agrees with string splitting.
* A JavaScript number is a `JsNumber`: a finite integer (`int`), a finite
  non-integer number carried as its IEEE 754 float32 bit pattern (`flt`),
  or one of the non-finite values.  The float32-bit representation matches
  the granularity at which the spec states float equality (`writeFloatLE`
  stores exactly those 32 bits and `readFloatLE` reproduces them).
* Fallible parsing returns `Option`.
-/

namespace GrowProxy

/-- Little-endian read of four bytes (Buffer.readUInt32LE). -/
def le4 (a b c d : Nat) : Nat :=
  a + 256 * b + 65536 * c + 16777216 * d

/-- Little-endian bytes of a 32-bit value (Buffer.writeUInt32LE). -/
def toLE4 (n : Nat) : List Nat :=
  [n % 256, n / 256 % 256, n / 65536 % 256, n / 16777216 % 256]

/-- Reinterpret an unsigned 32-bit value as signed (Buffer.readInt32LE). -/
def toSigned32 (n : Nat) : Int :=
  if n < 2 ^ 31 then (n : Int) else (n : Int) - 2 ^ 32

/-- A JavaScript number, at the precision the codec claims use.
`flt` carries the IEEE 754 float32 bit pattern of a finite non-integer
number; `int` is a finite integer-valued number. -/
inductive JsNumber where
  | int (n : Int)
  | flt (bits : Nat)
  | inf
  | negInf
  | nan
  deriving DecidableEq, Repr

/-- A JavaScript value as it occurs in variant-argument lists: a string
(UTF-8 bytes), a number, an array of numbers, or anything else. -/
inductive JsValue where
  | str (bytes : List Nat)
  | num (x : JsNumber)
  | vec (comps : List JsNumber)
  | other
  deriving DecidableEq, Repr

namespace F32

/-- Sign bit of a float32 bit pattern. -/
def signBit (b : Nat) : Nat := b / 2 ^ 31 % 2

/-- Exponent field of a float32 bit pattern. -/
def expField (b : Nat) : Nat := b / 2 ^ 23 % 256

/-- Mantissa field of a float32 bit pattern. -/
def manField (b : Nat) : Nat := b % 2 ^ 23

/-- Apply an IEEE sign bit to a magnitude. -/
def applySign (s : Nat) (v : Nat) : Int :=
  if s = 1 then -(v : Int) else (v : Int)

/-- The JavaScript number produced by Buffer.readFloatLE from the float32
bit pattern `b`: non-finite patterns give the non-finite values, patterns
whose value is an integer give that integer, and all other finite patterns
stay as float32 bits.  A normal pattern has value
±(2^23 + mantissa) · 2^(exponent − 150). -/
def toJsNumber (b : Nat) : JsNumber :=
  let s := signBit b
  let e := expField b
  let m := manField b
  if e = 255 then
    if m = 0 then (if s = 1 then .negInf else .inf) else .nan
  else if e = 0 then
    if m = 0 then .int 0 else .flt b
  else
    let sig := 2 ^ 23 + m
    if 150 ≤ e then .int (applySign s (sig * 2 ^ (e - 150)))
    else if sig % 2 ^ (150 - e) = 0 then .int (applySign s (sig / 2 ^ (150 - e)))
    else .flt b

/-- Fuel-driven floor of log base 2 (kernel-reducible, agreeing with
Nat.log2 on every input since the value is bounded by the fuel). -/
def log2Aux : Nat → Nat → Nat
  | 0, _ => 0
  | fuel + 1, n => if n < 2 then 0 else log2Aux fuel (n / 2) + 1

/-- Floor of log base 2 of a positive number. -/
def natLog2 (n : Nat) : Nat :=
  log2Aux n n

/-- Round a positive natural number to float32 bits (round to nearest,
ties to even), the behaviour of Buffer.writeFloatLE on integral values. -/
def bitsOfPos (a : Nat) : Nat :=
  let k := natLog2 a
  if k ≤ 23 then
    (k + 127) * 2 ^ 23 + (a - 2 ^ k) * 2 ^ (23 - k)
  else
    let shift := k - 23
    let q := a / 2 ^ shift
    let r := a % 2 ^ shift
    let half := 2 ^ (shift - 1)
    let q2 := if half < r ∨ (r = half ∧ q % 2 = 1) then q + 1 else q
    if q2 = 2 ^ 24 then
      if 255 ≤ k + 1 + 127 then 0x7f800000 else (k + 1 + 127) * 2 ^ 23
    else
      if 255 ≤ k + 127 then 0x7f800000 else (k + 127) * 2 ^ 23 + (q2 - 2 ^ 23)

/-- Float32 bits of a finite integer (writeFloatLE on an integral number). -/
def bitsOfInt (n : Int) : Nat :=
  if n = 0 then 0
  else if 0 < n then bitsOfPos n.toNat
  else 2 ^ 31 + bitsOfPos (-n).toNat

/-- Truncation toward zero of the float32 value with bits `b`
(the fractional part is discarded); non-finite and subnormal patterns
truncate to 0, matching ECMAScript ToInt32/ToUint32 on those values. -/
def truncToInt (b : Nat) : Int :=
  let s := signBit b
  let e := expField b
  let m := manField b
  if e = 255 ∨ e = 0 then 0
  else
    let sig := 2 ^ 23 + m
    if 150 ≤ e then applySign s (sig * 2 ^ (e - 150))
    else applySign s (sig / 2 ^ (150 - e))

end F32

namespace Js

/-- Bits written by Buffer.writeFloatLE for a JavaScript number: float32
values keep their bits, integers are rounded to float32, and the
non-finite values take their canonical bit patterns. -/
def toF32Bits : JsNumber → Nat
  | .flt b => b
  | .int n => F32.bitsOfInt n
  | .inf => 0x7f800000
  | .negInf => 0xff800000
  | .nan => 0x7fc00000

/-- The JavaScript expression `x || 0`: NaN (and only NaN, among our
numbers, since 0 is carried as `int 0`) is replaced by 0. -/
def or0 : JsNumber → JsNumber
  | .nan => .int 0
  | x => x

/-- ECMAScript ToUint32 of a JavaScript number (the `>>> 0` coercion):
integers reduce modulo 2^32, finite non-integers truncate toward zero
first, non-finite values give 0. -/
def toUint32 : JsNumber → Nat
  | .int n => (n % (2 ^ 32 : Int)).toNat
  | .flt b => (F32.truncToInt b % (2 ^ 32 : Int)).toNat
  | _ => 0

/-- ECMAScript ToInt32 (the `| 0` coercion): ToUint32 then signed wrap. -/
def toInt32 (x : JsNumber) : Int :=
  toSigned32 (toUint32 x)

/-- Fuel-driven decimal digit emission (the fuel, at least the digit
count, makes the function kernel-reducible). -/
def natDecimalGo : Nat → Nat → List Nat
  | 0, _ => []
  | fuel + 1, n => if n < 10 then [48 + n] else natDecimalGo fuel (n / 10) ++ [48 + n % 10]

/-- Decimal digit bytes of a natural number. -/
def natDecimal (n : Nat) : List Nat :=
  natDecimalGo (n + 1) n

/-- ASCII bytes of `String(n)` for an integer-valued number. -/
def intDecimal (n : Int) : List Nat :=
  if n < 0 then 45 :: natDecimal (-n).toNat else natDecimal n.toNat

end Js

/-- ASCII byte list of a Lean string literal (used only for ASCII text
appearing literally in the source). -/
def ascii (s : String) : List Nat :=
  s.toList.map Char.toNat

/-! ## Text-line codec (src/textParse.js, class TextParse)

The codec is generic in the token alphabet: it is used both on
character-level strings (`Char`) and on UTF-8 byte strings (`Nat`);
every delimiter the source splits on is a single ASCII unit, so the two
views agree. -/

namespace TextParse

variable {α : Type} [DecidableEq α]

/-- JavaScript `raw.split(delimiter)` for a one-unit delimiter: the list of
(possibly empty) segments; splitting the empty string yields one empty
segment. -/
def splitOn (d : α) : List α → List (List α)
  | [] => [[]]
  | a :: rest =>
    match splitOn d rest with
    | [] => [[a]]
    | s :: ss => if a = d then [] :: s :: ss else (a :: s) :: ss

/-- An entry list: ordered (key, values) pairs, keys not necessarily
unique. -/
abbrev Entries (α : Type) := List (List α × List (List α))

/-- TextParse.tokenize: split on the delimiter, then walk the tokens
pushing each onto `out`, skipping an empty token while `out` is still
empty (the `keepEmpty = true` mode used everywhere in this repository). -/
def tokenize (raw : List α) (d : α) : List (List α) :=
  if raw.isEmpty then []
  else
    (splitOn d raw).foldl
      (fun out token => if token.isEmpty && out.isEmpty then out else out ++ [token])
      []

/-- TextParse.parse: split the buffer on a newline unit and walk the
lines, tokenizing each one, skipping a line with fewer than two tokens,
and pushing (first token, remaining tokens) otherwise. -/
def parse (raw : List α) (nl d : α) : Entries α :=
  (splitOn nl raw).foldl
    (fun es line =>
      let tokens := tokenize line d
      if tokens.length < 2 then es
      else es ++ [(tokens.headD [], tokens.tail)])
    []

/-- TextParse.get: the value at `index` of the first entry whose key
matches, or the empty string. -/
def get (es : Entries α) (key : List α) (index : Nat) : List α :=
  match es.find? (fun e => e.1 = key) with
  | none => []
  | some e => (e.2.get? index).getD []

/-- TextParse.contains. -/
def containsKey (es : Entries α) (key : List α) : Bool :=
  es.any (fun e => e.1 = key)

/-- TextParse.set: replace the value list of the first entry whose key
matches, or append a new entry. -/
def set (es : Entries α) (key : List α) (values : List (List α)) : Entries α :=
  match es with
  | [] => [(key, values)]
  | e :: rest =>
    if e.1 = key then (key, values) :: rest else e :: set rest key values

/-- TextParse.remove: drop every entry whose key matches. -/
def removeKey (es : Entries α) (key : List α) : Entries α :=
  es.filter (fun e => ¬ e.1 = key)

/-- TextParse.add: append an entry. -/
def add (es : Entries α) (key : List α) (values : List (List α)) : Entries α :=
  es ++ [(key, values)]

/-- The emitted line of one entry: key, then each value preceded by the
delimiter. -/
def lineOf (d : α) (e : List α × List (List α)) : List α :=
  e.1 ++ (e.2.map (fun v => d :: v)).flatten

/-- TextParse.getRaw with empty prepend text: entry lines joined by the
newline unit. -/
def getRaw (es : Entries α) (nl d : α) : List α :=
  match es with
  | [] => []
  | e :: rest => (rest.foldl (fun acc f => acc ++ nl :: lineOf d f) (lineOf d e))

end TextParse

/-! ### JavaScript numeric and whitespace string helpers -/

namespace Js

/-- The ECMAScript whitespace and line-terminator set (the characters
`\s` matches and `trim` strips). -/
def isWhitespaceChar (c : Char) : Bool :=
  c.toNat = 0x9 ∨ c.toNat = 0xa ∨ c.toNat = 0xb ∨ c.toNat = 0xc ∨
  c.toNat = 0xd ∨ c.toNat = 0x20 ∨ c.toNat = 0xa0 ∨ c.toNat = 0x1680 ∨
  (0x2000 ≤ c.toNat ∧ c.toNat ≤ 0x200a) ∨ c.toNat = 0x2028 ∨
  c.toNat = 0x2029 ∨ c.toNat = 0x202f ∨ c.toNat = 0x205f ∨
  c.toNat = 0x3000 ∨ c.toNat = 0xfeff

/-- JavaScript String.prototype.trim. -/
def trim (s : List Char) : List Char :=
  ((s.dropWhile isWhitespaceChar).reverse.dropWhile isWhitespaceChar).reverse

/-- JavaScript String.prototype.trimStart. -/
def trimStart (s : List Char) : List Char :=
  s.dropWhile isWhitespaceChar

/-- Number.parseInt(value, 10) on a byte string, restricted to the ASCII
forms that occur on the wire: optional ASCII whitespace, an optional
sign, then a leading run of decimal digits; `none` when no digit is
found (the NaN case). -/
def parseIntBytes (s : List Nat) : Option Int :=
  let t := s.dropWhile (fun b => b = 32 ∨ b = 9 ∨ b = 10 ∨ b = 13 ∨ b = 11 ∨ b = 12)
  let (neg, u) : Bool × List Nat :=
    match t with
    | 45 :: rest => (true, rest)
    | 43 :: rest => (false, rest)
    | _ => (false, t)
  let digits := u.takeWhile (fun b => 48 ≤ b ∧ b ≤ 57)
  if digits.isEmpty then none
  else
    let v : Nat := digits.foldl (fun acc b => acc * 10 + (b - 48)) 0
    some (if neg then -(v : Int) else (v : Int))

/-- Number.parseInt(value, 10) on a character string (same ASCII subset). -/
def parseIntChars (s : List Char) : Option Int :=
  parseIntBytes (s.map Char.toNat)

/-- Number(string) on a byte string, restricted to the decimal-integer
forms the proxy ever coerces (route ports and ids); other shapes are NaN. -/
def numberOfString (s : List Nat) : JsNumber :=
  let t := s.dropWhile (fun b => b = 32 ∨ b = 9 ∨ b = 10 ∨ b = 13 ∨ b = 11 ∨ b = 12)
  if t.isEmpty then .int 0
  else
    let (neg, u) : Bool × List Nat :=
      match t with
      | 45 :: rest => (true, rest)
      | 43 :: rest => (false, rest)
      | _ => (false, t)
    if u.isEmpty ∨ u.any (fun b => ¬ (48 ≤ b ∧ b ≤ 57)) then .nan
    else
      let v : Nat := u.foldl (fun acc b => acc * 10 + (b - 48)) 0
      .int (if neg then -(v : Int) else (v : Int))

end Js

/-- TextParse.getInt on byte entries: parse the value base 10, with a
fallback for a missing value or a failed parse. -/
def TextParse.getIntBytes (es : TextParse.Entries Nat) (key : List Nat)
    (index : Nat) (fallback : Int) : Int :=
  let value := TextParse.get es key index
  if value.isEmpty then fallback
  else (Js.parseIntBytes value).getD fallback

/-- TextParse.getInt on character entries. -/
def TextParse.getIntChars (es : TextParse.Entries Char) (key : List Char)
    (index : Nat) (fallback : Int) : Int :=
  let value := TextParse.get es key index
  if value.isEmpty then fallback
  else (Js.parseIntChars value).getD fallback

/-! ## Variant codec (src/textParse.js, variant-argument functions)

Type tags: FLOAT = 1, STRING = 2, VEC2 = 3, VEC3 = 4, UNSIGNED = 5,
SIGNED = 9.  The positional walk of `parseVariantEntries` is rendered as
front consumption: each read of `k` bytes at `pos` (guarded in the source
by `pos + k > length`) becomes a pattern match on the first `k` elements
of the remaining suffix, and `encoded` is the consumed slice. -/

namespace Js

/-- Exact decimal expansion of the finite non-integer float32 value with
bits `b`, as sign, integer digits, a dot, and fraction digits with
trailing zeros removed.  The source only stringifies integers and
non-finite numbers on its reachable paths; this branch exists to keep
String(value) total. -/
def decimalOfF32 (b : Nat) : List Nat :=
  let e := F32.expField b
  let m := F32.manField b
  let (sig, p) : Nat × Nat := if e = 0 then (m, 149) else (2 ^ 23 + m, 150 - e)
  let intPart := sig / 2 ^ p
  let fracDigits := (natDecimal (sig % 2 ^ p * 5 ^ p + 10 ^ p)).tail
  let sign : List Nat := if F32.signBit b = 1 then [45] else []
  sign ++ natDecimal intPart ++ 46 :: (fracDigits.reverse.dropWhile (fun d => d = 48)).reverse

/-- String(x) for a JavaScript number, as UTF-8 bytes. -/
def numberToText : JsNumber → List Nat
  | .int n => intDecimal n
  | .nan => ascii "NaN"
  | .inf => ascii "Infinity"
  | .negInf => ascii "-Infinity"
  | .flt b => decimalOfF32 b

/-- String(v) for a variant value (the array case is
Array.prototype.toString: components joined by a comma).  The source
never stringifies the `other` case. -/
def valueToText : JsValue → List Nat
  | .str s => s
  | .num x => numberToText x
  | .vec comps => List.intercalate [44] (comps.map numberToText)
  | .other => []

/-- Number(v) for a variant value; an array coerces through its string
form, which for the empty and one-element arrays is 0 and the element. -/
def valueToNumber : JsValue → JsNumber
  | .str s => numberOfString s
  | .num x => x
  | .vec [] => .int 0
  | .vec [x] => x
  | .vec _ => .nan
  | .other => .nan

end Js

/-- One decoded variant entry: argument index, type tag, decoded value,
and the original encoded slice (`none` models a null slice). -/
structure VariantEntry where
  index : Nat
  type : Nat
  value : JsValue
  encoded : Option (List Nat)
  deriving DecidableEq, Repr

/-- Result of parseVariantEntries: declared count and decoded entries. -/
structure ParsedVariant where
  count : Nat
  entries : List VariantEntry
  deriving DecidableEq, Repr

/-- Decode a single entry from the front of the remaining buffer,
returning the entry and the unconsumed suffix.  Mirrors one iteration of
the parseVariantEntries loop: index byte, type byte, then the
type-dependent payload, failing on an unknown tag or a short read. -/
def parseVariantEntry (buf : List Nat) : Option (VariantEntry × List Nat) :=
  match buf with
  | i :: t :: rest =>
    if t = 1 then
      match rest with
      | a :: b :: c :: d :: r =>
        some ({ index := i, type := t, value := .num (F32.toJsNumber (le4 a b c d)),
                encoded := some [i, t, a, b, c, d] }, r)
      | _ => none
    else if t = 2 then
      match rest with
      | a :: b :: c :: d :: r =>
        let strLen := le4 a b c d
        if strLen ≤ r.length then
          some ({ index := i, type := t, value := .str (r.take strLen),
                  encoded := some ([i, t, a, b, c, d] ++ r.take strLen) }, r.drop strLen)
        else none
      | _ => none
    else if t = 3 then
      match rest with
      | a0 :: a1 :: a2 :: a3 :: b0 :: b1 :: b2 :: b3 :: r =>
        some ({ index := i, type := t,
                value := .vec [F32.toJsNumber (le4 a0 a1 a2 a3), F32.toJsNumber (le4 b0 b1 b2 b3)],
                encoded := some [i, t, a0, a1, a2, a3, b0, b1, b2, b3] }, r)
      | _ => none
    else if t = 4 then
      match rest with
      | a0 :: a1 :: a2 :: a3 :: b0 :: b1 :: b2 :: b3 :: c0 :: c1 :: c2 :: c3 :: r =>
        some ({ index := i, type := t,
                value := .vec [F32.toJsNumber (le4 a0 a1 a2 a3), F32.toJsNumber (le4 b0 b1 b2 b3),
                               F32.toJsNumber (le4 c0 c1 c2 c3)],
                encoded := some [i, t, a0, a1, a2, a3, b0, b1, b2, b3, c0, c1, c2, c3] }, r)
      | _ => none
    else if t = 5 then
      match rest with
      | a :: b :: c :: d :: r =>
        some ({ index := i, type := t, value := .num (.int (le4 a b c d)),
                encoded := some [i, t, a, b, c, d] }, r)
      | _ => none
    else if t = 9 then
      match rest with
      | a :: b :: c :: d :: r =>
        some ({ index := i, type := t, value := .num (.int (toSigned32 (le4 a b c d))),
                encoded := some [i, t, a, b, c, d] }, r)
      | _ => none
    else none
  | _ => none

/-- Decode `n` consecutive entries; any failure fails the whole run. -/
def parseVariantLoop : Nat → List Nat → Option (List VariantEntry)
  | 0, _ => some []
  | n + 1, buf =>
    match parseVariantEntry buf with
    | none => none
    | some (e, rest) =>
      match parseVariantLoop n rest with
      | none => none
      | some es => some (e :: es)

/-- parseVariantEntries: an empty buffer decodes to zero entries;
otherwise the leading byte is the declared count and that many entries
are decoded, `none` (the null return) on any malformed entry. -/
def parseVariantEntries (buf : List Nat) : Option ParsedVariant :=
  match buf with
  | [] => some { count := 0, entries := [] }
  | c :: rest => (parseVariantLoop c rest).map fun es => { count := c, entries := es }

/-- Assignment `args[i] = v` on a sparse array (holes are `none`). -/
def setSparse (l : List (Option JsValue)) (i : Nat) (v : JsValue) : List (Option JsValue) :=
  if i < l.length then l.set i (some v)
  else l ++ List.replicate (i - l.length) none ++ [some v]

/-- The args array built by parseVariantArgs from decoded entries. -/
def argsOfEntries (es : List VariantEntry) : List (Option JsValue) :=
  es.foldl (fun args e => setSparse args e.index e.value) []

/-- parseVariantArgs: decoded args on success, an empty array when
parseVariantEntries fails. -/
def parseVariantArgs (buf : List Nat) : List (Option JsValue) :=
  match parseVariantEntries buf with
  | none => []
  | some parsed => argsOfEntries parsed.entries

/-- Indexing `args[i]` on a sparse array: a hole and an out-of-range
index both read as undefined. -/
def getArg (args : List (Option JsValue)) (i : Nat) : Option JsValue :=
  match args.get? i with
  | some (some v) => some v
  | _ => none

/-- buildVariantEntry: canonical writer for one entry, `none` (null) on
an unknown type tag.  writeInt32LE stores the same two's-complement
bytes as writeUInt32LE of ToUint32, so both integer tags share toLE4 of
the ToUint32 coercion. -/
def buildVariantEntry (index typ : Nat) (value : JsValue) : Option (List Nat) :=
  let hdr := [index % 256, typ % 256]
  if typ = 2 then
    let text := Js.valueToText value
    some (hdr ++ toLE4 text.length ++ text)
  else if typ = 5 then
    some (hdr ++ toLE4 (Js.toUint32 (Js.valueToNumber value)))
  else if typ = 9 then
    some (hdr ++ toLE4 (Js.toUint32 (Js.valueToNumber value)))
  else if typ = 1 then
    some (hdr ++ toLE4 (Js.toF32Bits (Js.or0 (Js.valueToNumber value))))
  else if typ = 3 ∨ typ = 4 then
    let comps := match value with | .vec l => l | _ => []
    let count := if typ = 3 then 2 else 3
    some (hdr ++ ((List.range count).map fun j =>
      toLE4 (Js.toF32Bits (Js.or0 ((comps.get? j).getD .nan)))).flatten)
  else none

/-- encodeVariantEntries: the count byte followed by each entry's
retained slice, rebuilding entries whose slice is null; an empty buffer
when any rebuild fails. -/
def encodeVariantEntries (parsed : ParsedVariant) : List Nat :=
  match parsed.entries.mapM (fun e =>
      match e.encoded with
      | some bs => some bs
      | none => buildVariantEntry e.index e.type e.value) with
  | none => []
  | some chunks => (parsed.count % 256) :: chunks.flatten

/-- Replace the first entry satisfying the predicate (the source mutates
the object returned by Array.prototype.find in place). -/
def replaceFirst (p : VariantEntry → Bool) (f : VariantEntry → VariantEntry) :
    List VariantEntry → List VariantEntry
  | [] => []
  | e :: rest => if p e then f e :: rest else e :: replaceFirst p f rest

/-- rewriteOnSendToServerExtra: decode the extra buffer, require an
index-0 STRING entry "OnSendToServer", an index-1 entry and an index-4
STRING entry; replace the index-1 entry's payload with the new port
(keeping a SIGNED or UNSIGNED tag, otherwise writing UNSIGNED) and the
index-4 route's key with the new address, keeping the route text from
its first pipe byte onward; re-encode, `none` if anything fails. -/
def rewriteOnSendToServerExtra (extra newAddress : List Nat) (newPort : JsNumber) :
    Option (List Nat) :=
  match parseVariantEntries extra with
  | none => none
  | some parsed =>
    if parsed.entries.isEmpty then none
    else
      match parsed.entries.find? (fun e => e.index = 0) with
      | none => none
      | some functionEntry =>
        if functionEntry.type = 2 ∧ functionEntry.value = .str (ascii "OnSendToServer") then
          match parsed.entries.find? (fun e => e.index = 1),
                parsed.entries.find? (fun e => e.index = 4) with
          | some portEntry, some routeEntry =>
            if routeEntry.type = 2 then
              let routeText := match routeEntry.value with | .str s => s | _ => []
              let addr := if newAddress.isEmpty then ascii "127.0.0.1" else newAddress
              let rewrittenRoute :=
                match routeText.findIdx? (fun b => b = 124) with
                | some sepIdx => addr ++ routeText.drop sepIdx
                | none => addr
              let portValue := JsValue.num (Js.or0 newPort)
              let portType := if portEntry.type = 9 ∨ portEntry.type = 5 then portEntry.type else 5
              let entries1 := replaceFirst (fun e => e.index = 1)
                (fun e => { e with value := portValue, encoded := buildVariantEntry e.index portType portValue })
                parsed.entries
              let entries2 := replaceFirst (fun e => e.index = 4)
                (fun e => { e with value := .str rewrittenRoute, encoded := buildVariantEntry e.index 2 (.str rewrittenRoute) })
                entries1
              let encoded := encodeVariantEntries { parsed with entries := entries2 }
              if encoded.isEmpty then none else some encoded
            else none
          | _, _ => none
        else none

/-- One iteration of the encodeVariantArgs loop: the index byte, then an
auto-selected tag and payload.  Strings encode as STRING; integers in
[0, 2^32) as UNSIGNED, in [−2^31, 2^31) as SIGNED, and out of range as
STRING of their text; non-finite numbers as STRING of their text; other
finite numbers as FLOAT; 2- or 3-element arrays as VEC2/VEC3; anything
else as an empty STRING. -/
def encodeArg (i : Nat) : JsValue → List Nat
  | .str s => i % 256 :: 2 :: toLE4 s.length ++ s
  | .num (.int n) =>
    if 0 ≤ n ∧ n ≤ 4294967295 then i % 256 :: 5 :: toLE4 n.toNat
    else if -2147483648 ≤ n ∧ n ≤ 2147483647 then i % 256 :: 9 :: toLE4 (Js.toUint32 (.int n))
    else i % 256 :: 2 :: toLE4 (Js.intDecimal n).length ++ Js.intDecimal n
  | .num .nan => i % 256 :: 2 :: toLE4 (ascii "NaN").length ++ ascii "NaN"
  | .num .inf => i % 256 :: 2 :: toLE4 (ascii "Infinity").length ++ ascii "Infinity"
  | .num .negInf => i % 256 :: 2 :: toLE4 (ascii "-Infinity").length ++ ascii "-Infinity"
  | .num (.flt b) => i % 256 :: 1 :: toLE4 b
  | .vec comps =>
    if 2 ≤ comps.length ∧ comps.length ≤ 3 then
      i % 256 :: (if comps.length = 2 then 3 else 4) ::
        (comps.map fun c => toLE4 (Js.toF32Bits (Js.or0 c))).flatten
    else i % 256 :: 2 :: toLE4 0
  | .other => i % 256 :: 2 :: toLE4 0

/-- The encoded chunks of the arguments starting at index `k`. -/
def encodeArgsFrom (k : Nat) : List JsValue → List Nat
  | [] => []
  | a :: rest => encodeArg k a ++ encodeArgsFrom (k + 1) rest

/-- encodeVariantArgs: the length byte (an 8-bit store of the list
length) followed by each argument's chunk. -/
def encodeVariantArgs (args : List JsValue) : List Nat :=
  args.length % 256 :: encodeArgsFrom 0 args

/-! ## Packet classifier and builders (src/textParse.js, packet functions) -/

/-- Read one byte at an offset (Buffer.readUInt8); reads are always
guarded by length checks in the callers. -/
def readU8 (l : List Nat) (off : Nat) : Nat :=
  (l.get? off).getD 0

/-- Buffer.readUInt32LE at an offset. -/
def readU32 (l : List Nat) (off : Nat) : Nat :=
  le4 (readU8 l off) (readU8 l (off + 1)) (readU8 l (off + 2)) (readU8 l (off + 3))

/-- Buffer.readInt32LE at an offset. -/
def readI32 (l : List Nat) (off : Nat) : Int :=
  toSigned32 (readU32 l off)

/-- Overwrite bytes of a buffer starting at an offset. -/
def writeBytes (l : List Nat) (off : Nat) (bs : List Nat) : List Nat :=
  l.take off ++ bs ++ l.drop (off + bs.length)

/-- Two's-complement 32-bit store of an integer (writeInt32LE). -/
def intToU32 (n : Int) : Nat :=
  (n % (2 ^ 32 : Int)).toNat

/-- stripNullTerminator: drop one trailing NUL byte if present. -/
def stripNullTerminator (l : List Nat) : List Nat :=
  if l.getLast? = some 0 then l.dropLast else l

/-- ensureNullTerminator: append a NUL byte unless one is already last. -/
def ensureNullTerminator (l : List Nat) : List Nat :=
  if l.isEmpty then [0]
  else if l.getLast? = some 0 then l
  else l ++ [0]

/-- Semantic packet tag (PacketId in src/textParse.js). -/
inductive PacketId where
  | serverHello
  | quit
  | quitToExit
  | joinRequest
  | validateWorld
  | input
  | log
  | disconnect
  | onSendToServer
  | onSpawn
  | onRemove
  | onNameChanged
  | onChangeSkin
  | unknown
  deriving DecidableEq, Repr

/-- ACTION_PACKET_MAP: action value to packet id, defaulting to Unknown. -/
def actionPacketMap (action : List Nat) : PacketId :=
  if action = ascii "quit" then .quit
  else if action = ascii "quit_to_exit" then .quitToExit
  else if action = ascii "join_request" then .joinRequest
  else if action = ascii "validate_world" then .validateWorld
  else if action = ascii "input" then .input
  else if action = ascii "log" then .log
  else .unknown

/-- VARIANT_FUNCTION_MAP: variant function name to packet id. -/
def variantFunctionMap (name : List Nat) : PacketId :=
  if name = ascii "OnSendToServer" then .onSendToServer
  else if name = ascii "OnSpawn" then .onSpawn
  else if name = ascii "OnRemove" then .onRemove
  else if name = ascii "OnNameChanged" then .onNameChanged
  else if name = ascii "OnChangeSkin" then .onChangeSkin
  else .unknown

/-- A decoded text frame (parseTextPacket). -/
structure TextPacket where
  messageType : Nat
  body : List Nat
  entries : TextParse.Entries Nat
  packetId : PacketId
  inputText : List Nat
  deriving DecidableEq, Repr

/-- A decoded tank frame (parseTankPacket). -/
structure TankPacket where
  messageType : Nat
  packetType : Nat
  netId : Int
  targetNetId : Int
  state : Nat
  info : Int
  dataSize : Nat
  extra : List Nat
  header : List Nat
  packetId : PacketId
  variantFunction : List Nat
  variantArgs : Option (List (Option JsValue))
  deriving DecidableEq, Repr

/-- A classified frame (parsePacket): text, tank, or raw/unknown. -/
inductive ParsedPacket where
  | text (t : TextPacket)
  | tank (t : TankPacket)
  | raw
  deriving DecidableEq, Repr

/-- parseTextPacket: strip one trailing NUL, require four header bytes,
read the message type, parse the UTF-8 body as pipe/newline records, and
classify by the action key (SERVER_HELLO frames are ServerHello); Input
frames cache the text value, falling back to the second value of an
empty-key record. -/
def parseTextPacket (rawBuffer : List Nat) : Option TextPacket :=
  let buffer := stripNullTerminator rawBuffer
  if buffer.length < 4 then none
  else
    let messageType := readU32 buffer 0
    let message := buffer.drop 4
    let entries := TextParse.parse message 10 124
    let packetId :=
      if messageType = 1 then PacketId.serverHello
      else actionPacketMap (TextParse.get entries (ascii "action") 0)
    let inputText :=
      if packetId = .input then
        let direct := TextParse.get entries (ascii "text") 0
        if direct.isEmpty then TextParse.get entries [] 1 else direct
      else []
    some { messageType, body := message, entries, packetId, inputText }

/-- parseTankPacket: strip one trailing NUL, require 60 header bytes and
GAME_PACKET type, read the fixed header fields, clamp the extra slice to
the declared size, and classify DISCONNECT and CALL_FUNCTION sub-types
(the latter by decoding the variant args and mapping the function name).
The extra slice is the declared-size window after the 60-byte header,
clamped to the buffer length. -/
def tankExtraSlice (buffer : List Nat) : List Nat :=
  if 60 < min buffer.length (60 + readU32 buffer 56) then
    (buffer.take (min buffer.length (60 + readU32 buffer 56))).drop 60
  else []

/-- The cached variant function name: the index-0 argument when it is a
string. -/
def tankVariantFunction (variantArgs : Option (List (Option JsValue))) : List Nat :=
  match variantArgs with
  | some args => match getArg args 0 with | some (.str s) => s | _ => []
  | none => []

def parseTankPacket (rawBuffer : List Nat) : Option TankPacket :=
  if (stripNullTerminator rawBuffer).length < 60 then none
  else if readU32 (stripNullTerminator rawBuffer) 0 ≠ 4 then none
  else
    some { messageType := readU32 (stripNullTerminator rawBuffer) 0,
           packetType := readU8 (stripNullTerminator rawBuffer) 4,
           netId := readI32 (stripNullTerminator rawBuffer) 8,
           targetNetId := readI32 (stripNullTerminator rawBuffer) 12,
           state := readU32 (stripNullTerminator rawBuffer) 16,
           info := readI32 (stripNullTerminator rawBuffer) 24,
           dataSize := readU32 (stripNullTerminator rawBuffer) 56,
           extra := tankExtraSlice (stripNullTerminator rawBuffer),
           header := (stripNullTerminator rawBuffer).take 60,
           packetId :=
             if readU8 (stripNullTerminator rawBuffer) 4 = 26 then PacketId.disconnect
             else if readU8 (stripNullTerminator rawBuffer) 4 = 1 then
               variantFunctionMap (tankVariantFunction
                 (if readU8 (stripNullTerminator rawBuffer) 4 = 1 then
                   some (parseVariantArgs (tankExtraSlice (stripNullTerminator rawBuffer)))
                  else none))
             else PacketId.unknown,
           variantFunction := tankVariantFunction
             (if readU8 (stripNullTerminator rawBuffer) 4 = 1 then
               some (parseVariantArgs (tankExtraSlice (stripNullTerminator rawBuffer)))
              else none),
           variantArgs :=
             if readU8 (stripNullTerminator rawBuffer) 4 = 1 then
               some (parseVariantArgs (tankExtraSlice (stripNullTerminator rawBuffer)))
             else none }

/-- parsePacket: frames shorter than four bytes are raw; message types
1, 2, 3 parse as text, 4 as tank, anything else (or a failed parse) is
raw. -/
def parsePacket (rawBuffer : List Nat) : ParsedPacket :=
  if rawBuffer.length < 4 then .raw
  else
    let messageType := readU32 rawBuffer 0
    if messageType = 1 ∨ messageType = 2 ∨ messageType = 3 then
      match parseTextPacket rawBuffer with
      | some t => .text t
      | none => .raw
    else if messageType = 4 then
      match parseTankPacket rawBuffer with
      | some t => .tank t
      | none => .raw
    else .raw

/-- buildTankPacket: copy the 60-byte header, overwrite message type,
sub-type, net ids, state, info and the extra length, and append the
extra payload.  The source throws on a header shorter than 60 bytes;
that error case is modelled as an empty buffer. -/
def buildTankPacket (header : List Nat) (packetType : Nat) (netId targetNetId : Int)
    (state : Nat) (info : Int) (extra : List Nat) : List Nat :=
  if header.length < 60 then []
  else
    let h := writeBytes header 0 (toLE4 4)
    let h := writeBytes h 4 [packetType % 256]
    let h := writeBytes h 8 (toLE4 (intToU32 netId))
    let h := writeBytes h 12 (toLE4 (intToU32 targetNetId))
    let h := writeBytes h 16 (toLE4 state)
    let h := writeBytes h 24 (toLE4 (intToU32 info))
    let h := writeBytes h 56 (toLE4 extra.length)
    h.take 60 ++ extra

/-- The decoded payload of an OnSendToServer variant call. -/
structure SendToServerPayload where
  port : JsNumber
  token : JsNumber
  user : JsNumber
  address : List Nat
  doorId : List Nat
  uuidToken : List Nat
  loginMode : JsNumber
  username : List Nat
  deriving DecidableEq, Repr

/-- Number(args[i]) on a sparse args array (a hole coerces to NaN). -/
def numberOfArg (args : List (Option JsValue)) (i : Nat) : JsNumber :=
  match getArg args i with
  | some v => Js.valueToNumber v
  | none => .nan

/-- parseOnSendToServer: require at least five arguments; coerce the
port, token, user and login-mode arguments through Number()-or-0; the
route text is argument 4 when it is a string; the upstream address is
the route text before its first pipe, and door id and uuid token are
the first two values of the route record keyed by that address. -/
def parseOnSendToServer (args : List (Option JsValue)) : Option SendToServerPayload :=
  if args.length < 5 then none
  else
    let port := Js.or0 (numberOfArg args 1)
    let token := Js.or0 (numberOfArg args 2)
    let user := Js.or0 (numberOfArg args 3)
    let rawText := match getArg args 4 with | some (.str s) => s | _ => []
    let loginMode := Js.or0 (match getArg args 5 with | some v => Js.valueToNumber v | none => .int 0)
    let username := match getArg args 6 with | some (.str s) => s | _ => []
    let key := rawText.takeWhile (fun b => ¬ b = 124)
    let text := TextParse.parse rawText 10 124
    some { port, token, user, address := key,
           doorId := TextParse.get text key 0, uuidToken := TextParse.get text key 1,
           loginMode, username }

/-- A spawned world participant (the parseOnSpawn result). -/
structure Participant where
  spawn : List Nat
  netId : Int
  userId : Int
  name : List Nat
  type : List Nat
  deriving DecidableEq, Repr

/-- parseOnSpawn: argument 1 must be a string; parse it as records and
read the spawn, netID (default −1), userID, name and type keys. -/
def parseOnSpawn (args : List (Option JsValue)) : Option Participant :=
  if args.length < 2 then none
  else
    match getArg args 1 with
    | some (.str s) =>
      let parser := TextParse.parse s 10 124
      some { spawn := TextParse.get parser (ascii "spawn") 0,
             netId := TextParse.getIntBytes parser (ascii "netID") 0 (-1),
             userId := TextParse.getIntBytes parser (ascii "userID") 0 0,
             name := TextParse.get parser (ascii "name") 0,
             type := TextParse.get parser (ascii "type") 0 }
    | _ => none

/-- parseOnRemove: read the netID key (default −1) of argument 1 when it
is a string, of the empty record otherwise. -/
def parseOnRemove (args : List (Option JsValue)) : Option Int :=
  if args.length < 2 then none
  else
    let netData := match getArg args 1 with | some (.str s) => s | _ => []
    some (TextParse.getIntBytes (TextParse.parse netData 10 124) (ascii "netID") 0 (-1))

/-! ## World state (src/worldState.js) -/

/-- Map.prototype.set semantics on an association list: replace the
value under an existing key in place, else append. -/
def mapSet {κ β : Type} [DecidableEq κ] (m : List (κ × β)) (k : κ) (v : β) : List (κ × β) :=
  if m.any (fun e => e.1 = k) then m.map (fun e => if e.1 = k then (k, v) else e)
  else m ++ [(k, v)]

/-- The world state: participants keyed by net id, and the local net id
(−1 when unknown). -/
structure WorldState where
  players : List (Int × Participant)
  localNetId : Int
  deriving DecidableEq, Repr

/-- The initial (and cleared) world state. -/
def WorldState.clear : WorldState :=
  { players := [], localNetId := -1 }

/-- WorldState.onSpawn: ignore negative net ids; store the participant
under its net id and record the local net id when its type is local. -/
def WorldState.onSpawn (w : WorldState) (payload : Participant) : WorldState :=
  if payload.netId < 0 then w
  else
    { players := mapSet w.players payload.netId payload,
      localNetId := if payload.type = ascii "local" then payload.netId else w.localNetId }

/-- WorldState.onRemove: ignore negative net ids; delete the entry and
reset the local net id when it matched the removed id. -/
def WorldState.onRemove (w : WorldState) (netId : Int) : WorldState :=
  if netId < 0 then w
  else
    { players := w.players.filter (fun e => ¬ e.1 = netId),
      localNetId := if w.localNetId = netId then -1 else w.localNetId }

/-! ## Task scheduler (src/taskScheduler.js)

Real time is not modelled: a timer is an entry of the `live` registry
(the setTimeout queue) and firing is an explicit event on a timer id.
Timer ids are allocated from 1 upward, so an id is always truthy. -/

/-- Scheduler state: the next timer id, the registry of armed timers
(id, captured tag, callback), and the tag map. -/
structure TaskScheduler (κ : Type) where
  nextId : Nat
  live : List (Nat × List Char × κ)
  tasksByTag : List (List Char × Nat)
  deriving Repr

/-- The initial scheduler. -/
def TaskScheduler.init (κ : Type) : TaskScheduler κ :=
  { nextId := 1, live := [], tasksByTag := [] }

/-- TaskScheduler.cancelByTag: look the tag up; when found, clearTimeout
the stored id and drop the mapping, reporting success. -/
def TaskScheduler.cancelByTag {κ : Type} (s : TaskScheduler κ) (tag : List Char) :
    TaskScheduler κ × Bool :=
  match s.tasksByTag.find? (fun e => e.1 = tag) with
  | none => (s, false)
  | some (_, timeoutId) =>
    ({ s with live := s.live.filter (fun e => ¬ e.1 = timeoutId),
              tasksByTag := s.tasksByTag.filter (fun e => ¬ e.1 = tag) }, true)

/-- TaskScheduler.scheduleDelayed: a non-empty tag first cancels its
prior task; a fresh timer is armed, and a non-empty tag is mapped to the
new id.  The delay only orders real time and is not modelled. -/
def TaskScheduler.scheduleDelayed {κ : Type} (s : TaskScheduler κ) (callback : κ)
    (delayMs : Nat) (tag : List Char) : TaskScheduler κ × Nat :=
  let s1 := if tag.isEmpty then s else (s.cancelByTag tag).1
  let timeoutId := s1.nextId
  let s2 : TaskScheduler κ :=
    { s1 with nextId := s1.nextId + 1, live := s1.live ++ [(timeoutId, tag, callback)] }
  let s3 := if tag.isEmpty then s2 else { s2 with tasksByTag := mapSet s2.tasksByTag tag timeoutId }
  (s3, timeoutId)

/-- Firing the timer with a given id: a cleared timer does nothing;
an armed one is consumed, its closure drops the captured tag's mapping,
and its callback is returned as the computation that runs (exceptions
inside it are swallowed by the source). -/
def TaskScheduler.fire {κ : Type} (s : TaskScheduler κ) (timeoutId : Nat) :
    TaskScheduler κ × Option κ :=
  match s.live.find? (fun e => e.1 = timeoutId) with
  | none => (s, none)
  | some (_, tag, cb) =>
    ({ s with live := s.live.filter (fun e => ¬ e.1 = timeoutId),
              tasksByTag := if tag.isEmpty then s.tasksByTag
                            else s.tasksByTag.filter (fun e => ¬ e.1 = tag) },
     some cb)

/-! ## Command registry (src/commandRegistry.js)

A handler is modelled by the outcome of invoking it: normal return or a
thrown error.  Character case mapping is ASCII (the name class the
registry matches is ASCII). -/

namespace Js

/-- Fuel-driven scanner for global fixed-pattern replacement; the fuel,
at least the text length, makes it kernel-reducible, and each step
consumes at least one character. -/
def replaceAllGo (pat repl : List Char) : Nat → List Char → List Char
  | 0, s => s
  | fuel + 1, s =>
    match s with
    | [] => []
    | a :: rest =>
      if pat.isPrefixOf (a :: rest) then
        repl ++ replaceAllGo pat repl fuel ((a :: rest).drop pat.length)
      else a :: replaceAllGo pat repl fuel rest

/-- Left-to-right, non-overlapping global replacement of a fixed
non-empty pattern (String.prototype.replace with a global literal-text
regex). -/
def replaceAll (pat repl : List Char) (s : List Char) : List Char :=
  if pat.isEmpty then s else replaceAllGo pat repl (s.length + 1) s

/-- Fuel-driven splitter on runs of whitespace: the segment collected so
far is emitted at each run, and a trailing run emits a final empty
segment. -/
def wsSplitGo : Nat → List Char → List Char → List (List Char)
  | 0, _, acc => [acc.reverse]
  | fuel + 1, s, acc =>
    match s with
    | [] => [acc.reverse]
    | c :: rest =>
      if isWhitespaceChar c then
        acc.reverse :: wsSplitGo fuel (rest.dropWhile isWhitespaceChar) []
      else wsSplitGo fuel rest (c :: acc)

/-- String.prototype.split on a whitespace-run regex. -/
def wsSplit (s : List Char) : List (List Char) :=
  wsSplitGo (s.length + 1) s []

end Js

/-- A character of the command-name class, lower-case letters, digits,
underscore and hyphen. -/
def isNameChar (c : Char) : Bool :=
  (97 ≤ c.toNat ∧ c.toNat ≤ 122) ∨ (48 ≤ c.toNat ∧ c.toNat ≤ 57) ∨
  c.toNat = 95 ∨ c.toNat = 45

/-- The leading run matched by a `[a-z0-9_-]+` pattern anchored at the
start; empty when the pattern does not match. -/
def matchLeadingNameRun : List Char → List Char
  | [] => []
  | c :: rest => if isNameChar c then c :: matchLeadingNameRun rest else []

/-- The command registry: the configured prefix and the registered
commands, each carrying the outcome its handler produces when invoked. -/
structure CommandRegistry (ε : Type) where
  cmdPrefix : List Char
  commands : List (List Char × Except ε Unit)

/-- CommandRegistry.normalizeInput: remove control bytes 0x00..0x1f,
strip one leading byte-order mark, and trim leading whitespace. -/
def CommandRegistry.normalizeInput (text : List Char) : List Char :=
  let noControls := text.filter (fun c => ¬ c.toNat ≤ 0x1f)
  let noBom :=
    match noControls with
    | c :: rest => if c.toNat = 0xfeff then rest else noControls
    | [] => []
  Js.trimStart noBom

/-- CommandRegistry.get: look a name up after trimming and
lower-casing it. -/
def CommandRegistry.getCmd {ε : Type} (reg : CommandRegistry ε) (name : List Char) :
    Option (Except ε Unit) :=
  (reg.commands.find? (fun e => e.1 = (Js.trim name).map Char.toLower)).map (fun e => e.2)

/-- CommandRegistry.parse: normalize; require the prefix; strip it and
trim; split the remainder on whitespace; lower-case the first token and
match the leading name run; `none` when any step fails.  The result is
the matched name and the remaining tokens. -/
def CommandRegistry.parse {ε : Type} (reg : CommandRegistry ε) (text : List Char) :
    Option (List Char × List (List Char)) :=
  let normalized := CommandRegistry.normalizeInput text
  if ¬ reg.cmdPrefix.isPrefixOf normalized then none
  else
    let clean := Js.trim (normalized.drop reg.cmdPrefix.length)
    if clean.isEmpty then none
    else
      match Js.wsSplit clean with
      | [] => none
      | rawTok :: restTokens =>
        let rawName := rawTok.map Char.toLower
        match matchLeadingNameRun rawName with
        | [] => none
        | c :: cs => some (c :: cs, restTokens)

/-- CommandRegistry.execute: dispatch the parsed name to its handler
when registered.  The boolean is the return value (a handler ran); the
second component is the error the source catches and logs when the
handler throws, never propagated. -/
def CommandRegistry.execute {ε : Type} (reg : CommandRegistry ε) (text : List Char) :
    Bool × Option ε :=
  match reg.parse text with
  | none => (false, none)
  | some (name, _) =>
    match reg.getCmd name with
    | none => (false, none)
    | some (.ok _) => (true, none)
    | some (.error e) => (true, some e)

/-! ## Bootstrap response rewrite (src/proxyCore.js, handleServerDataRequest)

The upstream fetch, host fallback and DNS are network effects; the
modelled function is the pure rewrite applied to a fetched response
body, from the passthrough extraction to the returned output, together
with the pending endpoint it records.  The unparseable-body throw is
`none`. -/

/-- normalizeServerDataBody: CRLF to LF, then the inline
carriage-return fixups for type, beta_type and meta keys. -/
def normalizeServerDataBody (rawBody : List Char) : List Char :=
  let n1 := Js.replaceAll ['\r', '\n'] ['\n'] rawBody
  let n2 := Js.replaceAll ('\r' :: "type|".toList) ('\n' :: "type|".toList) n1
  let n3 := Js.replaceAll ('\r' :: "beta_type|".toList) ('\n' :: "beta_type|".toList) n2
  Js.replaceAll ('\r' :: "meta|".toList) ('\n' :: "meta|".toList) n3

/-- extractServerDataPassthroughLines: normalize CRLF, split on LF, trim
each line, and keep the non-empty lines containing no pipe. -/
def extractServerDataPassthroughLines (rawBody : List Char) : List (List Char) :=
  ((TextParse.splitOn '\n' (Js.replaceAll ['\r', '\n'] ['\n'] rawBody)).map Js.trim).filter
    (fun line => ¬ line.isEmpty ∧ ¬ line.contains '|')

/-- ASCII decimal characters of a natural number (String(port)). -/
def natDecimalChars (n : Nat) : List Char :=
  (Js.natDecimal n).map Char.ofNat

/-- The outcome of the server_data rewrite: the recorded pending
endpoint and the response body handed back to the client. -/
structure ServerDataResult where
  pendingAddress : List Char
  pendingPort : Int
  body : List Char
  deriving DecidableEq, Repr

/-- The `parser.set("type", "1")` guard: ensure a type record is
present. -/
def serverDataEnsureType (parser0 : TextParse.Entries Char) : TextParse.Entries Char :=
  if TextParse.containsKey parser0 "type".toList then parser0
  else TextParse.set parser0 "type".toList ["1".toList]

/-- The three forced records of the rewrite: server, port and type2. -/
def serverDataForce (cfgServerPort : Nat) (parser0 : TextParse.Entries Char) :
    TextParse.Entries Char :=
  TextParse.set (TextParse.set (TextParse.set (serverDataEnsureType parser0)
    "server".toList ["127.0.0.1".toList]) "port".toList [natDecimalChars cfgServerPort])
    "type2".toList ["1".toList]

/-- The record rewrite of handleServerDataRequest: ensure a type
record, force server, port and type2, and drop the maintenance records
when the first #maint value is non-empty and the ignore flag is set. -/
def serverDataRecords (cfgServerPort : Nat) (ignoreMaintenance : Bool)
    (parser0 : TextParse.Entries Char) : TextParse.Entries Char :=
  if ¬ (TextParse.get (serverDataForce cfgServerPort parser0) "#maint".toList 0).isEmpty ∧
      ignoreMaintenance then
    TextParse.removeKey
      (TextParse.removeKey (serverDataForce cfgServerPort parser0) "#maint".toList)
      "maint".toList
  else serverDataForce cfgServerPort parser0

/-- The passthrough re-append loop at the end of the handler: each
passthrough line not already contained in the output is appended on a
fresh line (or becomes the output when it was empty). -/
def appendPassthroughLines (output0 : List Char) (passthroughLines : List (List Char)) :
    List Char :=
  passthroughLines.foldl
    (fun out line =>
      if decide (line <:+: out) then out
      else if out.isEmpty then line else out ++ '\n' :: line)
    output0

/-- The rewrite tail of handleServerDataRequest on a fetched body,
assembled from the record rewrite and the passthrough re-append. -/
def handleServerDataRewrite (cfgServerPort : Nat) (ignoreMaintenance : Bool)
    (responseBody : List Char) : Option ServerDataResult :=
  if (TextParse.parse (normalizeServerDataBody responseBody) '\n' '|').isEmpty then none
  else
    some { pendingAddress :=
             TextParse.get (TextParse.parse (normalizeServerDataBody responseBody) '\n' '|')
               "server".toList 0,
           pendingPort :=
             TextParse.getIntChars
               (TextParse.parse (normalizeServerDataBody responseBody) '\n' '|')
               "port".toList 0 65535,
           body := appendPassthroughLines
             (TextParse.getRaw
               (serverDataRecords cfgServerPort ignoreMaintenance
                 (TextParse.parse (normalizeServerDataBody responseBody) '\n' '|'))
               '\n' '|')
             (extractServerDataPassthroughLines responseBody) }

/-! ## Client-bound relay slice (src/proxyCore.js, handleClientBoundPacket)

The modelled slice is the state the handler mutates and the frame it
forwards: the pending endpoint, the world state, and `context.raw`.
Script hooks (no subscribers are registered in the model), logging, and
the upstream connect attempts are identity on both.  Forwarding itself
is gated on the client peer being present; the returned buffer is the
frame handed to sendToClient. -/

/-- The relay state touched by a client-bound frame. -/
structure RelayState where
  pendingAddress : List Nat
  pendingPort : JsNumber
  world : WorldState
  deriving DecidableEq, Repr

/-- handleClientBoundPacket: classify the frame; an OnSendToServer
variant records the decoded endpoint as pending and forwards the
rewritten tank (preserving the trailing-NUL presence), falling back to
the original frame when the rewrite declines; OnSpawn and OnRemove
update the world; every other frame is forwarded unchanged. -/
def handleClientBoundPacket (cfgServerPort : Nat) (st : RelayState) (rawData : List Nat) :
    RelayState × List Nat :=
  let hadTrailingNull := ¬ rawData.isEmpty ∧ rawData.getLast? = some 0
  match parsePacket rawData with
  | .tank t =>
    match t.packetId, t.variantArgs with
    | .onSendToServer, some args =>
      (match parseOnSendToServer args with
       | some sendToServer =>
         let st1 := { st with pendingAddress := sendToServer.address,
                              pendingPort := sendToServer.port }
         (match rewriteOnSendToServerExtra t.extra (ascii "127.0.0.1") (.int cfgServerPort) with
          | some modifiedExtra =>
            let modifiedTank :=
              buildTankPacket t.header 1 t.netId t.targetNetId t.state t.info modifiedExtra
            (st1, if hadTrailingNull then ensureNullTerminator modifiedTank else modifiedTank)
          | none => (st1, rawData))
       | none => (st, rawData))
    | .onSpawn, some args =>
      (match parseOnSpawn args with
       | some spawnData => ({ st with world := st.world.onSpawn spawnData }, rawData)
       | none => (st, rawData))
    | .onRemove, some args =>
      (match parseOnRemove args with
       | some netId => ({ st with world := st.world.onRemove netId }, rawData)
       | none => (st, rawData))
    | _, _ => (st, rawData)
  | _ => (st, rawData)

/-! ## Specification-side predicates used by the claims -/

/-- Well-formed variant layout, stated from the data-model description
independently of the decoder: starting from a declared count, each entry
is an index byte, a recognized type tag, and an in-bounds payload of the
tag's size (strings declare their own length).  Trailing bytes after the
counted entries are permitted. -/
def validEntryRun : Nat → List Nat → Bool
  | 0, _ => true
  | n + 1, bytes =>
    match bytes with
    | _ :: t :: rest =>
      if t = 1 ∨ t = 5 ∨ t = 9 then
        decide (4 ≤ rest.length) && validEntryRun n (rest.drop 4)
      else if t = 2 then
        match rest with
        | a :: b :: c :: d :: r =>
          decide (le4 a b c d ≤ r.length) && validEntryRun n (r.drop (le4 a b c d))
        | _ => false
      else if t = 3 then
        decide (8 ≤ rest.length) && validEntryRun n (rest.drop 8)
      else if t = 4 then
        decide (12 ≤ rest.length) && validEntryRun n (rest.drop 12)
      else false
    | _ => false

/-- An argument that round-trips at the precision the round-trip claim
states: a string of at most 2^32 − 1 bytes, an integer representable by
the UNSIGNED or SIGNED tags, a finite non-integer float32 value, or a
2- or 3-component vector whose components survive the
Number-or-0-then-float32 store bit-exactly. -/
def wfRoundTripArg : JsValue → Bool
  | .str s => decide (s.length < 2 ^ 32)
  | .num (.int n) => decide (-(2 ^ 31 : Int) ≤ n ∧ n < 2 ^ 32)
  | .num (.flt b) => decide (b < 2 ^ 32) && decide (F32.toJsNumber b = .flt b)
  | .num _ => false
  | .vec comps =>
    decide (2 ≤ comps.length ∧ comps.length ≤ 3) &&
    comps.all (fun c => decide (Js.toF32Bits (Js.or0 c) < 2 ^ 32)
      && decide (F32.toJsNumber (Js.toF32Bits (Js.or0 c)) = c))
  | .other => false

/-- A decoded entry whose retained slice re-parses to exactly itself in
front of any continuation (the localization property a parsed or rebuilt
slice enjoys). -/
def entryReparses (e : VariantEntry) : Prop :=
  ∃ enc, e.encoded = some enc ∧ ∀ s, parseVariantEntry (enc ++ s) = some (e, s)

/-- The concatenation of the retained slices of a list of entries. -/
def encodedChunks (es : List VariantEntry) : List Nat :=
  (es.map fun e => e.encoded.getD []).flatten

/-- A line that parses as a record with the given key: at least two
tokens, the first being the key. -/
def isRecordLineWithKey (key line : List Char) : Bool :=
  match TextParse.tokenize line '|' with
  | k :: _ :: _ => k = key
  | _ => false

/-- The lines of an emitted body. -/
def bodyLines (s : List Char) : List (List Char) :=
  TextParse.splitOn '\n' s

/-- A token free of the newline and pipe delimiters. -/
def tokenWfChar (t : List Char) : Bool :=
  decide ('\n' ∉ t) && decide ('|' ∉ t)

/-- A well-formed record entry: non-empty delimiter-free key and a
non-empty list of delimiter-free values. -/
def entryWfChar (e : List Char × List (List Char)) : Bool :=
  (¬ e.1.isEmpty) && tokenWfChar e.1 && (¬ e.2.isEmpty) && e.2.all tokenWfChar

/-- The dispatch condition of the command registry, stated from the
spec's words: the normalized text starts with the prefix; after the
prefix, the trimmed remainder's first whitespace-separated token has a
non-empty longest leading run of name characters (case-insensitively),
and that run names a registered command. -/
def dispatchCond {ε : Type} (reg : CommandRegistry ε) (text : List Char) : Bool :=
  let n := CommandRegistry.normalizeInput text
  reg.cmdPrefix.isPrefixOf n &&
  (let clean := Js.trim (n.drop reg.cmdPrefix.length)
   match Js.wsSplit clean with
   | tok :: _ =>
     let name := (tok.map Char.toLower).takeWhile isNameChar
     (¬ name.isEmpty) && (reg.getCmd name).isSome
   | [] => false)

/-- The claim's literal reading of the dispatch condition: the first
whitespace-separated token itself (not merely its leading run) matches
the name class case-insensitively and names a registered command. -/
def claimTokenCond {ε : Type} (reg : CommandRegistry ε) (text : List Char) : Bool :=
  let n := CommandRegistry.normalizeInput text
  reg.cmdPrefix.isPrefixOf n &&
  (let clean := Js.trim (n.drop reg.cmdPrefix.length)
   match Js.wsSplit clean with
   | tok :: _ =>
     (¬ tok.isEmpty) && (tok.map Char.toLower).all isNameChar && (reg.getCmd tok).isSome
   | [] => false)

/-- A world-state operation: a spawn notification, a removal, or a
clear. -/
inductive WorldOp where
  | spawnOp (p : Participant)
  | removeOp (netId : Int)
  | clearOp
  deriving Repr

/-- Apply one world-state operation. -/
def WorldState.applyOp (w : WorldState) : WorldOp → WorldState
  | .spawnOp p => w.onSpawn p
  | .removeOp netId => w.onRemove netId
  | .clearOp => WorldState.clear

/-- Run a sequence of world-state operations. -/
def WorldState.runOps (w : WorldState) (ops : List WorldOp) : WorldState :=
  ops.foldl WorldState.applyOp w

/-- A sequence in which no spawn replaces the participant currently
recorded as local with a non-local participant (evaluated against the
state at which each operation applies). -/
def safeOps : WorldState → List WorldOp → Bool
  | _, [] => true
  | w, op :: rest =>
    (match op with
     | .spawnOp p => decide (p.type = ascii "local") || decide (¬ p.netId = w.localNetId)
     | _ => true) && safeOps (w.applyOp op) rest

/-- Whether a participant of type local is known. -/
def hasLocalPlayer (w : WorldState) : Bool :=
  w.players.any (fun e => e.2.type = ascii "local")

/-- Scheduler well-formedness: armed timer ids are below the allocation
counter, and the tag map has no duplicate keys. -/
def TaskScheduler.wfSched {κ : Type} (s : TaskScheduler κ) : Prop :=
  (∀ e ∈ s.live, e.1 < s.nextId) ∧ (s.tasksByTag.map (fun e => e.1)).Nodup

/-! ## Shared arithmetic lemmas -/

theorem le4_toLE4 {n : Nat} (h : n < 2 ^ 32) :
    le4 (n % 256) (n / 256 % 256) (n / 65536 % 256) (n / 16777216 % 256) = n := by
  simp only [le4]
  omega

theorem toSigned32_intToU32 {n : Int} (h1 : -(2 ^ 31) ≤ n) (h2 : n < 2 ^ 31) :
    toSigned32 (intToU32 n) = n := by
  simp only [toSigned32, intToU32]
  omega

theorem intToU32_ofNat {n : Nat} (h : n < 2 ^ 32) : intToU32 (n : Int) = n := by
  simp only [intToU32]
  omega

/-! ## Text-line codec lemmas -/

namespace TextParse

variable {α : Type} [DecidableEq α]

theorem splitOn_ne_nil (d : α) (s : List α) : splitOn d s ≠ [] := by
  cases s with
  | nil => simp [splitOn]
  | cons a rest =>
    simp only [splitOn]
    rcases h : splitOn d rest with _ | ⟨x, xs⟩
    · simp
    · simp only [h]
      split <;> simp

theorem tokenize_push_acc (ts : List (List α)) :
    ∀ acc : List (List α), acc ≠ [] →
      ts.foldl (fun out token => if token.isEmpty && out.isEmpty then out else out ++ [token]) acc
        = acc ++ ts := by
  induction ts with
  | nil => intro acc _; simp
  | cons t rest ih =>
    intro acc h
    simp only [List.foldl_cons]
    have hacc : acc.isEmpty = false := by
      cases acc with
      | nil => exact absurd rfl h
      | cons x xs => rfl
    rw [hacc]
    simp only [Bool.and_false, Bool.false_eq_true, if_false]
    rw [ih (acc ++ [t]) (by simp)]
    simp

theorem tokenize_foldl_nil (ts : List (List α)) :
    ts.foldl (fun out token => if token.isEmpty && out.isEmpty then out else out ++ [token]) []
      = ts.dropWhile (fun t => t.isEmpty) := by
  induction ts with
  | nil => simp
  | cons t rest ih =>
    simp only [List.foldl_cons, List.dropWhile_cons]
    by_cases ht : t.isEmpty
    · simp only [ht, List.isEmpty_nil, Bool.and_self, if_true]
      simpa [ht] using ih
    · have h1 := tokenize_push_acc rest [t] (by simp)
      have ht' : t.isEmpty = false := by simpa using ht
      simp only [List.foldl_cons, List.dropWhile_cons, ht', Bool.false_and, Bool.false_eq_true,
        if_false, List.nil_append]
      rw [h1]
      simp

/-- Tokenization as the spec-level operation: the split segments with
every leading empty token removed (and all later empty tokens kept). -/
theorem tokenize_eq_dropWhile (raw : List α) (d : α) :
    tokenize raw d = (splitOn d raw).dropWhile (fun t => t.isEmpty) := by
  unfold tokenize
  by_cases h : raw.isEmpty
  · rw [if_pos h]
    rw [List.isEmpty_iff.mp h]
    simp [splitOn]
  · rw [if_neg h]
    exact tokenize_foldl_nil _

theorem parse_foldl_acc (d : α) (lines : List (List α)) :
    ∀ acc : Entries α,
      lines.foldl
        (fun es line =>
          let tokens := tokenize line d
          if tokens.length < 2 then es
          else es ++ [(tokens.headD [], tokens.tail)])
        acc
      = acc ++ lines.filterMap (fun line =>
          match tokenize line d with
          | k :: v :: vs => some (k, v :: vs)
          | _ => none) := by
  induction lines with
  | nil => intro acc; simp
  | cons line rest ih =>
    intro acc
    simp only [List.foldl_cons, List.filterMap_cons]
    rcases htok : tokenize line d with _ | ⟨k, _ | ⟨v, vs⟩⟩
    · simpa [htok] using ih acc
    · simpa [htok] using ih acc
    · have hlen : ¬ ((k :: v :: vs).length < 2) := by
        simp only [List.length_cons]
        omega
      rw [if_neg hlen]
      rw [ih (acc ++ [((k :: v :: vs).headD [], (k :: v :: vs).tail)])]
      simp

/-- Record parsing as the spec-level operation: the kept lines are
exactly those with at least two tokens, each contributing the record
(first token, remaining tokens), in order. -/
theorem parse_eq_filterMap (raw : List α) (nl d : α) :
    parse raw nl d = (splitOn nl raw).filterMap (fun line =>
      match tokenize line d with
      | k :: v :: vs => some (k, v :: vs)
      | _ => none) := by
  unfold parse
  simpa using parse_foldl_acc d (splitOn nl raw) []

end TextParse

/-! ## Claim C9: tokenization and record parsing -/

/-- Claim C9, counterexample to the literal claim: tokenizing the text
with two leading empty tokens drops both of them, where the claim (one
leading empty token dropped, all other empty tokens preserved) expects
the second one to survive. -/
theorem claim9_counterexample :
    TextParse.tokenize [(124 : Nat), 124, 97] 124 = [[97]] ∧
      TextParse.tokenize [(124 : Nat), 124, 97] 124 ≠ [[], [97]] := by
  constructor
  · decide
  · decide

/-- Claim C9 (amended): tokenization drops every leading empty token,
preserving all empty tokens after the first non-empty one, and record
parsing keeps exactly the newline-separated lines with at least two
tokens, as (first token, remaining tokens), in order. -/
theorem claim9_tokenize_parse {α : Type} [DecidableEq α] (raw : List α) (nl d : α) :
    TextParse.tokenize raw d = (TextParse.splitOn d raw).dropWhile (fun t => t.isEmpty) ∧
    TextParse.parse raw nl d = (TextParse.splitOn nl raw).filterMap (fun line =>
      match TextParse.tokenize line d with
      | k :: v :: vs => some (k, v :: vs)
      | _ => none) :=
  ⟨TextParse.tokenize_eq_dropWhile raw d, TextParse.parse_eq_filterMap raw nl d⟩

/-! ## Claim C5: automatic tag selection when encoding -/

/-- Claim C5: a finite integer in [0, 2^32 − 1] encodes as UNSIGNED with
its unsigned 32-bit little-endian payload; a finite integer in
[−2^31, −1] as SIGNED with its two's-complement payload; a non-finite
number as STRING whose payload is its textual form. -/
theorem claim5_encode_tags (i : Nat) (n : Int) (x : JsNumber) :
    (0 ≤ n ∧ n < 2 ^ 32 →
      encodeArg i (.num (.int n)) = i % 256 :: 5 :: toLE4 n.toNat) ∧
    (-(2 ^ 31 : Int) ≤ n ∧ n < 0 →
      encodeArg i (.num (.int n)) = i % 256 :: 9 :: toLE4 (intToU32 n)) ∧
    ((x = .nan ∨ x = .inf ∨ x = .negInf) →
      encodeArg i (.num x) = i % 256 :: 2 :: toLE4 (Js.numberToText x).length
        ++ Js.numberToText x) := by
  refine ⟨fun h => ?_, fun h => ?_, fun h => ?_⟩
  · rw [encodeArg, if_pos (by omega)]
  · rw [encodeArg, if_neg (by omega), if_pos (by omega)]
    rfl
  · rcases h with h | h | h <;> subst h <;> rfl

/-- Witness for claim C5 at concrete inputs. -/
theorem claim5_witness :
    encodeArg 3 (.num (.int 4294967295)) = 3 % 256 :: 5 :: toLE4 (4294967295 : Int).toNat ∧
    encodeArg 3 (.num (.int (-5))) = 3 % 256 :: 9 :: toLE4 (intToU32 (-5)) ∧
    encodeArg 3 (.num .nan) = 3 % 256 :: 2 :: toLE4 (Js.numberToText .nan).length
      ++ Js.numberToText .nan :=
  ⟨(claim5_encode_tags 3 4294967295 .nan).1 (by constructor <;> decide),
   (claim5_encode_tags 3 (-5) .nan).2.1 (by constructor <;> decide),
   (claim5_encode_tags 3 0 .nan).2.2 (Or.inl rfl)⟩

/-! ## Claim C8: malformed variant buffers fail as a whole -/

theorem parseVariantLoop_isSome_eq (n : Nat) : ∀ buf : List Nat,
    (parseVariantLoop n buf).isSome = validEntryRun n buf := by
  induction n with
  | zero => intro buf; rfl
  | succ n ih =>
    intro buf
    match buf with
    | [] => rfl
    | [i] => rfl
    | i :: t :: rest =>
      by_cases h1 : t = 1
      · subst h1
        match rest with
        | [] => rfl
        | [a] => rfl
        | [a, b] => rfl
        | [a, b, c] => rfl
        | a :: b :: c :: d :: r =>
          have hL : parseVariantLoop (n + 1) (i :: 1 :: a :: b :: c :: d :: r)
              = (match parseVariantLoop n r with
                 | none => none
                 | some es => some (VariantEntry.mk i 1
                     (JsValue.num (F32.toJsNumber (le4 a b c d)))
                     (some [i, 1, a, b, c, d]) :: es)) := rfl
          have hR : validEntryRun (n + 1) (i :: 1 :: a :: b :: c :: d :: r)
              = (decide (4 ≤ (a :: b :: c :: d :: r).length) && validEntryRun n r) := rfl
          rw [hL, hR]
          have h4 : decide (4 ≤ (a :: b :: c :: d :: r).length) = true := by simp
          rw [h4, Bool.true_and, ← ih r]
          cases parseVariantLoop n r <;> rfl
      by_cases h2 : t = 2
      · subst h2
        match rest with
        | [] => rfl
        | [a] => rfl
        | [a, b] => rfl
        | [a, b, c] => rfl
        | a :: b :: c :: d :: r =>
          have hE : parseVariantEntry (i :: 2 :: a :: b :: c :: d :: r)
              = (if le4 a b c d ≤ r.length then
                   some (VariantEntry.mk i 2 (JsValue.str (r.take (le4 a b c d)))
                           (some ([i, 2, a, b, c, d] ++ r.take (le4 a b c d))),
                         r.drop (le4 a b c d))
                 else none) := rfl
          have hR : validEntryRun (n + 1) (i :: 2 :: a :: b :: c :: d :: r)
              = (decide (le4 a b c d ≤ r.length) && validEntryRun n (r.drop (le4 a b c d))) := rfl
          by_cases hlen : le4 a b c d ≤ r.length
          · have hL : parseVariantLoop (n + 1) (i :: 2 :: a :: b :: c :: d :: r)
                = (match parseVariantLoop n (r.drop (le4 a b c d)) with
                   | none => none
                   | some es => some (VariantEntry.mk i 2 (JsValue.str (r.take (le4 a b c d)))
                       (some ([i, 2, a, b, c, d] ++ r.take (le4 a b c d))) :: es)) := by
              rw [show parseVariantLoop (n + 1) (i :: 2 :: a :: b :: c :: d :: r)
                  = (match parseVariantEntry (i :: 2 :: a :: b :: c :: d :: r) with
                     | none => none
                     | some (e, after) =>
                       match parseVariantLoop n after with
                       | none => none
                       | some es => some (e :: es)) from rfl]
              rw [hE, if_pos hlen]
            rw [hL, hR, decide_eq_true hlen, Bool.true_and, ← ih (r.drop (le4 a b c d))]
            cases parseVariantLoop n (r.drop (le4 a b c d)) <;> rfl
          · have hL : parseVariantLoop (n + 1) (i :: 2 :: a :: b :: c :: d :: r) = none := by
              rw [show parseVariantLoop (n + 1) (i :: 2 :: a :: b :: c :: d :: r)
                  = (match parseVariantEntry (i :: 2 :: a :: b :: c :: d :: r) with
                     | none => none
                     | some (e, after) =>
                       match parseVariantLoop n after with
                       | none => none
                       | some es => some (e :: es)) from rfl]
              rw [hE, if_neg hlen]
            rw [hL, hR, decide_eq_false hlen, Bool.false_and]
            rfl
      by_cases h3 : t = 3
      · subst h3
        match rest with
        | [] => rfl
        | [a] => rfl
        | [a, b] => rfl
        | [a, b, c] => rfl
        | [a, b, c, d] => rfl
        | [a, b, c, d, e] => rfl
        | [a, b, c, d, e, f] => rfl
        | [a, b, c, d, e, f, g] => rfl
        | a :: b :: c :: d :: e :: f :: g :: h :: r =>
          have hL : parseVariantLoop (n + 1) (i :: 3 :: a :: b :: c :: d :: e :: f :: g :: h :: r)
              = (match parseVariantLoop n r with
                 | none => none
                 | some es => some (VariantEntry.mk i 3
                     (JsValue.vec [F32.toJsNumber (le4 a b c d), F32.toJsNumber (le4 e f g h)])
                     (some [i, 3, a, b, c, d, e, f, g, h]) :: es)) := rfl
          have hR : validEntryRun (n + 1) (i :: 3 :: a :: b :: c :: d :: e :: f :: g :: h :: r)
              = (decide (8 ≤ (a :: b :: c :: d :: e :: f :: g :: h :: r).length)
                  && validEntryRun n r) := rfl
          rw [hL, hR]
          have h8 : decide (8 ≤ (a :: b :: c :: d :: e :: f :: g :: h :: r).length) = true := by
            simp
          rw [h8, Bool.true_and, ← ih r]
          cases parseVariantLoop n r <;> rfl
      by_cases h4t : t = 4
      · subst h4t
        match rest with
        | [] => rfl
        | [a] => rfl
        | [a, b] => rfl
        | [a, b, c] => rfl
        | [a, b, c, d] => rfl
        | [a, b, c, d, e] => rfl
        | [a, b, c, d, e, f] => rfl
        | [a, b, c, d, e, f, g] => rfl
        | [a, b, c, d, e, f, g, h] => rfl
        | [a, b, c, d, e, f, g, h, x1] => rfl
        | [a, b, c, d, e, f, g, h, x1, x2] => rfl
        | [a, b, c, d, e, f, g, h, x1, x2, x3] => rfl
        | a :: b :: c :: d :: e :: f :: g :: h :: x1 :: x2 :: x3 :: x4 :: r =>
          have hL : parseVariantLoop (n + 1)
                (i :: 4 :: a :: b :: c :: d :: e :: f :: g :: h :: x1 :: x2 :: x3 :: x4 :: r)
              = (match parseVariantLoop n r with
                 | none => none
                 | some es => some (VariantEntry.mk i 4
                     (JsValue.vec [F32.toJsNumber (le4 a b c d), F32.toJsNumber (le4 e f g h),
                                    F32.toJsNumber (le4 x1 x2 x3 x4)])
                     (some [i, 4, a, b, c, d, e, f, g, h, x1, x2, x3, x4]) :: es))
              := rfl
          have hR : validEntryRun (n + 1)
                (i :: 4 :: a :: b :: c :: d :: e :: f :: g :: h :: x1 :: x2 :: x3 :: x4 :: r)
              = (decide (12 ≤
                    (a :: b :: c :: d :: e :: f :: g :: h :: x1 :: x2 :: x3 :: x4 :: r).length)
                  && validEntryRun n r) := rfl
          rw [hL, hR]
          have h12 : decide (12 ≤
              (a :: b :: c :: d :: e :: f :: g :: h :: x1 :: x2 :: x3 :: x4 :: r).length)
              = true := by simp
          rw [h12, Bool.true_and, ← ih r]
          cases parseVariantLoop n r <;> rfl
      by_cases h5 : t = 5
      · subst h5
        match rest with
        | [] => rfl
        | [a] => rfl
        | [a, b] => rfl
        | [a, b, c] => rfl
        | a :: b :: c :: d :: r =>
          have hL : parseVariantLoop (n + 1) (i :: 5 :: a :: b :: c :: d :: r)
              = (match parseVariantLoop n r with
                 | none => none
                 | some es => some (VariantEntry.mk i 5
                     (JsValue.num (.int (le4 a b c d)))
                     (some [i, 5, a, b, c, d]) :: es)) := rfl
          have hR : validEntryRun (n + 1) (i :: 5 :: a :: b :: c :: d :: r)
              = (decide (4 ≤ (a :: b :: c :: d :: r).length) && validEntryRun n r) := rfl
          rw [hL, hR]
          have h4 : decide (4 ≤ (a :: b :: c :: d :: r).length) = true := by simp
          rw [h4, Bool.true_and, ← ih r]
          cases parseVariantLoop n r <;> rfl
      by_cases h9 : t = 9
      · subst h9
        match rest with
        | [] => rfl
        | [a] => rfl
        | [a, b] => rfl
        | [a, b, c] => rfl
        | a :: b :: c :: d :: r =>
          have hL : parseVariantLoop (n + 1) (i :: 9 :: a :: b :: c :: d :: r)
              = (match parseVariantLoop n r with
                 | none => none
                 | some es => some (VariantEntry.mk i 9
                     (JsValue.num (.int (toSigned32 (le4 a b c d))))
                     (some [i, 9, a, b, c, d]) :: es)) := rfl
          have hR : validEntryRun (n + 1) (i :: 9 :: a :: b :: c :: d :: r)
              = (decide (4 ≤ (a :: b :: c :: d :: r).length) && validEntryRun n r) := rfl
          rw [hL, hR]
          have h4 : decide (4 ≤ (a :: b :: c :: d :: r).length) = true := by simp
          rw [h4, Bool.true_and, ← ih r]
          cases parseVariantLoop n r <;> rfl
      · have hE : parseVariantEntry (i :: t :: rest) = none := by
          simp only [parseVariantEntry]
          rw [if_neg h1, if_neg h2, if_neg h3, if_neg h4t, if_neg h5, if_neg h9]
        have hR : validEntryRun (n + 1) (i :: t :: rest) = false := by
          simp only [validEntryRun]
          rw [if_neg (by tauto : ¬ (t = 1 ∨ t = 5 ∨ t = 9)), if_neg h2, if_neg h3, if_neg h4t]
        rw [show parseVariantLoop (n + 1) (i :: t :: rest)
            = (match parseVariantEntry (i :: t :: rest) with
               | none => none
               | some (e, after) =>
                 match parseVariantLoop n after with
                 | none => none
                 | some es => some (e :: es)) from rfl]
        rw [hE, hR]
        rfl

/-- Claim C8: for a non-empty extra buffer, decoding fails exactly when
the declared entries are malformed (an unknown type tag or an
out-of-bounds field read), and a failed decode yields no entries at all
through parseVariantArgs. -/
theorem claim8_malformed_fails (c : Nat) (bytes : List Nat) :
    (parseVariantEntries (c :: bytes) = none ↔ validEntryRun c bytes = false) ∧
    (parseVariantEntries (c :: bytes) = none → parseVariantArgs (c :: bytes) = []) := by
  have hiso := parseVariantLoop_isSome_eq c bytes
  constructor
  · rw [show parseVariantEntries (c :: bytes)
        = (parseVariantLoop c bytes).map (fun es => ParsedVariant.mk c es) from rfl]
    constructor
    · intro hn
      rw [← hiso]
      cases hl : parseVariantLoop c bytes with
      | none => rfl
      | some es =>
        rw [hl] at hn
        simp at hn
    · intro hv
      rw [hv] at hiso
      cases hl : parseVariantLoop c bytes with
      | none => rfl
      | some es =>
        rw [hl] at hiso
        simp at hiso
  · intro hn
    rw [parseVariantArgs, hn]

/-- Witness for claim C8: a one-entry buffer with unknown tag 7 fails
wholesale. -/
theorem claim8_witness :
    parseVariantEntries [1, 0, 7] = none ∧ parseVariantArgs [1, 0, 7] = [] := by
  have h := claim8_malformed_fails 1 [0, 7]
  refine ⟨h.1.mpr (by decide), h.2 (h.1.mpr (by decide))⟩

/-! ## Variant round trip (claims C4 and C10) -/

theorem parseVariantEntry_encodeArg (k : Nat) (a : JsValue) (h : wfRoundTripArg a = true)
    (s : List Nat) :
    ∃ e : VariantEntry, parseVariantEntry (encodeArg k a ++ s) = some (e, s)
      ∧ e.index = k % 256 ∧ e.value = a := by
  cases a with
  | str s0 =>
    have hb : s0.length < 2 ^ 32 := by simpa [wfRoundTripArg] using h
    obtain ⟨b0, b1, b2, b3, hbytes, hval⟩ :
        ∃ b0 b1 b2 b3, toLE4 s0.length = [b0, b1, b2, b3] ∧ le4 b0 b1 b2 b3 = s0.length :=
      ⟨_, _, _, _, rfl, le4_toLE4 hb⟩
    refine ⟨VariantEntry.mk (k % 256) 2 (.str s0)
      (some ([k % 256, 2, b0, b1, b2, b3] ++ s0)), ?_, rfl, rfl⟩
    have hchunk : encodeArg k (.str s0) ++ s
        = k % 256 :: 2 :: b0 :: b1 :: b2 :: b3 :: (s0 ++ s) := by
      simp [encodeArg, hbytes]
    rw [hchunk]
    rw [show parseVariantEntry (k % 256 :: 2 :: b0 :: b1 :: b2 :: b3 :: (s0 ++ s))
        = (if le4 b0 b1 b2 b3 ≤ (s0 ++ s).length then
             some (VariantEntry.mk (k % 256) 2 (.str ((s0 ++ s).take (le4 b0 b1 b2 b3)))
               (some ([k % 256, 2, b0, b1, b2, b3] ++ (s0 ++ s).take (le4 b0 b1 b2 b3))),
               (s0 ++ s).drop (le4 b0 b1 b2 b3))
           else none) from rfl]
    rw [hval, if_pos (by simp)]
    rw [List.take_left, List.drop_left]
  | num x =>
    cases x with
    | int n =>
      have hrange : -(2 ^ 31 : Int) ≤ n ∧ n < 2 ^ 32 := by
        simpa [wfRoundTripArg] using h
      by_cases hpos : 0 ≤ n ∧ n ≤ 4294967295
      · have hb : n.toNat < 2 ^ 32 := by omega
        obtain ⟨b0, b1, b2, b3, hbytes, hval⟩ :
            ∃ b0 b1 b2 b3, toLE4 n.toNat = [b0, b1, b2, b3] ∧ le4 b0 b1 b2 b3 = n.toNat :=
          ⟨_, _, _, _, rfl, le4_toLE4 hb⟩
        refine ⟨VariantEntry.mk (k % 256) 5 (.num (.int n))
          (some [k % 256, 5, b0, b1, b2, b3]), ?_, rfl, rfl⟩
        have hchunk : encodeArg k (.num (.int n)) ++ s
            = k % 256 :: 5 :: b0 :: b1 :: b2 :: b3 :: s := by
          rw [encodeArg, if_pos hpos, hbytes]
          rfl
        rw [hchunk]
        rw [show parseVariantEntry (k % 256 :: 5 :: b0 :: b1 :: b2 :: b3 :: s)
            = some (VariantEntry.mk (k % 256) 5 (.num (.int (le4 b0 b1 b2 b3)))
                (some [k % 256, 5, b0, b1, b2, b3]), s) from rfl]
        rw [hval]
        have : ((n.toNat : Int)) = n := by omega
        rw [this]
      · have hneg : n < 0 := by omega
        have hb : intToU32 n < 2 ^ 32 := by
          simp only [intToU32]
          omega
        obtain ⟨b0, b1, b2, b3, hbytes, hval⟩ :
            ∃ b0 b1 b2 b3, toLE4 (intToU32 n) = [b0, b1, b2, b3]
              ∧ le4 b0 b1 b2 b3 = intToU32 n :=
          ⟨_, _, _, _, rfl, le4_toLE4 hb⟩
        refine ⟨VariantEntry.mk (k % 256) 9 (.num (.int n))
          (some [k % 256, 9, b0, b1, b2, b3]), ?_, rfl, rfl⟩
        have hchunk : encodeArg k (.num (.int n)) ++ s
            = k % 256 :: 9 :: b0 :: b1 :: b2 :: b3 :: s := by
          rw [encodeArg, if_neg hpos, if_pos (by omega)]
          rw [show Js.toUint32 (.int n) = intToU32 n from rfl, hbytes]
          rfl
        rw [hchunk]
        rw [show parseVariantEntry (k % 256 :: 9 :: b0 :: b1 :: b2 :: b3 :: s)
            = some (VariantEntry.mk (k % 256) 9 (.num (.int (toSigned32 (le4 b0 b1 b2 b3))))
                (some [k % 256, 9, b0, b1, b2, b3]), s) from rfl]
        rw [hval, toSigned32_intToU32 hrange.1 (by omega)]
    | flt b =>
      have hb : b < 2 ^ 32 ∧ F32.toJsNumber b = .flt b := by
        simpa [wfRoundTripArg] using h
      obtain ⟨b0, b1, b2, b3, hbytes, hval⟩ :
          ∃ b0 b1 b2 b3, toLE4 b = [b0, b1, b2, b3] ∧ le4 b0 b1 b2 b3 = b :=
        ⟨_, _, _, _, rfl, le4_toLE4 hb.1⟩
      refine ⟨VariantEntry.mk (k % 256) 1 (.num (.flt b))
        (some [k % 256, 1, b0, b1, b2, b3]), ?_, rfl, rfl⟩
      have hchunk : encodeArg k (.num (.flt b)) ++ s
          = k % 256 :: 1 :: b0 :: b1 :: b2 :: b3 :: s := by
        rw [encodeArg, hbytes]
        rfl
      rw [hchunk]
      rw [show parseVariantEntry (k % 256 :: 1 :: b0 :: b1 :: b2 :: b3 :: s)
          = some (VariantEntry.mk (k % 256) 1 (.num (F32.toJsNumber (le4 b0 b1 b2 b3)))
              (some [k % 256, 1, b0, b1, b2, b3]), s) from rfl]
      rw [hval, hb.2]
    | nan => simp [wfRoundTripArg] at h
    | inf => simp [wfRoundTripArg] at h
    | negInf => simp [wfRoundTripArg] at h
  | vec comps =>
    have hv := h
    rw [wfRoundTripArg, Bool.and_eq_true, decide_eq_true_eq] at hv
    obtain ⟨hlen23, hall⟩ := hv
    rw [List.all_eq_true] at hall
    match comps, hlen23 with
    | [c1, c2], _ =>
      have h1 := hall c1 (by simp)
      have h2 := hall c2 (by simp)
      rw [Bool.and_eq_true, decide_eq_true_eq, decide_eq_true_eq] at h1 h2
      obtain ⟨q0, q1, q2, q3, hqb, hqv⟩ :
          ∃ q0 q1 q2 q3, toLE4 (Js.toF32Bits (Js.or0 c1)) = [q0, q1, q2, q3]
            ∧ le4 q0 q1 q2 q3 = Js.toF32Bits (Js.or0 c1) :=
        ⟨_, _, _, _, rfl, le4_toLE4 h1.1⟩
      obtain ⟨r0, r1, r2, r3, hrb, hrv⟩ :
          ∃ r0 r1 r2 r3, toLE4 (Js.toF32Bits (Js.or0 c2)) = [r0, r1, r2, r3]
            ∧ le4 r0 r1 r2 r3 = Js.toF32Bits (Js.or0 c2) :=
        ⟨_, _, _, _, rfl, le4_toLE4 h2.1⟩
      refine ⟨VariantEntry.mk (k % 256) 3 (.vec [c1, c2])
        (some [k % 256, 3, q0, q1, q2, q3, r0, r1, r2, r3]), ?_, rfl, rfl⟩
      have hchunk : encodeArg k (.vec [c1, c2]) ++ s
          = k % 256 :: 3 :: q0 :: q1 :: q2 :: q3 :: r0 :: r1 :: r2 :: r3 :: s := by
        rw [encodeArg, if_pos (by simp)]
        simp [hqb, hrb]
      rw [hchunk]
      rw [show parseVariantEntry
            (k % 256 :: 3 :: q0 :: q1 :: q2 :: q3 :: r0 :: r1 :: r2 :: r3 :: s)
          = some (VariantEntry.mk (k % 256) 3
              (.vec [F32.toJsNumber (le4 q0 q1 q2 q3), F32.toJsNumber (le4 r0 r1 r2 r3)])
              (some [k % 256, 3, q0, q1, q2, q3, r0, r1, r2, r3]), s) from rfl]
      rw [hqv, hrv, h1.2, h2.2]
    | [c1, c2, c3], _ =>
      have h1 := hall c1 (by simp)
      have h2 := hall c2 (by simp)
      have h3 := hall c3 (by simp)
      rw [Bool.and_eq_true, decide_eq_true_eq, decide_eq_true_eq] at h1 h2 h3
      obtain ⟨q0, q1, q2, q3, hqb, hqv⟩ :
          ∃ q0 q1 q2 q3, toLE4 (Js.toF32Bits (Js.or0 c1)) = [q0, q1, q2, q3]
            ∧ le4 q0 q1 q2 q3 = Js.toF32Bits (Js.or0 c1) :=
        ⟨_, _, _, _, rfl, le4_toLE4 h1.1⟩
      obtain ⟨r0, r1, r2, r3, hrb, hrv⟩ :
          ∃ r0 r1 r2 r3, toLE4 (Js.toF32Bits (Js.or0 c2)) = [r0, r1, r2, r3]
            ∧ le4 r0 r1 r2 r3 = Js.toF32Bits (Js.or0 c2) :=
        ⟨_, _, _, _, rfl, le4_toLE4 h2.1⟩
      obtain ⟨w0, w1, w2, w3, hwb, hwv⟩ :
          ∃ w0 w1 w2 w3, toLE4 (Js.toF32Bits (Js.or0 c3)) = [w0, w1, w2, w3]
            ∧ le4 w0 w1 w2 w3 = Js.toF32Bits (Js.or0 c3) :=
        ⟨_, _, _, _, rfl, le4_toLE4 h3.1⟩
      refine ⟨VariantEntry.mk (k % 256) 4 (.vec [c1, c2, c3])
        (some [k % 256, 4, q0, q1, q2, q3, r0, r1, r2, r3, w0, w1, w2, w3]), ?_, rfl, rfl⟩
      have hchunk : encodeArg k (.vec [c1, c2, c3]) ++ s
          = k % 256 :: 4 ::
              q0 :: q1 :: q2 :: q3 :: r0 :: r1 :: r2 :: r3 :: w0 :: w1 :: w2 :: w3 :: s := by
        rw [encodeArg, if_pos (by simp)]
        simp [hqb, hrb, hwb]
      rw [hchunk]
      rw [show parseVariantEntry
            (k % 256 :: 4 ::
              q0 :: q1 :: q2 :: q3 :: r0 :: r1 :: r2 :: r3 :: w0 :: w1 :: w2 :: w3 :: s)
          = some (VariantEntry.mk (k % 256) 4
              (.vec [F32.toJsNumber (le4 q0 q1 q2 q3), F32.toJsNumber (le4 r0 r1 r2 r3),
                     F32.toJsNumber (le4 w0 w1 w2 w3)])
              (some [k % 256, 4, q0, q1, q2, q3, r0, r1, r2, r3, w0, w1, w2, w3]), s)
            from rfl]
      rw [hqv, hrv, hwv, h1.2, h2.2, h3.2]
  | other => simp [wfRoundTripArg] at h

theorem parseVariantLoop_encodeArgsFrom (args : List JsValue)
    (hwf : ∀ a ∈ args, wfRoundTripArg a = true) :
    ∀ (k : Nat) (s : List Nat),
      ∃ es : List VariantEntry,
        parseVariantLoop args.length (encodeArgsFrom k args ++ s) = some es
          ∧ es.map (fun e => e.value) = args
          ∧ es.map (fun e => e.index) = (List.range' k args.length).map (fun j => j % 256) := by
  induction args with
  | nil => intro k s; exact ⟨[], rfl, rfl, rfl⟩
  | cons a rest ih =>
    intro k s
    have ha : wfRoundTripArg a = true := hwf a (by simp)
    have hrest : ∀ b ∈ rest, wfRoundTripArg b = true := fun b hb => hwf b (by simp [hb])
    obtain ⟨e, he, heidx, heval⟩ :=
      parseVariantEntry_encodeArg k a ha (encodeArgsFrom (k + 1) rest ++ s)
    obtain ⟨es, hes, hval, hidx⟩ := ih hrest (k + 1) s
    refine ⟨e :: es, ?_, ?_, ?_⟩
    · rw [show encodeArgsFrom k (a :: rest) ++ s
          = encodeArg k a ++ (encodeArgsFrom (k + 1) rest ++ s) from by
        simp [encodeArgsFrom]]
      rw [show parseVariantLoop (a :: rest).length
            (encodeArg k a ++ (encodeArgsFrom (k + 1) rest ++ s))
          = (match parseVariantEntry (encodeArg k a ++ (encodeArgsFrom (k + 1) rest ++ s)) with
             | none => none
             | some (e2, after) =>
               match parseVariantLoop rest.length after with
               | none => none
               | some es2 => some (e2 :: es2)) from rfl]
      rw [he]
      show (match parseVariantLoop rest.length (encodeArgsFrom (k + 1) rest ++ s) with
            | none => none
            | some es2 => some (e :: es2)) = some (e :: es)
      rw [hes]
    · simp [heval, hval]
    · simp [List.range', heidx, hidx]

theorem setSparse_at_length (acc : List (Option JsValue)) (v : JsValue) :
    setSparse acc acc.length v = acc ++ [some v] := by
  simp [setSparse]

theorem argsOfEntries_consecutive :
    ∀ (es : List VariantEntry) (acc : List (Option JsValue)),
      es.map (fun e => e.index) = List.range' acc.length es.length →
      es.foldl (fun args e => setSparse args e.index e.value) acc
        = acc ++ es.map (fun e => some e.value) := by
  intro es
  induction es with
  | nil => intro acc _; simp
  | cons e rest ih =>
    intro acc hidx
    simp only [List.map_cons, List.length_cons, List.range'] at hidx
    obtain ⟨hidx0, hidxrest⟩ := List.cons.inj hidx
    simp only [List.foldl_cons]
    rw [hidx0, setSparse_at_length]
    have := ih (acc ++ [some e.value]) (by simpa using hidxrest)
    rw [this]
    simp

theorem range'_map_mod {n : Nat} (h : n ≤ 256) :
    (List.range' 0 n).map (fun j => j % 256) = List.range' 0 n := by
  have h2 : ∀ j ∈ List.range' 0 n, j % 256 = j := by
    intro j hj
    rw [List.mem_range'] at hj
    exact Nat.mod_eq_of_lt (by omega)
  have h3 : (List.range' 0 n).map (fun j => j % 256) = (List.range' 0 n).map (fun j => j) :=
    List.map_congr_left h2
  simpa using h3

/-- Shared round-trip core: encoding then decoding a well-formed list of
at most 255 arguments yields exactly the input (as a dense args array). -/
theorem variantRoundTrip (args : List JsValue)
    (hwf : ∀ a ∈ args, wfRoundTripArg a = true) (hlen : args.length ≤ 255) :
    parseVariantArgs (encodeVariantArgs args) = args.map some := by
  obtain ⟨es, hes, hval, hidx⟩ := parseVariantLoop_encodeArgsFrom args hwf 0 []
  have hmod : args.length % 256 = args.length := Nat.mod_eq_of_lt (by omega)
  rw [show encodeVariantArgs args = args.length % 256 :: encodeArgsFrom 0 args from rfl, hmod]
  rw [parseVariantArgs]
  rw [show parseVariantEntries (args.length :: encodeArgsFrom 0 args)
      = (parseVariantLoop args.length (encodeArgsFrom 0 args)).map
          (fun es2 => ParsedVariant.mk args.length es2) from rfl]
  rw [show encodeArgsFrom 0 args = encodeArgsFrom 0 args ++ [] from by simp, hes]
  show es.foldl (fun a e => setSparse a e.index e.value) [] = args.map some
  rw [argsOfEntries_consecutive es [] (by
    rw [hidx]
    rw [range'_map_mod (by omega)]
    simp
    rw [← hval]
    simp)]
  rw [← hval, List.map_map]
  rfl

theorem encodeArgsFrom_append (k : Nat) (xs ys : List JsValue) :
    encodeArgsFrom k (xs ++ ys) = encodeArgsFrom k xs ++ encodeArgsFrom (k + xs.length) ys := by
  induction xs generalizing k with
  | nil => simp [encodeArgsFrom]
  | cons x rest ih =>
    simp only [List.cons_append]
    rw [show encodeArgsFrom k (x :: (rest ++ ys))
        = encodeArg k x ++ encodeArgsFrom (k + 1) (rest ++ ys) from rfl]
    rw [show encodeArgsFrom k (x :: rest)
        = encodeArg k x ++ encodeArgsFrom (k + 1) rest from rfl]
    rw [ih (k + 1), List.append_assoc]
    rw [show k + (x :: rest).length = k + 1 + rest.length from by
      simp only [List.length_cons]
      omega]

/-- What decoding an encoded list actually recovers: the first
length-mod-256 arguments (the count byte is an 8-bit truncation of the
list length). -/
theorem parseVariantArgs_encode (args : List JsValue)
    (hwf : ∀ a ∈ args, wfRoundTripArg a = true) :
    parseVariantArgs (encodeVariantArgs args)
      = (args.take (args.length % 256)).map some := by
  have hmodlt : args.length % 256 < 256 := Nat.mod_lt _ (by decide)
  have hcle : args.length % 256 ≤ args.length := Nat.mod_le _ _
  have htake : (args.take (args.length % 256)).length = args.length % 256 := by
    simp [List.length_take]
    omega
  obtain ⟨es, hes, hval, hidx⟩ :=
    parseVariantLoop_encodeArgsFrom (args.take (args.length % 256))
      (fun a ha => hwf a (List.mem_of_mem_take ha)) 0
      (encodeArgsFrom (0 + (args.take (args.length % 256)).length)
        (args.drop (args.length % 256)))
  rw [htake] at hes hidx
  rw [show encodeVariantArgs args = args.length % 256 :: encodeArgsFrom 0 args from rfl]
  rw [parseVariantArgs]
  rw [show parseVariantEntries (args.length % 256 :: encodeArgsFrom 0 args)
      = (parseVariantLoop (args.length % 256) (encodeArgsFrom 0 args)).map
          (fun es2 => ParsedVariant.mk (args.length % 256) es2) from rfl]
  rw [show encodeArgsFrom 0 args
      = encodeArgsFrom 0 (args.take (args.length % 256) ++ args.drop (args.length % 256))
      from by rw [List.take_append_drop]]
  rw [encodeArgsFrom_append]
  rw [htake, hes]
  show es.foldl (fun a e => setSparse a e.index e.value) []
      = (args.take (args.length % 256)).map some
  have hlen2 : es.length = args.length % 256 := by
    have hl := congrArg List.length hval
    simpa [htake] using hl
  rw [argsOfEntries_consecutive es [] (by
    rw [hidx]
    rw [range'_map_mod (by omega)]
    simp [hlen2])]
  rw [← hval, List.map_map]
  rfl

/-! ## Claim C4: encode-then-decode round trip -/

set_option maxRecDepth 4000 in
/-- Claim C4, counterexample to the literal claim: a 256-entry list of
strings satisfies the claim's entry kinds, yet the encoded count byte
wraps to 0 and decoding yields the empty args array, not the input. -/
theorem claim4_counterexample :
    parseVariantArgs (encodeVariantArgs (List.replicate 256 (JsValue.str [])))
      ≠ (List.replicate 256 (JsValue.str [])).map some := by
  decide

/-- Claim C4 (amended with the precondition forced by the 8-bit count
byte, claim C10): for every list of at most 255 well-formed arguments
(strings, integers in [−2^31, 2^32 − 1], finite non-integer float32
numbers, 2/3-component float32-exact vectors), decoding the encoding
yields the input. -/
theorem claim4_round_trip (args : List JsValue)
    (hwf : ∀ a ∈ args, wfRoundTripArg a = true) (hlen : args.length ≤ 255) :
    parseVariantArgs (encodeVariantArgs args) = args.map some := by
  rw [parseVariantArgs_encode args hwf, Nat.mod_eq_of_lt (by omega), List.take_length]

/-- Witness for claim C4 on a list exercising every entry kind. -/
theorem claim4_witness :
    parseVariantArgs (encodeVariantArgs
      [JsValue.str (ascii "ab"), JsValue.num (.int 4294967295), JsValue.num (.int (-3)),
       JsValue.num (.flt 1069547520), JsValue.vec [.int 1, .int 2]])
      = [JsValue.str (ascii "ab"), JsValue.num (.int 4294967295), JsValue.num (.int (-3)),
         JsValue.num (.flt 1069547520), JsValue.vec [.int 1, .int 2]].map some :=
  claim4_round_trip _ (by decide) (by decide)

/-! ## Claim C10: the count byte truncates at 256 entries -/

/-- Claim C10: the leading byte of an encoding is the argument count
modulo 256; the round trip holds under the precondition of at most 255
entries, and fails for every well-formed longer list, whose decode
recovers only a strict prefix. -/
theorem claim10_count_truncation (args : List JsValue)
    (hwf : ∀ a ∈ args, wfRoundTripArg a = true) :
    (encodeVariantArgs args).head? = some (args.length % 256) ∧
    (args.length ≤ 255 → parseVariantArgs (encodeVariantArgs args) = args.map some) ∧
    (255 < args.length → parseVariantArgs (encodeVariantArgs args) ≠ args.map some) := by
  refine ⟨rfl, ?_, ?_⟩
  · intro hlen
    rw [parseVariantArgs_encode args hwf, Nat.mod_eq_of_lt (by omega), List.take_length]
  · intro hbig hcontra
    rw [parseVariantArgs_encode args hwf] at hcontra
    have hlen := congrArg List.length hcontra
    simp only [List.length_map, List.length_take] at hlen
    have hmodlt : args.length % 256 < 256 := Nat.mod_lt _ (by decide)
    omega

/-- Witness for claim C10 at a 256-entry list. -/
theorem claim10_witness :
    (encodeVariantArgs (List.replicate 256 (JsValue.str []))).head? = some (256 % 256) ∧
    parseVariantArgs (encodeVariantArgs (List.replicate 256 (JsValue.str [])))
      ≠ (List.replicate 256 (JsValue.str [])).map some := by
  have h := claim10_count_truncation (List.replicate 256 (JsValue.str []))
    (fun a ha => by
      rw [List.eq_of_mem_replicate ha]
      decide)
  have h1 := h.1
  rw [List.length_replicate] at h1
  refine ⟨h1, h.2.2 (by rw [List.length_replicate]; decide)⟩

/-! ## Claim C6: world-state local-participant invariant -/

theorem mapSet_mem_self {κ β : Type} [DecidableEq κ] (m : List (κ × β)) (k : κ) (v : β) :
    (k, v) ∈ mapSet m k v := by
  by_cases h : m.any (fun e => e.1 = k)
  · simp only [mapSet, if_pos h]
    rw [List.any_eq_true] at h
    obtain ⟨e, hem, hek⟩ := h
    refine List.mem_map.mpr ⟨e, hem, ?_⟩
    rw [if_pos (by simpa using hek)]
  · simp [mapSet, if_neg h]

theorem mapSet_mem_other {κ β : Type} [DecidableEq κ] {m : List (κ × β)} {e : κ × β}
    (hm : e ∈ m) (k : κ) (v : β) (hne : ¬ e.1 = k) : e ∈ mapSet m k v := by
  by_cases h : m.any (fun x => x.1 = k)
  · simp only [mapSet, if_pos h]
    refine List.mem_map.mpr ⟨e, hm, ?_⟩
    rw [if_neg hne]
  · simp only [mapSet, if_neg h]
    exact List.mem_append_left _ hm

theorem worldInv_step (w : WorldState) (op : WorldOp)
    (hinv : w.localNetId = -1
      ∨ ∃ p, (w.localNetId, p) ∈ w.players ∧ p.type = ascii "local")
    (hsafe : match op with
             | .spawnOp p => p.type = ascii "local" ∨ ¬ p.netId = w.localNetId
             | _ => True) :
    (w.applyOp op).localNetId = -1
      ∨ ∃ p, ((w.applyOp op).localNetId, p) ∈ (w.applyOp op).players
          ∧ p.type = ascii "local" := by
  cases op with
  | clearOp => left; rfl
  | removeOp n =>
    simp only [WorldState.applyOp, WorldState.onRemove]
    by_cases hn : n < 0
    · rw [if_pos hn]
      exact hinv
    · rw [if_neg hn]
      by_cases heq : w.localNetId = n
      · left
        simp [heq]
      · rcases hinv with h | ⟨p, hp, htype⟩
        · left
          simp [heq, h]
        · right
          refine ⟨p, ?_, htype⟩
          simp only [if_neg heq]
          exact List.mem_filter.mpr ⟨hp, by simpa using heq⟩
  | spawnOp p =>
    simp only [WorldState.applyOp, WorldState.onSpawn]
    by_cases hn : p.netId < 0
    · rw [if_pos hn]
      exact hinv
    · rw [if_neg hn]
      by_cases hloc : p.type = ascii "local"
      · right
        refine ⟨p, ?_, hloc⟩
        simp only [if_pos hloc]
        exact mapSet_mem_self w.players p.netId p
      · have hne : ¬ p.netId = w.localNetId := by
          have hs : p.type = ascii "local" ∨ ¬ p.netId = w.localNetId := hsafe
          tauto
        rcases hinv with h | ⟨q, hq, hqt⟩
        · left
          simp [hloc, h]
        · right
          refine ⟨q, ?_, hqt⟩
          simp only [if_neg hloc]
          exact mapSet_mem_other hq p.netId p (fun hc => hne hc.symm)

theorem worldInv_run (ops : List WorldOp) : ∀ w : WorldState,
    (w.localNetId = -1 ∨ ∃ p, (w.localNetId, p) ∈ w.players ∧ p.type = ascii "local") →
    safeOps w ops = true →
    ((WorldState.runOps w ops).localNetId = -1
      ∨ ∃ p, ((WorldState.runOps w ops).localNetId, p) ∈ (WorldState.runOps w ops).players
          ∧ p.type = ascii "local") := by
  induction ops with
  | nil => intro w hinv _; exact hinv
  | cons op rest ih =>
    intro w hinv hsafe
    rcases op with p | n | _
    · have hsplit : (decide (p.type = ascii "local")
            || decide (¬ p.netId = w.localNetId)) = true
          ∧ safeOps (w.applyOp (WorldOp.spawnOp p)) rest = true := by
        rw [← Bool.and_eq_true]
        exact hsafe
      have hinv2 := worldInv_step w (WorldOp.spawnOp p) hinv (by simpa using hsplit.1)
      have hrun := ih (w.applyOp (WorldOp.spawnOp p)) hinv2 hsplit.2
      simpa [WorldState.runOps] using hrun
    · have hsafe2 : safeOps (w.applyOp (WorldOp.removeOp n)) rest = true := by
        have h2 : (true && safeOps (w.applyOp (WorldOp.removeOp n)) rest) = true := hsafe
        simpa using h2
      have hinv2 := worldInv_step w (WorldOp.removeOp n) hinv trivial
      have hrun := ih (w.applyOp (WorldOp.removeOp n)) hinv2 hsafe2
      simpa [WorldState.runOps] using hrun
    · have hsafe2 : safeOps (w.applyOp WorldOp.clearOp) rest = true := by
        have h2 : (true && safeOps (w.applyOp WorldOp.clearOp) rest) = true := hsafe
        simpa using h2
      have hinv2 := worldInv_step w WorldOp.clearOp hinv trivial
      have hrun := ih (w.applyOp WorldOp.clearOp) hinv2 hsafe2
      simpa [WorldState.runOps] using hrun

/-- Claim C6, counterexample to the literal claim: spawning a local
participant and then overwriting the same net id with a non-local
participant leaves no local participant in the map while localNetId
still holds the stale id. -/
theorem claim6_counterexample :
    hasLocalPlayer (WorldState.runOps WorldState.clear
      [WorldOp.spawnOp (Participant.mk [] 5 0 [] (ascii "local")),
       WorldOp.spawnOp (Participant.mk [] 5 0 [] (ascii "remote"))]) = false ∧
    ¬ (WorldState.runOps WorldState.clear
      [WorldOp.spawnOp (Participant.mk [] 5 0 [] (ascii "local")),
       WorldOp.spawnOp (Participant.mk [] 5 0 [] (ascii "remote"))]).localNetId = -1 := by
  decide

/-- Claim C6 (amended): after any sequence of spawn/remove/clear
operations from the initial state in which no spawn replaces the
participant currently recorded as local with a non-local participant,
localNetId is −1 whenever no participant of type local is in the map. -/
theorem claim6_local_invariant (ops : List WorldOp)
    (hsafe : safeOps WorldState.clear ops = true)
    (hnolocal : hasLocalPlayer (WorldState.runOps WorldState.clear ops) = false) :
    (WorldState.runOps WorldState.clear ops).localNetId = -1 := by
  have hinv := worldInv_run ops WorldState.clear (Or.inl rfl) hsafe
  rcases hinv with h | ⟨p, hp, ht⟩
  · exact h
  · exfalso
    have htrue : hasLocalPlayer (WorldState.runOps WorldState.clear ops) = true := by
      rw [hasLocalPlayer, List.any_eq_true]
      exact ⟨_, hp, by simpa using ht⟩
    rw [hnolocal] at htrue
    exact Bool.false_ne_true htrue

/-- Witness for claim C6 on a spawn-then-remove sequence. -/
theorem claim6_witness :
    (WorldState.runOps WorldState.clear
      [WorldOp.spawnOp (Participant.mk [] 3 0 [] (ascii "local")),
       WorldOp.removeOp 3]).localNetId = -1 :=
  claim6_local_invariant
    [WorldOp.spawnOp (Participant.mk [] 3 0 [] (ascii "local")), WorldOp.removeOp 3]
    (by decide) (by decide)

/-! ## Claim C7: scheduling a tag replaces and cancels the prior task -/

theorem find?_append_of_none {α : Type} {l1 : List α} (l2 : List α) (p : α → Bool)
    (h : l1.find? p = none) : (l1 ++ l2).find? p = l2.find? p := by
  induction l1 with
  | nil => simp
  | cons a rest ih =>
    by_cases hpa : p a
    · rw [List.find?_cons_of_pos _ hpa] at h
      exact absurd h (by simp)
    · rw [List.find?_cons_of_neg _ hpa] at h
      rw [List.cons_append, List.find?_cons_of_neg _ hpa]
      exact ih h

theorem find?_mapSet {κ β : Type} [DecidableEq κ] (m : List (κ × β)) (k : κ) (v : β) :
    (mapSet m k v).find? (fun e => e.1 = k) = some (k, v) := by
  induction m with
  | nil =>
    rw [show mapSet ([] : List (κ × β)) k v = [(k, v)] from by simp [mapSet]]
    rw [List.find?_cons_of_pos _ (by simp)]
  | cons e rest ih =>
    by_cases hek : e.1 = k
    · have ha : (e :: rest).any (fun x => x.1 = k) = true :=
        List.any_eq_true.mpr ⟨e, by simp, by simpa using hek⟩
      simp only [mapSet, if_pos ha, List.map_cons, if_pos hek]
      rw [List.find?_cons_of_pos _ (by simp)]
    · by_cases ha2 : rest.any (fun x => x.1 = k)
      · have ha : (e :: rest).any (fun x => x.1 = k) = true := by
          simp only [List.any_cons, ha2, Bool.or_true]
        simp only [mapSet, if_pos ha, List.map_cons, if_neg hek]
        rw [List.find?_cons_of_neg _ (by simpa using hek)]
        have ih2 := ih
        rw [mapSet, if_pos ha2] at ih2
        exact ih2
      · have ha : ¬ (e :: rest).any (fun x => x.1 = k) = true := by
          simp only [List.any_cons, Bool.or_eq_true, List.any_eq_true]
          push_neg
          refine ⟨by simpa using hek, ?_⟩
          intro x hx
          intro hc
          exact ha2 (List.any_eq_true.mpr ⟨x, hx, hc⟩)
        simp only [mapSet, if_neg ha]
        rw [List.cons_append, List.find?_cons_of_neg _ (by simpa using hek)]
        rw [find?_append_of_none _ _ (List.find?_eq_none.mpr (by
          intro x hx
          simp only [decide_eq_true_eq]
          intro hc
          exact ha2 (List.any_eq_true.mpr ⟨x, hx, by simpa using hc⟩)))]
        rw [List.find?_cons_of_pos _ (by simp)]

theorem mapSet_keys {κ β : Type} [DecidableEq κ] (m : List (κ × β)) (k : κ) (v : β)
    (h : m.any (fun e => e.1 = k) = true) :
    (mapSet m k v).map (fun e => e.1) = m.map (fun e => e.1) := by
  simp only [mapSet, if_pos h, List.map_map]
  apply List.map_congr_left
  intro e _
  by_cases hek : e.1 = k
  · simp [Function.comp, hek]
  · simp [Function.comp, hek]

theorem mapSet_keys_nodup {κ β : Type} [DecidableEq κ] (m : List (κ × β)) (k : κ) (v : β)
    (h : (m.map (fun e => e.1)).Nodup) : ((mapSet m k v).map (fun e => e.1)).Nodup := by
  by_cases ha : m.any (fun e => e.1 = k)
  · rw [mapSet_keys m k v ha]
    exact h
  · simp only [mapSet, if_neg ha, List.map_append]
    have hk : k ∉ m.map (fun e => e.1) := by
      intro hkm
      obtain ⟨e, hem, hek⟩ := List.mem_map.mp hkm
      exact ha (List.any_eq_true.mpr ⟨e, hem, by simpa using hek⟩)
    simp [List.nodup_append, h, hk]

theorem cancelByTag_fst_spec {κ : Type} (s : TaskScheduler κ) (tag : List Char) :
    (s.cancelByTag tag).1.nextId = s.nextId
    ∧ (∀ e ∈ (s.cancelByTag tag).1.live, e ∈ s.live)
    ∧ List.Sublist ((s.cancelByTag tag).1.tasksByTag.map (fun e => e.1))
        (s.tasksByTag.map (fun e => e.1)) := by
  rcases hfind : s.tasksByTag.find? (fun e => e.1 = tag) with _ | ⟨t0, id0⟩
  · rw [show s.cancelByTag tag = (s, false) from by
      rw [TaskScheduler.cancelByTag, hfind]]
    exact ⟨rfl, fun e he => he, List.Sublist.refl _⟩
  · rw [show s.cancelByTag tag
        = (TaskScheduler.mk s.nextId (s.live.filter (fun e => ¬ e.1 = id0))
            (s.tasksByTag.filter (fun e => ¬ e.1 = tag)), true) from by
      rw [TaskScheduler.cancelByTag, hfind]]
    exact ⟨rfl, fun e he => (List.mem_filter.mp he).1, (List.filter_sublist _).map _⟩

theorem scheduleDelayed_spec {κ : Type} (st : TaskScheduler κ) (c : κ) (d : Nat)
    (tag : List Char) (htag : tag.isEmpty = false) :
    st.scheduleDelayed c d tag
      = (TaskScheduler.mk ((st.cancelByTag tag).1.nextId + 1)
          ((st.cancelByTag tag).1.live ++ [((st.cancelByTag tag).1.nextId, tag, c)])
          (mapSet (st.cancelByTag tag).1.tasksByTag tag (st.cancelByTag tag).1.nextId),
         (st.cancelByTag tag).1.nextId) := by
  simp only [TaskScheduler.scheduleDelayed, htag, Bool.false_eq_true, if_false]

/-- Claim C7: scheduling the same non-empty tag twice in a row cancels
the first timer before arming the second: firing the first timer id
runs nothing, firing the second runs the second callback, the tag maps
to the second timer, and the tag map stays duplicate-free. -/
theorem claim7_tag_replacement {κ : Type} (s : TaskScheduler κ) (cb cb2 : κ) (d1 d2 : Nat)
    (tag : List Char) (hwf : s.wfSched) (htag : tag.isEmpty = false)
    (s1 s2 : TaskScheduler κ) (id1 id2 : Nat)
    (h1 : s.scheduleDelayed cb d1 tag = (s1, id1))
    (h2 : s1.scheduleDelayed cb2 d2 tag = (s2, id2)) :
    (s2.fire id1).2 = none ∧ (s2.fire id2).2 = some cb2 ∧
    s2.tasksByTag.find? (fun e => e.1 = tag) = some (tag, id2) ∧
    (s2.tasksByTag.map (fun e => e.1)).Nodup := by
  obtain ⟨hn1, hl1, hsub1⟩ := cancelByTag_fst_spec s tag
  rw [scheduleDelayed_spec s cb d1 tag htag] at h1
  have hs1 : TaskScheduler.mk ((s.cancelByTag tag).1.nextId + 1)
      ((s.cancelByTag tag).1.live ++ [((s.cancelByTag tag).1.nextId, tag, cb)])
      (mapSet (s.cancelByTag tag).1.tasksByTag tag (s.cancelByTag tag).1.nextId) = s1 :=
    congrArg Prod.fst h1
  have hid1 : (s.cancelByTag tag).1.nextId = id1 := congrArg Prod.snd h1
  have hlt : ∀ e ∈ (s.cancelByTag tag).1.live, e.1 < (s.cancelByTag tag).1.nextId := by
    intro e he
    rw [hn1]
    exact hwf.1 e (hl1 e he)
  have hcan2 : s1.cancelByTag tag
      = (TaskScheduler.mk s1.nextId
          (s1.live.filter (fun e => ¬ e.1 = (s.cancelByTag tag).1.nextId))
          (s1.tasksByTag.filter (fun e => ¬ e.1 = tag)), true) := by
    rw [TaskScheduler.cancelByTag]
    rw [show s1.tasksByTag.find? (fun e => e.1 = tag)
        = some (tag, (s.cancelByTag tag).1.nextId) from by
      rw [← hs1]
      exact find?_mapSet _ tag _]
  have hlive1 : s1.live
      = (s.cancelByTag tag).1.live ++ [((s.cancelByTag tag).1.nextId, tag, cb)] := by
    rw [← hs1]
  have hliveFiltered : s1.live.filter (fun e => ¬ e.1 = (s.cancelByTag tag).1.nextId)
      = (s.cancelByTag tag).1.live := by
    rw [hlive1, List.filter_append]
    rw [List.filter_eq_self.mpr (by
      intro e he
      simp only [decide_eq_true_eq]
      have := hlt e he
      omega)]
    rw [show List.filter (fun e => ¬ e.1 = (s.cancelByTag tag).1.nextId)
        [((s.cancelByTag tag).1.nextId, tag, cb)] = [] from by simp]
    simp
  rw [scheduleDelayed_spec s1 cb2 d2 tag htag, hcan2] at h2
  have hs2 := congrArg Prod.fst h2
  have hid2 := congrArg Prod.snd h2
  dsimp only at hs2 hid2
  have hnext1 : s1.nextId = (s.cancelByTag tag).1.nextId + 1 := by rw [← hs1]
  have hmap1 : s1.tasksByTag
      = mapSet (s.cancelByTag tag).1.tasksByTag tag (s.cancelByTag tag).1.nextId := by
    rw [← hs1]
  have hid2v : id2 = (s.cancelByTag tag).1.nextId + 1 := by
    rw [← hid2, hnext1]
  have hid1v : id1 = (s.cancelByTag tag).1.nextId := hid1.symm
  have hlive2 : s2.live
      = (s.cancelByTag tag).1.live
          ++ [((s.cancelByTag tag).1.nextId + 1, tag, cb2)] := by
    rw [← hs2]
    simp only [hliveFiltered, hnext1]
  have hmap2 : s2.tasksByTag
      = mapSet (s1.tasksByTag.filter (fun e => ¬ e.1 = tag)) tag
          ((s.cancelByTag tag).1.nextId + 1) := by
    rw [← hs2]
    simp only [hnext1]
  refine ⟨?_, ?_, ?_, ?_⟩
  · rw [TaskScheduler.fire]
    rw [show s2.live.find? (fun e => e.1 = id1) = none from List.find?_eq_none.mpr (by
      rw [hlive2, hid1v]
      intro e he
      simp only [decide_eq_true_eq]
      rcases List.mem_append.mp he with hin | hin
      · have := hlt e hin
        omega
      · simp only [List.mem_singleton] at hin
        rw [hin]
        simp)]
  · rw [TaskScheduler.fire]
    rw [show s2.live.find? (fun e => e.1 = id2)
        = some ((s.cancelByTag tag).1.nextId + 1, tag, cb2) from by
      rw [hlive2, hid2v]
      rw [find?_append_of_none _ _ (List.find?_eq_none.mpr (by
        intro e he
        simp only [decide_eq_true_eq]
        have := hlt e he
        omega))]
      rw [List.find?_cons_of_pos _ (by simp)]]
  · rw [hmap2, hid2v]
    exact find?_mapSet _ tag _
  · rw [hmap2]
    apply mapSet_keys_nodup
    have hnodup1 : (s1.tasksByTag.map (fun e => e.1)).Nodup := by
      rw [hmap1]
      exact mapSet_keys_nodup _ tag _ (hwf.2.sublist hsub1)
    exact hnodup1.sublist ((List.filter_sublist _).map _)

/-- Witness for claim C7 from the fresh scheduler: two schedules of tag
x; timer 1 is dead, timer 2 runs the second callback. -/
theorem claim7_witness :
    ((TaskScheduler.mk 3 [(2, ['x'], 2)] [(['x'], 2)] : TaskScheduler Nat).fire 1).2 = none ∧
    ((TaskScheduler.mk 3 [(2, ['x'], 2)] [(['x'], 2)] : TaskScheduler Nat).fire 2).2 = some 2 ∧
    (TaskScheduler.mk 3 [(2, ['x'], 2)] [(['x'], 2)] : TaskScheduler Nat).tasksByTag.find?
        (fun e => e.1 = ['x']) = some (['x'], 2) ∧
    ((TaskScheduler.mk 3 [(2, ['x'], 2)] [(['x'], 2)] : TaskScheduler Nat).tasksByTag.map
        (fun e => e.1)).Nodup :=
  claim7_tag_replacement (TaskScheduler.init Nat) 1 2 5 7 ['x']
    (⟨by simp [TaskScheduler.init], by simp [TaskScheduler.init]⟩)
    rfl
    (TaskScheduler.mk 2 [(1, ['x'], 1)] [(['x'], 1)])
    (TaskScheduler.mk 3 [(2, ['x'], 2)] [(['x'], 2)])
    1 2 rfl rfl

/-! ## Claim C3: command dispatch condition -/

theorem matchLeadingNameRun_eq_takeWhile : ∀ l : List Char,
    matchLeadingNameRun l = l.takeWhile isNameChar := by
  intro l
  induction l with
  | nil => rfl
  | cons c rest ih =>
    simp only [matchLeadingNameRun, List.takeWhile_cons]
    by_cases h : isNameChar c
    · simp [h, ih]
    · simp [h]

theorem execute_fst_eq {ε : Type} (reg : CommandRegistry ε) (text : List Char) :
    (reg.execute text).1 = dispatchCond reg text := by
  rw [CommandRegistry.execute, CommandRegistry.parse, dispatchCond]
  by_cases h1 : reg.cmdPrefix.isPrefixOf (CommandRegistry.normalizeInput text) = true
  · rw [if_neg (by simp [h1]), h1, Bool.true_and]
    by_cases h2 : (Js.trim ((CommandRegistry.normalizeInput text).drop
        reg.cmdPrefix.length)).isEmpty = true
    · rw [if_pos h2]
      simp only [List.isEmpty_iff.mp h2]
      rfl
    · rw [if_neg (by simp [h2])]
      rcases htoks : Js.wsSplit (Js.trim ((CommandRegistry.normalizeInput text).drop
          reg.cmdPrefix.length)) with _ | ⟨tok, restTokens⟩
      · simp only [htoks]
      · simp only [htoks, matchLeadingNameRun_eq_takeWhile]
        rcases hname : (tok.map Char.toLower).takeWhile isNameChar with _ | ⟨c, cs⟩
        · simp [hname]
        · simp only [hname]
          rcases hcmd : reg.getCmd (c :: cs) with _ | o
          · simp [hcmd]
          · rcases o with _ | e
            · simp [hcmd]
            · simp [hcmd]
  · rw [if_pos h1]
    have h1f : reg.cmdPrefix.isPrefixOf (CommandRegistry.normalizeInput text) = false :=
      Bool.eq_false_iff.mpr h1
    simp only [h1f, Bool.false_and]

/-- Claim C3, counterexample to the literal claim: with the command
help registered, the input /help!x dispatches (execute returns true)
although its first whitespace-separated token, help!x, neither matches
the name class in full nor names a registered command. -/
theorem claim3_counterexample :
    ((CommandRegistry.mk ['/'] [("help".toList, Except.ok ())] :
        CommandRegistry Unit).execute (String.toList "/help!x")).1 = true ∧
    claimTokenCond (CommandRegistry.mk ['/'] [("help".toList, Except.ok ())] :
        CommandRegistry Unit) (String.toList "/help!x") = false := by
  constructor
  · decide
  · decide

/-- Claim C3 (amended): execute returns true exactly when the
normalized text starts with the configured one-character prefix and the
longest leading name-class run of the first whitespace-separated token
(lower-cased) is non-empty and names a registered command; this holds
whatever outcome the handler produces, and a thrown handler error is
returned as caught data (never propagated), only ever reported when a
handler ran. -/
theorem claim3_execute_iff {ε : Type} (reg : CommandRegistry ε) (text : List Char)
    (hpre : reg.cmdPrefix.length = 1) :
    ((reg.execute text).1 = true ↔ dispatchCond reg text = true) ∧
    ((reg.execute text).2.isSome = true → (reg.execute text).1 = true) := by
  refine ⟨by rw [execute_fst_eq], ?_⟩
  rw [CommandRegistry.execute]
  rcases hp : reg.parse text with _ | ⟨name, args⟩
  · simp only [hp]
    intro h
    simp at h
  · simp only [hp]
    rcases hc : reg.getCmd name with _ | o
    · simp only [hc]
      intro h
      simp at h
    · rcases o with _ | e
      · simp [hc]
      · simp [hc]

/-- Witness for claim C3 on the spec's command-interception scenario:
a NUL byte, then /warp FOO. -/
theorem claim3_witness :
    (((CommandRegistry.mk ['/'] [("warp".toList, Except.ok ())] :
          CommandRegistry Unit).execute
        (Char.ofNat 0 :: String.toList "/warp FOO")).1 = true ↔
      dispatchCond (CommandRegistry.mk ['/'] [("warp".toList, Except.ok ())] :
          CommandRegistry Unit) (Char.ofNat 0 :: String.toList "/warp FOO") = true) ∧
    (((CommandRegistry.mk ['/'] [("warp".toList, Except.ok ())] :
          CommandRegistry Unit).execute
        (Char.ofNat 0 :: String.toList "/warp FOO")).2.isSome = true →
      ((CommandRegistry.mk ['/'] [("warp".toList, Except.ok ())] :
          CommandRegistry Unit).execute
        (Char.ofNat 0 :: String.toList "/warp FOO")).1 = true) :=
  claim3_execute_iff
    (CommandRegistry.mk ['/'] [("warp".toList, Except.ok ())] : CommandRegistry Unit)
    (Char.ofNat 0 :: String.toList "/warp FOO") (by decide)


/-! ## Claim C2: the server_data rewrite -/

namespace TextParse

variable {α : Type} [DecidableEq α]

theorem splitOn_not_mem (d : α) (s : List α) : ∀ t ∈ splitOn d s, d ∉ t := by
  induction s with
  | nil =>
    intro t ht
    simp [splitOn] at ht
    simp [ht]
  | cons a rest ih =>
    intro t ht
    rcases h : splitOn d rest with _ | ⟨u, us⟩
    · exact absurd h (splitOn_ne_nil d rest)
    · simp only [splitOn, h] at ht
      by_cases had : a = d
      · rw [if_pos had] at ht
        rcases List.mem_cons.mp ht with ht1 | ht2
        · subst ht1; exact List.not_mem_nil d
        · exact ih t (by rw [h]; exact ht2)
      · rw [if_neg had] at ht
        rcases List.mem_cons.mp ht with ht1 | ht2
        · subst ht1
          intro hd
          rcases List.mem_cons.mp hd with hd1 | hd2
          · exact had hd1.symm
          · exact ih u (by rw [h]; exact List.mem_cons_self u us) hd2
        · exact ih t (by rw [h]; exact List.mem_cons_of_mem u ht2)

theorem splitOn_eq_single {d : α} {s : List α} (h : d ∉ s) : splitOn d s = [s] := by
  induction s with
  | nil => simp [splitOn]
  | cons a rest ih =>
    have hrest : splitOn d rest = [rest] := ih (fun hm => h (List.mem_cons_of_mem a hm))
    have had : ¬ a = d := fun he => h (List.mem_cons.mpr (Or.inl he.symm))
    simp [splitOn, hrest, had]

theorem splitOn_append_cons (d : α) (l r : List α) :
    splitOn d (l ++ d :: r) = splitOn d l ++ splitOn d r := by
  induction l with
  | nil =>
    rcases h : splitOn d r with _ | ⟨u, us⟩
    · exact absurd h (splitOn_ne_nil d r)
    · simp [splitOn, h]
  | cons a l2 ih =>
    rcases h2 : splitOn d l2 with _ | ⟨u, us⟩
    · exact absurd h2 (splitOn_ne_nil d l2)
    · have hmain : splitOn d (l2 ++ d :: r) = (u :: us) ++ splitOn d r := by
        rw [ih, h2]
      rcases hr : splitOn d r with _ | ⟨v, vs⟩
      · exact absurd hr (splitOn_ne_nil d r)
      · by_cases had : a = d
        · simp [splitOn, hmain, h2, had, hr]
        · simp [splitOn, hmain, h2, had, hr]

theorem splitOn_mem_subset (d : α) (s : List α) :
    ∀ t ∈ splitOn d s, ∀ x ∈ t, x ∈ s := by
  induction s with
  | nil =>
    intro t ht x hx
    simp [splitOn] at ht
    subst ht
    exact absurd hx (List.not_mem_nil x)
  | cons a rest ih =>
    intro t ht x hx
    rcases h : splitOn d rest with _ | ⟨u, us⟩
    · exact absurd h (splitOn_ne_nil d rest)
    · simp only [splitOn, h] at ht
      by_cases had : a = d
      · rw [if_pos had] at ht
        rcases List.mem_cons.mp ht with ht1 | ht2
        · subst ht1; exact absurd hx (List.not_mem_nil x)
        · exact List.mem_cons_of_mem a (ih t (by rw [h]; exact ht2) x hx)
      · rw [if_neg had] at ht
        rcases List.mem_cons.mp ht with ht1 | ht2
        · subst ht1
          rcases List.mem_cons.mp hx with hx1 | hx2
          · exact List.mem_cons.mpr (Or.inl hx1)
          · exact List.mem_cons_of_mem a
              (ih u (by rw [h]; exact List.mem_cons_self u us) x hx2)
        · exact List.mem_cons_of_mem a
            (ih t (by rw [h]; exact List.mem_cons_of_mem u ht2) x hx)

theorem set_mem_self (es : Entries α) (key : List α) (values : List (List α)) :
    (key, values) ∈ set es key values := by
  induction es with
  | nil => simp [set]
  | cons e rest ih =>
    simp only [set]
    by_cases he : e.1 = key
    · simp [he]
    · simp only [if_neg he]
      exact List.mem_cons_of_mem e ih

theorem mem_set_of_ne {es : Entries α} {e : List α × List (List α)} {key : List α}
    (values : List (List α)) (hne : ¬ e.1 = key) (hmem : e ∈ es) :
    e ∈ set es key values := by
  induction es with
  | nil => cases hmem
  | cons f rest ih =>
    simp only [set]
    by_cases hf : f.1 = key
    · rw [if_pos hf]
      rcases List.mem_cons.mp hmem with h1 | h2
      · exact absurd (h1 ▸ hf) hne
      · exact List.mem_cons_of_mem _ h2
    · rw [if_neg hf]
      rcases List.mem_cons.mp hmem with h1 | h2
      · exact List.mem_cons.mpr (Or.inl h1)
      · exact List.mem_cons_of_mem f (ih h2)

theorem mem_of_mem_set {es : Entries α} {e : List α × List (List α)} {key : List α}
    {values : List (List α)} (hmem : e ∈ set es key values) :
    e ∈ es ∨ e = (key, values) := by
  induction es with
  | nil =>
    simp [set] at hmem
    exact Or.inr hmem
  | cons f rest ih =>
    simp only [set] at hmem
    by_cases hf : f.1 = key
    · rw [if_pos hf] at hmem
      rcases List.mem_cons.mp hmem with h1 | h2
      · exact Or.inr h1
      · exact Or.inl (List.mem_cons_of_mem f h2)
    · rw [if_neg hf] at hmem
      rcases List.mem_cons.mp hmem with h1 | h2
      · exact Or.inl (List.mem_cons.mpr (Or.inl h1))
      · rcases ih h2 with h3 | h3
        · exact Or.inl (List.mem_cons_of_mem f h3)
        · exact Or.inr h3

theorem find?_set_of_ne (es : Entries α) {key key' : List α} (values : List (List α))
    (hne : ¬ key = key') :
    (set es key values).find? (fun e => e.1 = key') = es.find? (fun e => e.1 = key') := by
  induction es with
  | nil => simp [set, List.find?, hne]
  | cons f rest ih =>
    simp only [set]
    by_cases hf : f.1 = key
    · rw [if_pos hf]
      have hf' : ¬ f.1 = key' := fun h => hne (hf ▸ h)
      simp [List.find?, hne, hf', ih]
    · rw [if_neg hf]
      by_cases hf' : f.1 = key'
      · simp [List.find?, hf']
      · simp [List.find?, hf', ih]

theorem get_set_of_ne (es : Entries α) {key key' : List α} (values : List (List α))
    (i : Nat) (hne : ¬ key = key') :
    get (set es key values) key' i = get es key' i := by
  unfold get
  rw [find?_set_of_ne es values hne]

end TextParse

theorem dropWhile_head_pred_false {β : Type} (p : β → Bool) (l : List β) :
    ∀ {a : β} {as : List β}, l.dropWhile p = a :: as → p a = false := by
  induction l with
  | nil => intro a as h; simp at h
  | cons x xs ih =>
    intro a as h
    rw [List.dropWhile_cons] at h
    by_cases hx : p x = true
    · rw [if_pos hx] at h
      exact ih h
    · rw [if_neg hx] at h
      cases h
      exact Bool.eq_false_iff.mpr hx

theorem mem_trim_subset {x : Char} {l : List Char} (h : x ∈ Js.trim l) : x ∈ l := by
  unfold Js.trim at h
  rw [List.mem_reverse] at h
  have h2 := (List.dropWhile_sublist _).subset h
  rw [List.mem_reverse] at h2
  exact (List.dropWhile_sublist _).subset h2

namespace TextParse

variable {α : Type} [DecidableEq α]

theorem foldl_append_cons {β : Type} (nl : α) (g : β → List α) (ls : List β) :
    ∀ acc : List α,
      ls.foldl (fun a f => a ++ nl :: g f) acc
        = acc ++ (ls.map (fun f => nl :: g f)).flatten := by
  induction ls with
  | nil => intro acc; simp
  | cons l rest ih =>
    intro acc
    simp only [List.foldl_cons, List.map_cons, List.flatten_cons]
    rw [ih]
    simp [List.append_assoc]

theorem getRaw_cons (nl d : α) (e : List α × List (List α)) (rest : Entries α) :
    getRaw (e :: rest) nl d
      = lineOf d e ++ (rest.map (fun f => nl :: lineOf d f)).flatten := by
  simp only [getRaw]
  rw [foldl_append_cons]

theorem splitOn_lineShape {d : α} : ∀ (vs : List (List α)) (k : List α), d ∉ k →
    (∀ v ∈ vs, d ∉ v) →
    splitOn d (k ++ (vs.map (fun v => d :: v)).flatten) = k :: vs := by
  intro vs
  induction vs with
  | nil =>
    intro k hk _
    simp [splitOn_eq_single hk]
  | cons v vs2 ih =>
    intro k hk hv
    simp only [List.map_cons, List.flatten_cons]
    have hshape : k ++ ((d :: v) ++ (vs2.map (fun v => d :: v)).flatten)
        = k ++ d :: (v ++ (vs2.map (fun v => d :: v)).flatten) := by simp
    rw [hshape, splitOn_append_cons, splitOn_eq_single hk,
      ih v (hv v (List.mem_cons_self v vs2))
        (fun w hw => hv w (List.mem_cons_of_mem v hw))]
    simp

theorem splitOn_getRaw {es : Entries α} {nl d : α} (hne : es ≠ [])
    (h : ∀ e ∈ es, nl ∉ lineOf d e) :
    splitOn nl (getRaw es nl d) = es.map (lineOf d) := by
  rcases es with _ | ⟨e, rest⟩
  · exact absurd rfl hne
  · rw [getRaw_cons]
    have hmap : (rest.map (fun f => nl :: lineOf d f))
        = (rest.map (lineOf d)).map (fun v => nl :: v) := by
      simp [List.map_map]
    have hvals : ∀ v ∈ rest.map (lineOf d), nl ∉ v := by
      intro v hvm
      rcases List.mem_map.mp hvm with ⟨f, hf, rfl⟩
      exact h f (List.mem_cons_of_mem e hf)
    have hkey : nl ∉ lineOf d e := h e (List.mem_cons_self e rest)
    rw [show lineOf d e ++ (rest.map (fun f => nl :: lineOf d f)).flatten
        = lineOf d e ++ ((rest.map (lineOf d)).map (fun v => nl :: v)).flatten from by
      rw [hmap]]
    rw [splitOn_lineShape (rest.map (lineOf d)) (lineOf d e) hkey hvals]
    simp

end TextParse

theorem tokenize_mem_splitOn {line : List Char} {d : Char} :
    ∀ t ∈ TextParse.tokenize line d, t ∈ TextParse.splitOn d line := by
  intro t ht
  rw [TextParse.tokenize_eq_dropWhile] at ht
  exact (List.dropWhile_sublist _).subset ht

theorem entryWfChar_eq_true_iff (e : List Char × List (List Char)) :
    entryWfChar e = true ↔
      (¬ e.1.isEmpty = true ∧ ('\n' : Char) ∉ e.1 ∧ ('|' : Char) ∉ e.1) ∧
      ¬ e.2.isEmpty = true ∧ ∀ v ∈ e.2, ('\n' : Char) ∉ v ∧ ('|' : Char) ∉ v := by
  simp only [entryWfChar, tokenWfChar, Bool.and_eq_true, decide_eq_true_eq,
    List.all_eq_true]
  constructor
  · rintro ⟨⟨⟨h1, h2, h3⟩, h4⟩, h5⟩
    exact ⟨⟨h1, h2, h3⟩, h4, fun v hv => (h5 v hv)⟩
  · rintro ⟨⟨h1, h2, h3⟩, h4, h5⟩
    exact ⟨⟨⟨h1, h2, h3⟩, h4⟩, fun v hv => (h5 v hv)⟩

theorem parse_entries_wfChar (raw : List Char) :
    ∀ e ∈ TextParse.parse raw '\n' '|', entryWfChar e = true := by
  intro e he
  rw [TextParse.parse_eq_filterMap] at he
  rcases List.mem_filterMap.mp he with ⟨line, hline, hsome⟩
  have hlineNl : ('\n' : Char) ∉ line := TextParse.splitOn_not_mem '\n' raw line hline
  rcases htok : TextParse.tokenize line '|' with _ | ⟨k, _ | ⟨v, vs⟩⟩ <;>
    rw [htok] at hsome
  · cases hsome
  · cases hsome
  · rw [Option.some_inj] at hsome
    subst hsome
    have hks : k ∈ TextParse.splitOn '|' line :=
      tokenize_mem_splitOn k (by rw [htok]; exact List.mem_cons_self _ _)
    have hkne : k.isEmpty = false := by
      rw [TextParse.tokenize_eq_dropWhile] at htok
      exact dropWhile_head_pred_false _ _ htok
    have htoks : ∀ t ∈ TextParse.tokenize line '|',
        ('\n' : Char) ∉ t ∧ ('|' : Char) ∉ t := by
      intro t ht
      have hts : t ∈ TextParse.splitOn '|' line := tokenize_mem_splitOn t ht
      refine ⟨fun hx => hlineNl ?_, TextParse.splitOn_not_mem '|' line t hts⟩
      exact TextParse.splitOn_mem_subset '|' line t hts '\n' hx
    rw [entryWfChar_eq_true_iff]
    refine ⟨⟨by simp [hkne], ?_, ?_⟩, by simp, ?_⟩
    · exact (htoks k (by rw [htok]; exact List.mem_cons_self _ _)).1
    · exact (htoks k (by rw [htok]; exact List.mem_cons_self _ _)).2
    · intro w hw
      exact htoks w (by rw [htok]; exact List.mem_cons_of_mem k hw)

theorem tokenize_lineOf {e : List Char × List (List Char)} (hwf : entryWfChar e = true) :
    TextParse.tokenize (TextParse.lineOf '|' e) '|' = e.1 :: e.2 := by
  rcases (entryWfChar_eq_true_iff e).mp hwf with ⟨⟨hk1, _, hkp⟩, _, hv⟩
  rw [TextParse.tokenize_eq_dropWhile]
  rw [show TextParse.lineOf '|' e = e.1 ++ ((e.2.map (fun v => '|' :: v)).flatten) from rfl]
  rw [TextParse.splitOn_lineShape e.2 e.1 hkp (fun v hvm => (hv v hvm).2)]
  rw [List.dropWhile_cons]
  rw [if_neg (by simpa using hk1)]

theorem isRecordLine_lineOf {e : List Char × List (List Char)}
    (hwf : entryWfChar e = true) (key : List Char) :
    isRecordLineWithKey key (TextParse.lineOf '|' e) = decide (e.1 = key) := by
  simp only [isRecordLineWithKey]
  rw [tokenize_lineOf hwf]
  rcases (entryWfChar_eq_true_iff e).mp hwf with ⟨_, hv1, _⟩
  rcases hvs : e.2 with _ | ⟨v, vs⟩
  · rw [hvs] at hv1
    simp at hv1
  · rfl

theorem isRecordLine_no_pipe {line : List Char} (h : ('|' : Char) ∉ line)
    (key : List Char) : isRecordLineWithKey key line = false := by
  simp only [isRecordLineWithKey]
  rw [TextParse.tokenize_eq_dropWhile, TextParse.splitOn_eq_single h,
    List.dropWhile_cons]
  by_cases hl : line.isEmpty = true
  · rw [if_pos hl]
    rfl
  · rw [if_neg hl]

theorem nl_not_mem_lineOf {e : List Char × List (List Char)}
    (hwf : entryWfChar e = true) : ('\n' : Char) ∉ TextParse.lineOf '|' e := by
  rcases (entryWfChar_eq_true_iff e).mp hwf with ⟨⟨_, hkn, _⟩, _, hv⟩
  simp only [TextParse.lineOf, List.mem_append, List.mem_flatten]
  rintro (h | ⟨l, hl, hxl⟩)
  · exact hkn h
  · rcases List.mem_map.mp hl with ⟨v, hvm, rfl⟩
    rcases List.mem_cons.mp hxl with h1 | h2
    · exact absurd h1 (by decide)
    · exact (hv v hvm).1 h2

theorem natDecimalGo_digits (fuel : Nat) :
    ∀ n : Nat, ∀ b ∈ Js.natDecimalGo fuel n, 48 ≤ b ∧ b ≤ 57 := by
  induction fuel with
  | zero => intro n b hb; simp [Js.natDecimalGo] at hb
  | succ fuel ih =>
    intro n b hb
    simp only [Js.natDecimalGo] at hb
    by_cases hn : n < 10
    · rw [if_pos hn] at hb
      simp at hb
      omega
    · rw [if_neg hn] at hb
      rcases List.mem_append.mp hb with h1 | h2
      · exact ih (n / 10) b h1
      · simp at h2
        have : n % 10 < 10 := Nat.mod_lt n (by omega)
        omega

theorem natDecimalChars_no_delims (n : Nat) :
    ('\n' : Char) ∉ natDecimalChars n ∧ ('|' : Char) ∉ natDecimalChars n := by
  constructor <;>
  · simp only [natDecimalChars, List.mem_map]
    rintro ⟨b, hb, heq⟩
    obtain ⟨h1, h2⟩ := natDecimalGo_digits _ _ b hb
    interval_cases b <;> revert heq <;> decide

theorem ensureType_wf {parser0 : TextParse.Entries Char}
    (hwf : ∀ e ∈ parser0, entryWfChar e = true) :
    ∀ e ∈ serverDataEnsureType parser0, entryWfChar e = true := by
  intro e he
  unfold serverDataEnsureType at he
  by_cases hc : TextParse.containsKey parser0 "type".toList = true
  · rw [if_pos hc] at he
    exact hwf e he
  · rw [if_neg hc] at he
    rcases TextParse.mem_of_mem_set he with h1 | h1
    · exact hwf e h1
    · subst h1; decide

theorem ensureType_type_mem (parser0 : TextParse.Entries Char) :
    ∃ vs, ("type".toList, vs) ∈ serverDataEnsureType parser0 := by
  unfold serverDataEnsureType
  by_cases hc : TextParse.containsKey parser0 "type".toList = true
  · rw [if_pos hc]
    simp only [TextParse.containsKey, List.any_eq_true, decide_eq_true_eq] at hc
    obtain ⟨e, he, hk⟩ := hc
    rcases e with ⟨k, vs⟩
    exact ⟨vs, by rw [show ("type".toList : List Char) = k from hk.symm]; exact he⟩
  · rw [if_neg hc]
    exact ⟨["1".toList], TextParse.set_mem_self parser0 _ _⟩

theorem ensureType_get_maint (parser0 : TextParse.Entries Char) :
    TextParse.get (serverDataEnsureType parser0) "#maint".toList 0
      = TextParse.get parser0 "#maint".toList 0 := by
  unfold serverDataEnsureType
  by_cases hc : TextParse.containsKey parser0 "type".toList = true
  · rw [if_pos hc]
  · rw [if_neg hc, TextParse.get_set_of_ne parser0 _ 0 (by decide)]

theorem portEntry_wf (c : Nat) :
    entryWfChar ("port".toList, [natDecimalChars c]) = true := by
  rw [entryWfChar_eq_true_iff]
  dsimp only
  refine ⟨⟨by decide, by decide, by decide⟩, by simp, ?_⟩
  intro v hv
  rcases List.mem_cons.mp hv with h1 | h1
  · subst h1; exact natDecimalChars_no_delims c
  · exact absurd h1 (List.not_mem_nil v)

theorem force_wf {parser0 : TextParse.Entries Char} (cfgServerPort : Nat)
    (hwf : ∀ e ∈ parser0, entryWfChar e = true) :
    ∀ e ∈ serverDataForce cfgServerPort parser0, entryWfChar e = true := by
  intro e he
  unfold serverDataForce at he
  rcases TextParse.mem_of_mem_set he with h1 | h1
  · rcases TextParse.mem_of_mem_set h1 with h2 | h2
    · rcases TextParse.mem_of_mem_set h2 with h3 | h3
      · exact ensureType_wf hwf e h3
      · subst h3; decide
    · subst h2
      exact portEntry_wf cfgServerPort
  · subst h1; decide

theorem force_server_mem (cfgServerPort : Nat) (parser0 : TextParse.Entries Char) :
    ("server".toList, ["127.0.0.1".toList]) ∈ serverDataForce cfgServerPort parser0 := by
  unfold serverDataForce
  refine TextParse.mem_set_of_ne _ (by decide) ?_
  refine TextParse.mem_set_of_ne _ (by decide) ?_
  exact TextParse.set_mem_self _ _ _

theorem force_port_mem (cfgServerPort : Nat) (parser0 : TextParse.Entries Char) :
    ("port".toList, [natDecimalChars cfgServerPort])
      ∈ serverDataForce cfgServerPort parser0 := by
  unfold serverDataForce
  refine TextParse.mem_set_of_ne _
    (by decide : ¬ ("port".toList : List Char) = "type2".toList) ?_
  exact TextParse.set_mem_self _ _ _

theorem force_type2_mem (cfgServerPort : Nat) (parser0 : TextParse.Entries Char) :
    ("type2".toList, ["1".toList]) ∈ serverDataForce cfgServerPort parser0 := by
  unfold serverDataForce
  exact TextParse.set_mem_self _ _ _

theorem force_type_mem (cfgServerPort : Nat) (parser0 : TextParse.Entries Char) :
    ∃ vs, ("type".toList, vs) ∈ serverDataForce cfgServerPort parser0 := by
  obtain ⟨vs, hvs⟩ := ensureType_type_mem parser0
  refine ⟨vs, ?_⟩
  unfold serverDataForce
  refine TextParse.mem_set_of_ne _
    (by decide : ¬ ("type".toList : List Char) = "type2".toList) ?_
  refine TextParse.mem_set_of_ne _
    (by decide : ¬ ("type".toList : List Char) = "port".toList) ?_
  exact TextParse.mem_set_of_ne _
    (by decide : ¬ ("type".toList : List Char) = "server".toList) hvs

theorem force_get_maint (cfgServerPort : Nat) (parser0 : TextParse.Entries Char) :
    TextParse.get (serverDataForce cfgServerPort parser0) "#maint".toList 0
      = TextParse.get parser0 "#maint".toList 0 := by
  unfold serverDataForce
  rw [TextParse.get_set_of_ne _ _ 0 (by decide), TextParse.get_set_of_ne _ _ 0 (by decide),
    TextParse.get_set_of_ne _ _ 0 (by decide), ensureType_get_maint]

theorem serverDataRecords_props (cfgServerPort : Nat) (ig : Bool)
    (parser0 : TextParse.Entries Char)
    (hwf : ∀ e ∈ parser0, entryWfChar e = true) :
    (∀ e ∈ serverDataRecords cfgServerPort ig parser0, entryWfChar e = true) ∧
    ("server".toList, ["127.0.0.1".toList]) ∈ serverDataRecords cfgServerPort ig parser0 ∧
    ("port".toList, [natDecimalChars cfgServerPort])
      ∈ serverDataRecords cfgServerPort ig parser0 ∧
    ("type2".toList, ["1".toList]) ∈ serverDataRecords cfgServerPort ig parser0 ∧
    (∃ vs, ("type".toList, vs) ∈ serverDataRecords cfgServerPort ig parser0) ∧
    ((ig = true ∧ ¬ (TextParse.get parser0 "#maint".toList 0).isEmpty = true) →
      ∀ e ∈ serverDataRecords cfgServerPort ig parser0,
        ¬ e.1 = "#maint".toList ∧ ¬ e.1 = "maint".toList) := by
  unfold serverDataRecords
  by_cases hc : ¬ (TextParse.get (serverDataForce cfgServerPort parser0)
      "#maint".toList 0).isEmpty = true ∧ ig = true
  · rw [if_pos hc]
    have hmem2 : ∀ f : List Char × List (List Char),
        f ∈ serverDataForce cfgServerPort parser0 →
        ¬ f.1 = "#maint".toList → ¬ f.1 = "maint".toList →
        f ∈ TextParse.removeKey
          (TextParse.removeKey (serverDataForce cfgServerPort parser0) "#maint".toList)
          "maint".toList := by
      intro f hf h1 h2
      simp only [TextParse.removeKey, List.mem_filter, decide_eq_true_eq]
      exact ⟨⟨hf, h1⟩, h2⟩
    refine ⟨?_, ?_, ?_, ?_, ?_, ?_⟩
    · intro e he
      simp only [TextParse.removeKey, List.mem_filter, decide_eq_true_eq] at he
      exact force_wf cfgServerPort hwf e he.1.1
    · exact hmem2 _ (force_server_mem cfgServerPort parser0) (by decide) (by decide)
    · exact hmem2 _ (force_port_mem cfgServerPort parser0)
        (by decide : ¬ ("port".toList : List Char) = "#maint".toList)
        (by decide : ¬ ("port".toList : List Char) = "maint".toList)
    · exact hmem2 _ (force_type2_mem cfgServerPort parser0) (by decide) (by decide)
    · obtain ⟨vs, hvs⟩ := force_type_mem cfgServerPort parser0
      exact ⟨vs, hmem2 _ hvs
        (by decide : ¬ ("type".toList : List Char) = "#maint".toList)
        (by decide : ¬ ("type".toList : List Char) = "maint".toList)⟩
    · intro _ e he
      simp only [TextParse.removeKey, List.mem_filter, decide_eq_true_eq] at he
      exact ⟨he.1.2, he.2⟩
  · rw [if_neg hc]
    refine ⟨force_wf cfgServerPort hwf, force_server_mem cfgServerPort parser0,
      force_port_mem cfgServerPort parser0, force_type2_mem cfgServerPort parser0,
      force_type_mem cfgServerPort parser0, ?_⟩
    intro hcond
    exact absurd ⟨by rw [force_get_maint]; exact hcond.2, hcond.1⟩ hc

theorem passthrough_lines_wf (rawBody : List Char) :
    ∀ l ∈ extractServerDataPassthroughLines rawBody,
      ('\n' : Char) ∉ l ∧ ('|' : Char) ∉ l := by
  intro l hl
  unfold extractServerDataPassthroughLines at hl
  rcases List.mem_filter.mp hl with ⟨hmem, hcond⟩
  rcases List.mem_map.mp hmem with ⟨l0, hl0, rfl⟩
  constructor
  · intro hx
    exact TextParse.splitOn_not_mem '\n' _ l0 hl0 (mem_trim_subset hx)
  · simp only [decide_eq_true_eq] at hcond
    intro hx
    exact hcond.2 (List.elem_eq_true_of_mem hx)

theorem appendPassthroughLines_lines :
    ∀ pls : List (List Char), (∀ l ∈ pls, ('\n' : Char) ∉ l) →
    ∀ output0 : List Char, ¬ output0 = [] →
      (bodyLines output0 <+: bodyLines (appendPassthroughLines output0 pls)) ∧
      ∀ x ∈ bodyLines (appendPassthroughLines output0 pls),
        x ∈ bodyLines output0 ∨ x ∈ pls := by
  intro pls
  induction pls with
  | nil =>
    intro _ o ho
    exact ⟨List.prefix_refl _, fun x hx => Or.inl hx⟩
  | cons l rest ih =>
    intro hpl o ho
    have hl : ('\n' : Char) ∉ l := hpl l (List.mem_cons_self l rest)
    have hrest : ∀ l2 ∈ rest, ('\n' : Char) ∉ l2 :=
      fun l2 h2 => hpl l2 (List.mem_cons_of_mem l h2)
    by_cases h1 : l <:+: o
    · have hstep : appendPassthroughLines o (l :: rest) = appendPassthroughLines o rest := by
        simp [appendPassthroughLines, h1]
      rw [hstep]
      obtain ⟨hpre2, hmem2⟩ := ih hrest o ho
      exact ⟨hpre2, fun x hx => (hmem2 x hx).imp id (List.mem_cons_of_mem l)⟩
    · have ho2 : o.isEmpty = false := by
        cases o with
        | nil => exact absurd rfl ho
        | cons a as => rfl
      have hstep : appendPassthroughLines o (l :: rest)
          = appendPassthroughLines (o ++ '\n' :: l) rest := by
        simp [appendPassthroughLines, h1, ho2, ho]
      rw [hstep]
      have hne2 : ¬ (o ++ '\n' :: l) = [] := by simp
      obtain ⟨hpre2, hmem2⟩ := ih hrest _ hne2
      have hbl : bodyLines (o ++ '\n' :: l) = bodyLines o ++ [l] := by
        unfold bodyLines
        rw [TextParse.splitOn_append_cons, TextParse.splitOn_eq_single hl]
      constructor
      · refine List.IsPrefix.trans ?_ hpre2
        rw [hbl]
        exact List.prefix_append _ _
      · intro x hx
        rcases hmem2 x hx with h2 | h2
        · rw [hbl] at h2
          rcases List.mem_append.mp h2 with h3 | h3
          · exact Or.inl h3
          · have h4 : x = l := by simpa using h3
            subst h4
            exact Or.inr (List.mem_cons_self x rest)
        · exact Or.inr (List.mem_cons_of_mem l h2)

/-- Claim C2, counterexample to the literal claim: with the ignore flag
on but no #maint record upstream, a bare maint record survives the
rewrite (the removal is keyed on the first #maint value being present
and non-empty, not on the maint record). -/
theorem claim2_counterexample :
    ((handleServerDataRewrite 17091 true
        (String.toList "server|a\nport|1\nmaint|x")).map
      (fun r => (bodyLines r.body).any
        (fun l => isRecordLineWithKey "maint".toList l)))
      = some true := by decide

/-- Claim C2 (amended): whenever the fetched body parses to a non-empty
record list, the returned body contains the records server|127.0.0.1,
port|(configured port), type2|1, and a line whose record key is type;
and when the ignore-maintenance flag is on AND the parsed body's first
#maint value is non-empty, no line of the returned body is a #maint
record or a maint record. -/
theorem claim2_server_data (cfgServerPort : Nat) (ignoreMaintenance : Bool)
    (responseBody : List Char) (r : ServerDataResult)
    (h : handleServerDataRewrite cfgServerPort ignoreMaintenance responseBody = some r) :
    "server|127.0.0.1".toList ∈ bodyLines r.body ∧
    ("port|".toList ++ natDecimalChars cfgServerPort) ∈ bodyLines r.body ∧
    "type2|1".toList ∈ bodyLines r.body ∧
    (∃ line ∈ bodyLines r.body, isRecordLineWithKey "type".toList line = true) ∧
    ((ignoreMaintenance = true ∧
        ¬ (TextParse.get (TextParse.parse (normalizeServerDataBody responseBody) '\n' '|')
            "#maint".toList 0).isEmpty = true) →
      ∀ line ∈ bodyLines r.body,
        isRecordLineWithKey "#maint".toList line = false ∧
        isRecordLineWithKey "maint".toList line = false) := by
  unfold handleServerDataRewrite at h
  by_cases hq : (TextParse.parse (normalizeServerDataBody responseBody) '\n' '|').isEmpty = true
  · rw [if_pos hq] at h
    cases h
  · rw [if_neg hq] at h
    rw [Option.some_inj] at h
    subst h
    dsimp only
    obtain ⟨hwf5, hserver, hport, htype2, ⟨tvs, htype⟩, hmaint⟩ :=
      serverDataRecords_props cfgServerPort ignoreMaintenance
        (TextParse.parse (normalizeServerDataBody responseBody) '\n' '|')
        (parse_entries_wfChar _)
    set p5 := serverDataRecords cfgServerPort ignoreMaintenance
        (TextParse.parse (normalizeServerDataBody responseBody) '\n' '|') with hp5def
    have hp5ne : p5 ≠ [] := fun hnil => by
      rw [hnil] at htype2
      exact absurd htype2 (List.not_mem_nil _)
    have hlines0 : bodyLines (TextParse.getRaw p5 '\n' '|') = p5.map (TextParse.lineOf '|') := by
      unfold bodyLines
      exact TextParse.splitOn_getRaw hp5ne (fun e he => nl_not_mem_lineOf (hwf5 e he))
    have ho0 : ¬ TextParse.getRaw p5 '\n' '|' = [] := by
      intro hz
      have hmem := List.mem_map_of_mem (TextParse.lineOf '|') hserver
      rw [← hlines0, hz] at hmem
      unfold bodyLines at hmem
      simp only [TextParse.splitOn, List.mem_singleton] at hmem
      exact absurd hmem (by decide)
    obtain ⟨hpre, hmemline⟩ := appendPassthroughLines_lines
      (extractServerDataPassthroughLines responseBody)
      (fun l hl => (passthrough_lines_wf responseBody l hl).1)
      (TextParse.getRaw p5 '\n' '|') ho0
    have hline_of_mem : ∀ e ∈ p5, TextParse.lineOf '|' e
        ∈ bodyLines (appendPassthroughLines (TextParse.getRaw p5 '\n' '|')
            (extractServerDataPassthroughLines responseBody)) := by
      intro e he
      refine hpre.subset ?_
      rw [hlines0]
      exact List.mem_map_of_mem _ he
    refine ⟨?_, ?_, ?_, ?_, ?_⟩
    · have h1 := hline_of_mem _ hserver
      rw [show TextParse.lineOf '|' (("server".toList : List Char), ["127.0.0.1".toList])
          = "server|127.0.0.1".toList from by decide] at h1
      exact h1
    · have h1 := hline_of_mem _ hport
      rw [show TextParse.lineOf '|' (("port".toList : List Char), [natDecimalChars cfgServerPort])
          = "port|".toList ++ natDecimalChars cfgServerPort from by
        rw [show ("port|".toList : List Char) = "port".toList ++ ['|'] from by decide,
          List.append_assoc]
        simp [TextParse.lineOf]] at h1
      exact h1
    · have h1 := hline_of_mem _ htype2
      rw [show TextParse.lineOf '|' (("type2".toList : List Char), ["1".toList])
          = "type2|1".toList from by decide] at h1
      exact h1
    · refine ⟨TextParse.lineOf '|' (("type".toList : List Char), tvs),
        hline_of_mem _ htype, ?_⟩
      rw [isRecordLine_lineOf (hwf5 _ htype)]
      simp
    · intro hcond line hline
      rcases hmemline line hline with h2 | h2
      · rw [hlines0] at h2
        rcases List.mem_map.mp h2 with ⟨e, he, rfl⟩
        obtain ⟨hm1, hm2⟩ := hmaint hcond e he
        constructor
        · rw [isRecordLine_lineOf (hwf5 e he)]
          exact decide_eq_false_iff_not.mpr hm1
        · rw [isRecordLine_lineOf (hwf5 e he)]
          exact decide_eq_false_iff_not.mpr hm2
      · have hp := (passthrough_lines_wf responseBody line h2).2
        exact ⟨isRecordLine_no_pipe hp _, isRecordLine_no_pipe hp _⟩

theorem claim2_witness :
    "server|127.0.0.1".toList
        ∈ bodyLines
          (String.toList "server|127.0.0.1\nport|777\ntype|1\ntype2|1\nRTENDMARKERBS1001") ∧
    ("port|".toList ++ natDecimalChars 777)
        ∈ bodyLines
          (String.toList "server|127.0.0.1\nport|777\ntype|1\ntype2|1\nRTENDMARKERBS1001") ∧
    "type2|1".toList
        ∈ bodyLines
          (String.toList "server|127.0.0.1\nport|777\ntype|1\ntype2|1\nRTENDMARKERBS1001") ∧
    (∃ line ∈ bodyLines
          (String.toList "server|127.0.0.1\nport|777\ntype|1\ntype2|1\nRTENDMARKERBS1001"),
        isRecordLineWithKey "type".toList line = true) ∧
    ((true = true ∧
        ¬ (TextParse.get
            (TextParse.parse
              (normalizeServerDataBody
                (String.toList
                  "server|x.com\nport|333\n#maint|msg\nmaint|1\nRTENDMARKERBS1001"))
              '\n' '|')
            "#maint".toList 0).isEmpty = true) →
      ∀ line ∈ bodyLines
          (String.toList "server|127.0.0.1\nport|777\ntype|1\ntype2|1\nRTENDMARKERBS1001"),
        isRecordLineWithKey "#maint".toList line = false ∧
        isRecordLineWithKey "maint".toList line = false) :=
  claim2_server_data 777 true
    (String.toList "server|x.com\nport|333\n#maint|msg\nmaint|1\nRTENDMARKERBS1001")
    (ServerDataResult.mk "x.com".toList 333
      (String.toList "server|127.0.0.1\nport|777\ntype|1\ntype2|1\nRTENDMARKERBS1001"))
    (by decide)

/-! ## Claim C1: the OnSendToServer relay rewrite -/

/-- Claim C1, counterexample to the literal claim: a client-bound
OnSendToServer tank frame whose variant arguments parse to five
arguments (argument 4 a string route) but which carries no index-1
entry.  The handler takes the OnSendToServer branch (the pending
address is recorded), yet the rewrite declines and the original frame
is forwarded unchanged, so the forwarded frame's argument 1 is not the
configured listen port. -/
theorem claim1_counterexample :
    (handleClientBoundPacket 16999 (RelayState.mk [] (.int 0) WorldState.clear)
        (([4, 0, 0, 0] ++ [1] ++ List.replicate 51 0 ++ toLE4 46) ++
          (3 :: ((0 :: 2 :: toLE4 14 ++ ascii "OnSendToServer") ++
            (2 :: 5 :: toLE4 7777) ++ (4 :: 2 :: toLE4 13 ++ ascii "a.b|door|uuid"))))).2
      = (([4, 0, 0, 0] ++ [1] ++ List.replicate 51 0 ++ toLE4 46) ++
          (3 :: ((0 :: 2 :: toLE4 14 ++ ascii "OnSendToServer") ++
            (2 :: 5 :: toLE4 7777) ++ (4 :: 2 :: toLE4 13 ++ ascii "a.b|door|uuid")))) ∧
    (handleClientBoundPacket 16999 (RelayState.mk [] (.int 0) WorldState.clear)
        (([4, 0, 0, 0] ++ [1] ++ List.replicate 51 0 ++ toLE4 46) ++
          (3 :: ((0 :: 2 :: toLE4 14 ++ ascii "OnSendToServer") ++
            (2 :: 5 :: toLE4 7777) ++
            (4 :: 2 :: toLE4 13 ++ ascii "a.b|door|uuid"))))).1.pendingAddress
      = ascii "a.b" ∧
    getArg (parseVariantArgs (3 :: ((0 :: 2 :: toLE4 14 ++ ascii "OnSendToServer") ++
        (2 :: 5 :: toLE4 7777) ++ (4 :: 2 :: toLE4 13 ++ ascii "a.b|door|uuid")))) 1
      = none := by
  refine ⟨by decide, by decide, by decide⟩

theorem parseVariantEntry_localizes {buf : List Nat} {e : VariantEntry} {rest : List Nat}
    (h : parseVariantEntry buf = some (e, rest)) :
    ∃ enc, e.encoded = some enc ∧ buf = enc ++ rest ∧
      (∀ s, parseVariantEntry (enc ++ s) = some (e, s)) ∧
      (∀ s0, e.value = .str s0 → e.type = 2 ∧ s0.length + 6 = enc.length) := by
  rcases buf with _ | ⟨i, buf1⟩
  · cases h
  rcases buf1 with _ | ⟨t, rest0⟩
  · cases h
  simp only [parseVariantEntry] at h
  by_cases ht1 : t = 1
  · subst ht1
    rw [if_pos rfl] at h
    rcases rest0 with _ | ⟨a, _ | ⟨b, _ | ⟨c, _ | ⟨d, r⟩⟩⟩⟩ <;> cases h
    exact ⟨[i, 1, a, b, c, d], rfl, rfl, fun s => rfl, fun s0 hv => by cases hv⟩
  rw [if_neg ht1] at h
  by_cases ht2 : t = 2
  · subst ht2
    rw [if_pos rfl] at h
    rcases rest0 with _ | ⟨a, _ | ⟨b, _ | ⟨c, _ | ⟨d, r⟩⟩⟩⟩
    · cases h
    · cases h
    · cases h
    · cases h
    replace h : (if le4 a b c d ≤ r.length then
        some (VariantEntry.mk i 2 (.str (r.take (le4 a b c d)))
            (some ([i, 2, a, b, c, d] ++ r.take (le4 a b c d))),
          r.drop (le4 a b c d))
      else none) = some (e, rest) := h
    by_cases hsl : le4 a b c d ≤ r.length
    · rw [if_pos hsl] at h
      cases h
      have hlen : (r.take (le4 a b c d)).length = le4 a b c d := by
        rw [List.length_take]
        omega
      refine ⟨[i, 2, a, b, c, d] ++ r.take (le4 a b c d), rfl, ?_, ?_, ?_⟩
      · rw [List.append_assoc, List.take_append_drop]
        rfl
      · intro s
        rw [show ([i, 2, a, b, c, d] ++ r.take (le4 a b c d)) ++ s
            = i :: 2 :: a :: b :: c :: d :: (r.take (le4 a b c d) ++ s) from by simp]
        rw [show parseVariantEntry
              (i :: 2 :: a :: b :: c :: d :: (r.take (le4 a b c d) ++ s))
            = (if le4 a b c d ≤ (r.take (le4 a b c d) ++ s).length then
                some (VariantEntry.mk i 2
                    (.str ((r.take (le4 a b c d) ++ s).take (le4 a b c d)))
                    (some ([i, 2, a, b, c, d]
                      ++ (r.take (le4 a b c d) ++ s).take (le4 a b c d))),
                  (r.take (le4 a b c d) ++ s).drop (le4 a b c d))
              else none) from rfl]
        rw [if_pos (by rw [List.length_append, hlen]; omega)]
        rw [List.take_left' hlen, List.drop_left' hlen]
      · intro s0 hv
        cases hv
        refine ⟨rfl, ?_⟩
        simp only [List.length_append, hlen]
        rw [show ([i, 2, a, b, c, d] : List Nat).length = 6 from rfl]
        omega
    · rw [if_neg hsl] at h
      cases h
  rw [if_neg ht2] at h
  by_cases ht3 : t = 3
  · subst ht3
    rw [if_pos rfl] at h
    rcases rest0 with _ | ⟨a0, _ | ⟨a1, _ | ⟨a2, _ | ⟨a3, _ |
      ⟨b0, _ | ⟨b1, _ | ⟨b2, _ | ⟨b3, r⟩⟩⟩⟩⟩⟩⟩⟩ <;> cases h
    exact ⟨[i, 3, a0, a1, a2, a3, b0, b1, b2, b3], rfl, rfl, fun s => rfl,
      fun s0 hv => by cases hv⟩
  rw [if_neg ht3] at h
  by_cases ht4 : t = 4
  · subst ht4
    rw [if_pos rfl] at h
    rcases rest0 with _ | ⟨a0, _ | ⟨a1, _ | ⟨a2, _ | ⟨a3, _ |
      ⟨b0, _ | ⟨b1, _ | ⟨b2, _ | ⟨b3, _ |
      ⟨c0, _ | ⟨c1, _ | ⟨c2, _ | ⟨c3, r⟩⟩⟩⟩⟩⟩⟩⟩⟩⟩⟩⟩ <;> cases h
    exact ⟨[i, 4, a0, a1, a2, a3, b0, b1, b2, b3, c0, c1, c2, c3], rfl, rfl,
      fun s => rfl, fun s0 hv => by cases hv⟩
  rw [if_neg ht4] at h
  by_cases ht5 : t = 5
  · subst ht5
    rw [if_pos rfl] at h
    rcases rest0 with _ | ⟨a, _ | ⟨b, _ | ⟨c, _ | ⟨d, r⟩⟩⟩⟩ <;> cases h
    exact ⟨[i, 5, a, b, c, d], rfl, rfl, fun s => rfl, fun s0 hv => by cases hv⟩
  rw [if_neg ht5] at h
  by_cases ht9 : t = 9
  · subst ht9
    rw [if_pos rfl] at h
    rcases rest0 with _ | ⟨a, _ | ⟨b, _ | ⟨c, _ | ⟨d, r⟩⟩⟩⟩ <;> cases h
    exact ⟨[i, 9, a, b, c, d], rfl, rfl, fun s => rfl, fun s0 hv => by cases hv⟩
  rw [if_neg ht9] at h
  cases h

theorem parseVariantLoop_localizes {n : Nat} : ∀ {buf : List Nat} {es : List VariantEntry},
    parseVariantLoop n buf = some es →
    es.length = n ∧ (∃ leftover, buf = encodedChunks es ++ leftover) ∧
    ∀ e ∈ es, ∃ enc, e.encoded = some enc ∧
      (∀ s, parseVariantEntry (enc ++ s) = some (e, s)) ∧
      (∀ s0, e.value = .str s0 → e.type = 2 ∧ s0.length + 6 = enc.length) := by
  induction n with
  | zero =>
    intro buf es h
    cases h
    exact ⟨rfl, ⟨buf, rfl⟩, fun e he => absurd he (List.not_mem_nil e)⟩
  | succ n ih =>
    intro buf es h
    rw [parseVariantLoop] at h
    rcases hpe : parseVariantEntry buf with _ | ⟨e1, rest1⟩ <;> rw [hpe] at h
    · cases h
    replace h : (match parseVariantLoop n rest1 with
      | none => none
      | some es2 => some (e1 :: es2)) = some es := h
    rcases hloop : parseVariantLoop n rest1 with _ | es1 <;> rw [hloop] at h
    · cases h
    cases h
    obtain ⟨enc, hencs, hbufdec, hrep, hshape⟩ := parseVariantEntry_localizes hpe
    obtain ⟨hlen, ⟨lo, hlo⟩, hall⟩ := ih hloop
    refine ⟨by simp [hlen], ⟨lo, ?_⟩, ?_⟩
    · rw [show encodedChunks (e1 :: es1) = enc ++ encodedChunks es1 from by
        simp [encodedChunks, hencs]]
      rw [List.append_assoc, ← hlo, ← hbufdec]
    · intro e he
      rcases List.mem_cons.mp he with h1 | h1
      · subst h1
        exact ⟨enc, hencs, hrep, hshape⟩
      · exact hall e h1

theorem parseVariantLoop_of_chunks {es es' : List VariantEntry}
    (hf : List.Forall₂ (fun e e2 => ∃ enc, e.encoded = some enc ∧
      ∀ s, parseVariantEntry (enc ++ s) = some (e2, s)) es es') :
    parseVariantLoop es.length (encodedChunks es) = some es' := by
  induction hf with
  | nil => rfl
  | @cons a b l l2 hab hll ih =>
    obtain ⟨enc, hencs, hrep⟩ := hab
    rw [show (a :: l).length = l.length + 1 from rfl]
    rw [show encodedChunks (a :: l) = enc ++ encodedChunks l from by
      simp [encodedChunks, hencs]]
    rw [parseVariantLoop]
    rw [hrep (encodedChunks l)]
    exact show (match parseVariantLoop l.length (encodedChunks l) with
        | none => none
        | some es2 => some (b :: es2)) = some (b :: l2) by rw [ih]

theorem find?_append_some {β : Type} {l1 : List β} {p : β → Bool} {x : β}
    (l2 : List β) (h : l1.find? p = some x) : (l1 ++ l2).find? p = some x := by
  induction l1 with
  | nil => simp [List.find?] at h
  | cons a rest ih =>
    by_cases hpa : p a = true
    · rw [List.find?_cons_of_pos _ hpa] at h
      rw [List.cons_append, List.find?_cons_of_pos _ hpa]
      exact h
    · rw [List.find?_cons_of_neg _ hpa] at h
      rw [List.cons_append, List.find?_cons_of_neg _ hpa]
      exact ih h

theorem find?_decomp {β : Type} {l : List β} {p : β → Bool} {x : β}
    (h : l.find? p = some x) :
    ∃ A B, l = A ++ x :: B ∧ (∀ a ∈ A, p a = false) ∧ p x = true := by
  induction l with
  | nil => simp [List.find?] at h
  | cons a rest ih =>
    by_cases hpa : p a = true
    · rw [List.find?_cons_of_pos _ hpa] at h
      cases h
      exact ⟨[], rest, rfl, by simp, hpa⟩
    · rw [List.find?_cons_of_neg _ hpa] at h
      obtain ⟨A, B, hdec, hA, hx⟩ := ih h
      refine ⟨a :: A, B, by rw [hdec]; rfl, ?_, hx⟩
      intro a2 ha2
      rcases List.mem_cons.mp ha2 with h1 | h1
      · subst h1
        exact Bool.eq_false_iff.mpr hpa
      · exact hA a2 h1

theorem replaceFirst_append (p : VariantEntry → Bool) (f : VariantEntry → VariantEntry)
    {A : List VariantEntry} (x : VariantEntry) (B : List VariantEntry)
    (hA : ∀ a ∈ A, p a = false) (hx : p x = true) :
    replaceFirst p f (A ++ x :: B) = A ++ f x :: B := by
  induction A with
  | nil =>
    simp only [List.nil_append, replaceFirst, hx, if_true]
  | cons a A2 ih =>
    have hpa : p a = false := hA a (List.mem_cons_self a A2)
    simp only [List.cons_append, replaceFirst, hpa, Bool.false_eq_true, if_false,
      List.append_eq]
    rw [ih (fun a2 h2 => hA a2 (List.mem_cons_of_mem a h2))]

theorem append_cons_cases {β : Type} : ∀ {A C : List β} {x y : β} {B D : List β},
    A ++ x :: B = C ++ y :: D → ¬ x = y →
    (∃ E, C = A ++ x :: E ∧ B = E ++ y :: D) ∨
    (∃ E, A = C ++ y :: E ∧ D = E ++ x :: B) := by
  intro A
  induction A with
  | nil =>
    intro C x y B D h hxy
    rcases C with _ | ⟨c, C2⟩
    · injection h with h1 h2
      exact absurd h1 hxy
    · injection h with h1 h2
      exact Or.inl ⟨C2, by rw [h1]; rfl, h2⟩
  | cons a A2 ih =>
    intro C x y B D h hxy
    rcases C with _ | ⟨c, C2⟩
    · injection h with h1 h2
      exact Or.inr ⟨A2, by rw [h1]; rfl, h2.symm⟩
    · injection h with h1 h2
      rcases ih h2 hxy with ⟨E, hC2, hB⟩ | ⟨E, hA2, hD⟩
      · exact Or.inl ⟨E, by rw [hC2, h1]; rfl, hB⟩
      · exact Or.inr ⟨E, by rw [hA2, h1]; rfl, hD⟩

theorem getArg_setSparse (l : List (Option JsValue)) (i : Nat) (v : JsValue) (j : Nat) :
    getArg (setSparse l i v) j = if j = i then some v else getArg l j := by
  unfold setSparse getArg
  simp only [List.get?_eq_getElem?]
  by_cases hi : i < l.length
  · rw [if_pos hi, List.getElem?_set]
    by_cases hj : j = i
    · subst hj
      rw [if_pos rfl, if_pos rfl, if_pos hi]
    · rw [if_neg (fun hh => hj hh.symm), if_neg hj]
  · rw [if_neg hi]
    have hplen : (l ++ List.replicate (i - l.length) none).length = i := by
      rw [List.length_append, List.length_replicate]
      omega
    by_cases hj : j = i
    · subst hj
      rw [if_pos rfl]
      rw [List.getElem?_append_right (by omega)]
      rw [hplen, Nat.sub_self]
      rfl
    · rw [if_neg hj]
      by_cases hjl : j < l.length
      · rw [List.getElem?_append_left (by rw [List.length_append]; omega)]
        rw [List.getElem?_append_left hjl]
      · rw [show (l[j]? : Option (Option JsValue)) = none from
          List.getElem?_eq_none (by omega)]
        by_cases hji : j < i
        · rw [List.getElem?_append_left (by omega)]
          rw [List.getElem?_append_right (by omega)]
          rw [List.getElem?_replicate, if_pos (by omega)]
        · rw [List.getElem?_append_right (by omega), hplen]
          rw [show (([some v][j - i]?) : Option (Option JsValue)) = none from
            List.getElem?_eq_none (by simp; omega)]

theorem getArg_foldl_setSparse (es : List VariantEntry) :
    ∀ (acc : List (Option JsValue)) (j : Nat),
      getArg (es.foldl (fun args e => setSparse args e.index e.value) acc) j
        = match es.reverse.find? (fun e => e.index = j) with
          | some e => some e.value
          | none => getArg acc j := by
  induction es with
  | nil => intro acc j; rfl
  | cons e rest ih =>
    intro acc j
    rw [List.foldl_cons, ih]
    rw [show (e :: rest).reverse = rest.reverse ++ [e] from by simp]
    rcases hrf : rest.reverse.find? (fun e2 => e2.index = j) with _ | x
    · rw [find?_append_of_none _ _ hrf]
      by_cases hpe : e.index = j
      · rw [show (([e] : List VariantEntry).find? (fun e2 => e2.index = j)) = some e from by
          simp [List.find?, hpe]]
        rw [getArg_setSparse, if_pos hpe.symm, hrf]
      · rw [show (([e] : List VariantEntry).find? (fun e2 => e2.index = j)) = none from by
          simp [List.find?, hpe]]
        rw [getArg_setSparse, if_neg (fun hh => hpe hh.symm), hrf]
    · rw [find?_append_some _ hrf, hrf]

theorem find?_reverse_of_nodup {es : List VariantEntry}
    (hnd : (es.map (fun e => e.index)).Nodup) (j : Nat) :
    es.reverse.find? (fun e => e.index = j) = es.find? (fun e => e.index = j) := by
  induction es with
  | nil => rfl
  | cons e rest ih =>
    simp only [List.map_cons, List.nodup_cons] at hnd
    obtain ⟨hnm, hnd2⟩ := hnd
    rw [show (e :: rest).reverse = rest.reverse ++ [e] from by simp]
    by_cases hpe : e.index = j
    · have hnone : rest.find? (fun e2 => e2.index = j) = none := by
        rw [List.find?_eq_none]
        intro x hx
        simp only [decide_eq_true_eq]
        intro hxj
        have hmem : e.index ∈ rest.map (fun e2 => e2.index) := by
          rw [hpe, ← hxj]
          exact List.mem_map_of_mem _ hx
        exact hnm hmem
      have hnoner : rest.reverse.find? (fun e2 => e2.index = j) = none := by
        rw [List.find?_eq_none] at hnone ⊢
        intro x hx
        exact hnone x (List.mem_reverse.mp hx)
      rw [find?_append_of_none _ _ hnoner]
      rw [List.find?_cons_of_pos _ (by simpa using hpe)]
      simp [List.find?, hpe]
    · rw [List.find?_cons_of_neg _ (by simpa using hpe)]
      rcases hrf : rest.reverse.find? (fun e2 => e2.index = j) with _ | x
      · rw [find?_append_of_none _ _ hrf]
        rw [show (([e] : List VariantEntry).find? (fun e2 => e2.index = j)) = none from by
          simp [List.find?, hpe]]
        rw [← ih hnd2, hrf]
      · rw [find?_append_some _ hrf, ← ih hnd2, hrf]

theorem getArg_argsOfEntries {es : List VariantEntry}
    (hnd : (es.map (fun e => e.index)).Nodup) (j : Nat) :
    getArg (argsOfEntries es) j
      = match es.find? (fun e => e.index = j) with
        | some e => some e.value
        | none => none := by
  unfold argsOfEntries
  rw [getArg_foldl_setSparse, find?_reverse_of_nodup hnd]
  rcases es.find? (fun e => e.index = j) with _ | x <;> rfl

theorem mapM_encoded {es : List VariantEntry}
    (h : ∀ e ∈ es, e.encoded.isSome = true) :
    es.mapM (fun e =>
        match e.encoded with
        | some bs => some bs
        | none => buildVariantEntry e.index e.type e.value)
      = some (es.map (fun e => e.encoded.getD [])) := by
  induction es with
  | nil => rfl
  | cons e rest ih =>
    rcases he : e.encoded with _ | enc
    · have h2 := h e (List.mem_cons_self e rest)
      rw [he] at h2
      cases h2
    · rw [List.mapM_cons, ih (fun x hx => h x (List.mem_cons_of_mem e hx))]
      simp [he]

theorem encodeVariantEntries_of_some {c : Nat} {es : List VariantEntry}
    (h : ∀ e ∈ es, e.encoded.isSome = true) :
    encodeVariantEntries ⟨c, es⟩ = (c % 256) :: encodedChunks es := by
  unfold encodeVariantEntries
  rw [show (⟨c, es⟩ : ParsedVariant).entries = es from rfl, mapM_encoded h]
  rfl

theorem chunk_length_le {es : List VariantEntry} {e : VariantEntry} (he : e ∈ es) :
    (e.encoded.getD []).length ≤ (encodedChunks es).length := by
  induction es with
  | nil => cases he
  | cons f rest ih =>
    rw [show encodedChunks (f :: rest) = (f.encoded.getD []) ++ encodedChunks rest from by
      simp [encodedChunks]]
    rcases List.mem_cons.mp he with h1 | h1
    · subst h1
      simp
    · calc (e.encoded.getD []).length ≤ (encodedChunks rest).length := ih h1
        _ ≤ _ := by simp

theorem stripNullTerminator_sublist (l : List Nat) :
    List.Sublist (stripNullTerminator l) l := by
  unfold stripNullTerminator
  split
  · exact List.dropLast_sublist l
  · exact List.Sublist.refl l

theorem variantFunctionMap_onSendToServer {s : List Nat}
    (h : variantFunctionMap s = .onSendToServer) : s = ascii "OnSendToServer" := by
  unfold variantFunctionMap at h
  by_cases h1 : s = ascii "OnSendToServer"
  · exact h1
  · rw [if_neg h1] at h
    split_ifs at h <;> exact absurd h (by decide)

theorem parsePacket_tank {raw : List Nat} {t : TankPacket} (h : parsePacket raw = .tank t) :
    parseTankPacket raw = some t := by
  simp only [parsePacket] at h
  by_cases h4 : raw.length < 4
  · rw [if_pos h4] at h
    cases h
  rw [if_neg h4] at h
  by_cases hm : readU32 raw 0 = 1 ∨ readU32 raw 0 = 2 ∨ readU32 raw 0 = 3
  · rw [if_pos hm] at h
    rcases htp : parseTextPacket raw with _ | x <;> rw [htp] at h <;> cases h
  · rw [if_neg hm] at h
    by_cases hm4 : readU32 raw 0 = 4
    · rw [if_pos hm4] at h
      rcases htk : parseTankPacket raw with _ | x <;> rw [htk] at h
      · cases h
      · cases h
        rfl
    · rw [if_neg hm4] at h
      cases h

theorem parseTankPacket_onSendToServer {raw : List Nat} {t : TankPacket}
    (h : parseTankPacket raw = some t) (hpid : t.packetId = .onSendToServer) :
    t.packetType = 1 ∧
    t.variantArgs = some (parseVariantArgs t.extra) ∧
    getArg (parseVariantArgs t.extra) 0 = some (.str (ascii "OnSendToServer")) ∧
    t.extra = tankExtraSlice (stripNullTerminator raw) ∧
    List.Sublist t.extra raw ∧
    t.header = (stripNullTerminator raw).take 60 := by
  unfold parseTankPacket at h
  by_cases h60 : (stripNullTerminator raw).length < 60
  · rw [if_pos h60] at h
    cases h
  rw [if_neg h60] at h
  by_cases hmt : readU32 (stripNullTerminator raw) 0 ≠ 4
  · rw [if_pos hmt] at h
    cases h
  rw [if_neg hmt] at h
  cases h
  replace hpid : (if readU8 (stripNullTerminator raw) 4 = 26 then PacketId.disconnect
      else if readU8 (stripNullTerminator raw) 4 = 1 then
        variantFunctionMap (tankVariantFunction
          (if readU8 (stripNullTerminator raw) 4 = 1 then
            some (parseVariantArgs (tankExtraSlice (stripNullTerminator raw)))
           else none))
      else PacketId.unknown) = PacketId.onSendToServer := hpid
  by_cases h26 : readU8 (stripNullTerminator raw) 4 = 26
  · rw [if_pos h26] at hpid
    exact absurd hpid (by decide)
  rw [if_neg h26] at hpid
  by_cases h1t : readU8 (stripNullTerminator raw) 4 = 1
  · rw [if_pos h1t, if_pos h1t] at hpid
    have hs := variantFunctionMap_onSendToServer hpid
    refine ⟨h1t, ?_, ?_, rfl, ?_, rfl⟩
    · show (if readU8 (stripNullTerminator raw) 4 = 1 then
          some (parseVariantArgs (tankExtraSlice (stripNullTerminator raw))) else none)
        = some (parseVariantArgs (tankExtraSlice (stripNullTerminator raw)))
      rw [if_pos h1t]
    · show getArg (parseVariantArgs (tankExtraSlice (stripNullTerminator raw))) 0
        = some (.str (ascii "OnSendToServer"))
      rcases harg : getArg (parseVariantArgs (tankExtraSlice (stripNullTerminator raw))) 0
        with _ | v
      · rw [show tankVariantFunction
            (some (parseVariantArgs (tankExtraSlice (stripNullTerminator raw))))
            = (match getArg (parseVariantArgs (tankExtraSlice (stripNullTerminator raw))) 0
               with
               | some (.str s) => s
               | _ => []) from rfl, harg] at hs
        exact absurd (show ([] : List Nat) = ascii "OnSendToServer" from hs) (by decide)
      · rw [show tankVariantFunction
            (some (parseVariantArgs (tankExtraSlice (stripNullTerminator raw))))
            = (match getArg (parseVariantArgs (tankExtraSlice (stripNullTerminator raw))) 0
               with
               | some (.str s) => s
               | _ => []) from rfl, harg] at hs
        rcases v with s0 | x | comps | _
        · exact congrArg (fun z => some (JsValue.str z))
            (show s0 = ascii "OnSendToServer" from hs)
        · exact absurd (show ([] : List Nat) = ascii "OnSendToServer" from hs) (by decide)
        · exact absurd (show ([] : List Nat) = ascii "OnSendToServer" from hs) (by decide)
        · exact absurd (show ([] : List Nat) = ascii "OnSendToServer" from hs) (by decide)
    · show List.Sublist (tankExtraSlice (stripNullTerminator raw)) raw
      unfold tankExtraSlice
      split
      · exact ((List.drop_sublist _ _).trans (List.take_sublist _ _)).trans
          (stripNullTerminator_sublist raw)
      · exact List.nil_sublist raw
  · rw [if_neg h1t] at hpid
    exact absurd hpid (by decide)

theorem buildVariantEntry_port_decodes (idx : Nat) (hidx : idx < 256) (typ : Nat)
    (htyp : typ = 5 ∨ typ = 9) (n : Nat) (hn : n < 2 ^ 31) :
    ∃ enc, buildVariantEntry idx typ (.num (.int n)) = some enc ∧
      ∀ s, parseVariantEntry (enc ++ s)
        = some (VariantEntry.mk idx typ (.num (.int n)) (some enc), s) := by
  have hval : Js.toUint32 (Js.valueToNumber (.num (.int (n : Int)))) = n := by
    show ((n : Int) % (2 ^ 32 : Int)).toNat = n
    omega
  have hu : Js.toUint32 (Js.valueToNumber (.num (.int (n : Int)))) < 2 ^ 32 := by
    rw [hval]; omega
  obtain ⟨b0, b1, b2, b3, hbytes, hle⟩ :
      ∃ b0 b1 b2 b3, toLE4 (Js.toUint32 (Js.valueToNumber (.num (.int (n : Int)))))
          = [b0, b1, b2, b3]
        ∧ le4 b0 b1 b2 b3 = Js.toUint32 (Js.valueToNumber (.num (.int (n : Int)))) :=
    ⟨_, _, _, _, rfl, le4_toLE4 hu⟩
  have hle2 : le4 b0 b1 b2 b3 = n := hle.trans hval
  rcases htyp with h5 | h9
  · subst h5
    refine ⟨[idx, 5, b0, b1, b2, b3], ?_, ?_⟩
    · rw [show buildVariantEntry idx 5 (.num (.int n))
          = some ([idx % 256, 5 % 256] ++ toLE4
              (Js.toUint32 (Js.valueToNumber (.num (.int (n : Int)))))) from by
        unfold buildVariantEntry
        rw [if_neg (by decide), if_pos rfl]]
      rw [hbytes, Nat.mod_eq_of_lt hidx]
      rfl
    · intro s
      rw [show ([idx, 5, b0, b1, b2, b3] : List Nat) ++ s
          = idx :: 5 :: b0 :: b1 :: b2 :: b3 :: s from rfl]
      rw [show parseVariantEntry (idx :: 5 :: b0 :: b1 :: b2 :: b3 :: s)
          = some (VariantEntry.mk idx 5 (.num (.int (le4 b0 b1 b2 b3)))
              (some [idx, 5, b0, b1, b2, b3]), s) from rfl]
      rw [hle2]
  · subst h9
    have hsig : toSigned32 (le4 b0 b1 b2 b3) = (n : Int) := by
      rw [hle2]
      unfold toSigned32
      rw [if_pos (by exact_mod_cast hn)]
    refine ⟨[idx, 9, b0, b1, b2, b3], ?_, ?_⟩
    · rw [show buildVariantEntry idx 9 (.num (.int n))
          = some ([idx % 256, 9 % 256] ++ toLE4
              (Js.toUint32 (Js.valueToNumber (.num (.int (n : Int)))))) from by
        unfold buildVariantEntry
        rw [if_neg (by decide), if_neg (by decide), if_pos rfl]]
      rw [hbytes, Nat.mod_eq_of_lt hidx]
      rfl
    · intro s
      rw [show ([idx, 9, b0, b1, b2, b3] : List Nat) ++ s
          = idx :: 9 :: b0 :: b1 :: b2 :: b3 :: s from rfl]
      rw [show parseVariantEntry (idx :: 9 :: b0 :: b1 :: b2 :: b3 :: s)
          = some (VariantEntry.mk idx 9 (.num (.int (toSigned32 (le4 b0 b1 b2 b3))))
              (some [idx, 9, b0, b1, b2, b3]), s) from rfl]
      rw [hsig]

theorem buildVariantEntry_str_decodes (idx : Nat) (hidx : idx < 256) (s0 : List Nat)
    (hlen : s0.length < 2 ^ 32) :
    ∃ enc, buildVariantEntry idx 2 (.str s0) = some enc ∧
      ∀ s, parseVariantEntry (enc ++ s)
        = some (VariantEntry.mk idx 2 (.str s0) (some enc), s) := by
  obtain ⟨b0, b1, b2, b3, hbytes, hle⟩ :
      ∃ b0 b1 b2 b3, toLE4 s0.length = [b0, b1, b2, b3]
        ∧ le4 b0 b1 b2 b3 = s0.length :=
    ⟨_, _, _, _, rfl, le4_toLE4 hlen⟩
  refine ⟨[idx, 2, b0, b1, b2, b3] ++ s0, ?_, ?_⟩
  · rw [show buildVariantEntry idx 2 (.str s0)
        = some ([idx % 256, 2 % 256] ++ toLE4 (Js.valueToText (.str s0)).length
            ++ Js.valueToText (.str s0)) from by
      unfold buildVariantEntry
      rw [if_pos rfl]]
    rw [show Js.valueToText (.str s0) = s0 from rfl]
    rw [hbytes, Nat.mod_eq_of_lt hidx]
    rfl
  · intro s
    rw [show ([idx, 2, b0, b1, b2, b3] ++ s0) ++ s
        = idx :: 2 :: b0 :: b1 :: b2 :: b3 :: (s0 ++ s) from by simp]
    rw [show parseVariantEntry (idx :: 2 :: b0 :: b1 :: b2 :: b3 :: (s0 ++ s))
        = (if le4 b0 b1 b2 b3 ≤ (s0 ++ s).length then
            some (VariantEntry.mk idx 2 (.str ((s0 ++ s).take (le4 b0 b1 b2 b3)))
              (some ([idx, 2, b0, b1, b2, b3] ++ (s0 ++ s).take (le4 b0 b1 b2 b3))),
              (s0 ++ s).drop (le4 b0 b1 b2 b3))
          else none) from rfl]
    rw [hle, if_pos (by simp)]
    rw [List.take_left, List.drop_left]

theorem forall₂_append2 {β : Type} {R : β → β → Prop} {l1 l2 u1 u2 : List β}
    (h1 : List.Forall₂ R l1 l2) (h2 : List.Forall₂ R u1 u2) :
    List.Forall₂ R (l1 ++ u1) (l2 ++ u2) := by
  induction h1 with
  | nil => exact h2
  | cons hab hll ih => exact List.Forall₂.cons hab ih

theorem find?_of_decomp {X Y : List VariantEntry} {z : VariantEntry} {j : Nat}
    (hX : ∀ a ∈ X, ¬ a.index = j) (hz : z.index = j) :
    (X ++ z :: Y).find? (fun e => e.index = j) = some z := by
  rw [find?_append_of_none _ _
    (List.find?_eq_none.mpr (fun x hx => by simpa using hX x hx))]
  rw [List.find?_cons_of_pos _ (by simpa using hz)]

theorem replaceFirst_eq_map (f : VariantEntry → VariantEntry) (j : Nat) :
    ∀ {l : List VariantEntry}, (l.map (fun e => e.index)).Nodup →
    replaceFirst (fun e => e.index = j) f l
      = l.map (fun e => if e.index = j then f e else e) := by
  intro l
  induction l with
  | nil => intro _; rfl
  | cons e rest ih =>
    intro hnd
    simp only [List.map_cons, List.nodup_cons] at hnd
    obtain ⟨hnm, hnd2⟩ := hnd
    by_cases hej : e.index = j
    · rw [show replaceFirst (fun e2 => e2.index = j) f (e :: rest)
          = f e :: rest from by simp [replaceFirst, hej]]
      rw [List.map_cons, if_pos hej]
      have hrest : rest.map (fun e2 => if e2.index = j then f e2 else e2) = rest := by
        conv_rhs => rw [← List.map_id rest]
        apply List.map_congr_left
        intro x hx
        rw [if_neg, id]
        intro hxj
        exact hnm (by rw [hej, ← hxj]; exact List.mem_map_of_mem _ hx)
      rw [hrest]
    · rw [show replaceFirst (fun e2 => e2.index = j) f (e :: rest)
          = e :: replaceFirst (fun e2 => e2.index = j) f rest from by
        simp [replaceFirst, hej]]
      rw [List.map_cons, if_neg hej, ih hnd2]

theorem forall₂_map_map {β : Type} {R : β → β → Prop} (g h : β → β) :
    ∀ {l : List β}, (∀ x ∈ l, R (g x) (h x)) → List.Forall₂ R (l.map g) (l.map h) := by
  intro l
  induction l with
  | nil => intro _; exact List.Forall₂.nil
  | cons a rest ih =>
    intro hp
    exact List.Forall₂.cons (hp a (List.mem_cons_self a rest))
      (ih fun x hx => hp x (List.mem_cons_of_mem a hx))

theorem find?_map_index {g : VariantEntry → VariantEntry}
    (hg : ∀ e, (g e).index = e.index) (j : Nat) :
    ∀ l : List VariantEntry,
      (l.map g).find? (fun e => e.index = j) = (l.find? (fun e => e.index = j)).map g := by
  intro l
  induction l with
  | nil => rfl
  | cons e rest ih =>
    by_cases hej : e.index = j
    · rw [List.map_cons, List.find?_cons_of_pos _ (by simp [hg, hej]),
        List.find?_cons_of_pos _ (by simpa using hej)]
      rfl
    · rw [List.map_cons, List.find?_cons_of_neg _ (by simp [hg, hej]),
        List.find?_cons_of_neg _ (by simpa using hej), ih]

theorem rewriteOnSendToServer_spec {extra : List Nat} {pv : ParsedVariant}
    (hpv : parseVariantEntries extra = some pv)
    (hbytes : ∀ b ∈ extra, b < 256)
    (hxlen : extra.length < 2 ^ 31)
    (hnd : (pv.entries.map (fun e => e.index)).Nodup)
    (cfgServerPort : Nat) (hcfg : cfgServerPort < 2 ^ 31)
    {v1 : JsValue} (h1 : getArg (parseVariantArgs extra) 1 = some v1)
    {route : List Nat} (h4 : getArg (parseVariantArgs extra) 4 = some (.str route))
    {sepIdx : Nat} (hsep : route.findIdx? (fun b => b = 124) = some sepIdx)
    (h0 : getArg (parseVariantArgs extra) 0 = some (.str (ascii "OnSendToServer"))) :
    ∃ extra2, rewriteOnSendToServerExtra extra (ascii "127.0.0.1")
        (.int cfgServerPort) = some extra2 ∧
      getArg (parseVariantArgs extra2) 1 = some (.num (.int cfgServerPort)) ∧
      getArg (parseVariantArgs extra2) 4
        = some (.str (ascii "127.0.0.1" ++ route.drop sepIdx)) := by
  have hargsE : parseVariantArgs extra = argsOfEntries pv.entries := by
    unfold parseVariantArgs
    rw [hpv]
  rw [hargsE, getArg_argsOfEntries hnd 0] at h0
  rw [hargsE, getArg_argsOfEntries hnd 1] at h1
  rw [hargsE, getArg_argsOfEntries hnd 4] at h4
  rcases hf0 : pv.entries.find? (fun e => e.index = 0) with _ | fe
  · rw [hf0] at h0
    cases h0
  rcases hf1 : pv.entries.find? (fun e => e.index = 1) with _ | portE
  · rw [hf1] at h1
    cases h1
  rcases hf4 : pv.entries.find? (fun e => e.index = 4) with _ | routeE
  · rw [hf4] at h4
    cases h4
  rw [hf0] at h0
  rw [hf4] at h4
  replace h0 : some fe.value = some (JsValue.str (ascii "OnSendToServer")) := h0
  replace h4 : some routeE.value = some (JsValue.str route) := h4
  rw [Option.some_inj] at h0 h4
  have hfeMem := List.mem_of_find?_eq_some hf0
  have hpMem := List.mem_of_find?_eq_some hf1
  have hrMem := List.mem_of_find?_eq_some hf4
  have hport1 : portE.index = 1 := by simpa using List.find?_some hf1
  have hroute4 : routeE.index = 4 := by simpa using List.find?_some hf4
  rcases extra with _ | ⟨c, rest⟩
  · cases hpv
    exact absurd hfeMem (List.not_mem_nil fe)
  replace hpv : (parseVariantLoop c rest).map
      (fun es2 => ParsedVariant.mk c es2) = some pv := hpv
  rcases hloop : parseVariantLoop c rest with _ | es
  · rw [hloop] at hpv
    cases hpv
  rw [hloop] at hpv
  replace hpv : some (ParsedVariant.mk c es) = some pv := hpv
  rw [Option.some_inj] at hpv
  have hpvE : pv.entries = es := by rw [← hpv]
  have hpvSome : parseVariantEntries (c :: rest) = some (ParsedVariant.mk c es) := by
    rw [show parseVariantEntries (c :: rest)
        = (parseVariantLoop c rest).map (fun es2 => ParsedVariant.mk c es2) from rfl]
    rw [hloop]
    rfl
  obtain ⟨hlenEs, ⟨lo, hlo⟩, hall⟩ := parseVariantLoop_localizes hloop
  have hcount : c < 256 := hbytes c (List.mem_cons_self c rest)
  have hfeMemE : fe ∈ es := hpvE ▸ hfeMem
  have hpMemE : portE ∈ es := hpvE ▸ hpMem
  have hrMemE : routeE ∈ es := hpvE ▸ hrMem
  have hndE : (es.map (fun e => e.index)).Nodup := hpvE ▸ hnd
  have hinj := List.inj_on_of_nodup_map hndE
  have hself : ∀ e ∈ es, ∃ enc, e.encoded = some enc ∧
      ∀ s, parseVariantEntry (enc ++ s) = some (e, s) := by
    intro e he
    obtain ⟨enc, ha, hb, _⟩ := hall e he
    exact ⟨enc, ha, hb⟩
  obtain ⟨encR0, hR0enc, _, hR0shape⟩ := hall routeE hrMemE
  obtain ⟨hrtype, hrlen6⟩ := hR0shape route h4
  obtain ⟨encF0, _, _, hF0shape⟩ := hall fe hfeMemE
  have hfe2 : fe.type = 2 := (hF0shape _ h0).1
  have hRchunk : encR0.length ≤ (encodedChunks es).length := by
    have h5 := chunk_length_le hrMemE
    rw [hR0enc] at h5
    simpa using h5
  have hrestlen : (encodedChunks es).length ≤ rest.length := by
    rw [hlo]
    simp
  simp only [List.length_cons] at hxlen
  have hrr_len : (ascii "127.0.0.1" ++ route.drop sepIdx).length < 2 ^ 32 := by
    rw [List.length_append, List.length_drop,
      show (ascii "127.0.0.1").length = 9 from by decide]
    omega
  have hor : Js.or0 (JsNumber.int (cfgServerPort : Int)) = JsNumber.int cfgServerPort := rfl
  obtain ⟨encP, hbuildP, hrepP⟩ := buildVariantEntry_port_decodes 1 (by omega)
    (if portE.type = 9 ∨ portE.type = 5 then portE.type else 5)
    (by split_ifs with hh
        · exact hh.symm
        · exact Or.inl rfl)
    cfgServerPort hcfg
  obtain ⟨encR, hbuildR, hrepR⟩ := buildVariantEntry_str_decodes 4 (by omega)
    (ascii "127.0.0.1" ++ route.drop sepIdx) hrr_len
  set f1c : VariantEntry → VariantEntry := fun e =>
    { e with value := JsValue.num (Js.or0 (JsNumber.int cfgServerPort)),
             encoded := buildVariantEntry e.index
               (if portE.type = 9 ∨ portE.type = 5 then portE.type else 5)
               (JsValue.num (Js.or0 (JsNumber.int cfgServerPort))) } with hf1cdef
  set f4c : VariantEntry → VariantEntry := fun e =>
    { e with value := JsValue.str (ascii "127.0.0.1" ++ route.drop sepIdx),
             encoded := buildVariantEntry e.index 2
               (JsValue.str (ascii "127.0.0.1" ++ route.drop sepIdx)) } with hf4cdef
  set pE2 : VariantEntry := VariantEntry.mk 1
    (if portE.type = 9 ∨ portE.type = 5 then portE.type else 5)
    (JsValue.num (JsNumber.int cfgServerPort)) (some encP) with hpE2def
  set rE2 : VariantEntry := VariantEntry.mk 4 2
    (JsValue.str (ascii "127.0.0.1" ++ route.drop sepIdx)) (some encR) with hrE2def
  set φf : VariantEntry → VariantEntry := fun e =>
    if e.index = 1 then f1c e else if e.index = 4 then f4c e else e with hphidef
  set ψf : VariantEntry → VariantEntry := fun e =>
    if e.index = 1 then pE2 else if e.index = 4 then rE2 else e with hpsidef
  have hidx_ψ : ∀ e, (ψf e).index = e.index := by
    intro e
    simp only [hpsidef]
    by_cases he1 : e.index = 1
    · rw [if_pos he1]
      exact he1.symm
    rw [if_neg he1]
    by_cases he4 : e.index = 4
    · rw [if_pos he4]
      exact he4.symm
    · rw [if_neg he4]
  have hmapidxψ : (es.map ψf).map (fun e => e.index) = es.map (fun e => e.index) := by
    rw [List.map_map]
    exact List.map_congr_left (fun x _ => hidx_ψ x)
  have hndψ : ((es.map ψf).map (fun e => e.index)).Nodup := by
    rw [hmapidxψ]
    exact hndE
  have hpointwise : ∀ x ∈ es, (∃ enc, (φf x).encoded = some enc ∧
      ∀ s, parseVariantEntry (enc ++ s) = some (ψf x, s)) := by
    intro x hx
    simp only [hphidef, hpsidef]
    by_cases hx1 : x.index = 1
    · rw [if_pos hx1, if_pos hx1]
      have hxp : x = portE := hinj hx hpMemE (by rw [hx1, hport1])
      refine ⟨encP, ?_, ?_⟩
      · rw [show (f1c x).encoded = buildVariantEntry x.index
            (if portE.type = 9 ∨ portE.type = 5 then portE.type else 5)
            (JsValue.num (Js.or0 (JsNumber.int cfgServerPort))) from rfl]
        rw [hxp, hport1, hor]
        exact hbuildP
      · intro s
        rw [hrepP s]
    rw [if_neg hx1, if_neg hx1]
    by_cases hx4 : x.index = 4
    · rw [if_pos hx4, if_pos hx4]
      have hxr : x = routeE := hinj hx hrMemE (by rw [hx4, hroute4])
      refine ⟨encR, ?_, ?_⟩
      · rw [show (f4c x).encoded = buildVariantEntry x.index 2
            (JsValue.str (ascii "127.0.0.1" ++ route.drop sepIdx)) from rfl]
        rw [hxr, hroute4]
        exact hbuildR
      · intro s
        rw [hrepR s]
    · rw [if_neg hx4, if_neg hx4]
      exact hself x hx
  have hforall : List.Forall₂ (fun e e2 => ∃ enc, e.encoded = some enc ∧
      ∀ s, parseVariantEntry (enc ++ s) = some (e2, s)) (es.map φf) (es.map ψf) :=
    forall₂_map_map φf ψf hpointwise
  have hloop2 : parseVariantLoop (es.map φf).length (encodedChunks (es.map φf))
      = some (es.map ψf) := parseVariantLoop_of_chunks hforall
  have hsome2 : ∀ e2 ∈ es.map φf, e2.encoded.isSome = true := by
    intro e2 he2
    rcases List.mem_map.mp he2 with ⟨x, hx, rfl⟩
    obtain ⟨enc, henc, _⟩ := hpointwise x hx
    rw [henc]
    rfl
  have hencEq : encodeVariantEntries (ParsedVariant.mk c (es.map φf))
      = (c % 256) :: encodedChunks (es.map φf) := encodeVariantEntries_of_some hsome2
  have hlen2 : (es.map φf).length = c := by
    rw [List.length_map]
    exact hlenEs
  have hargs2 : parseVariantArgs ((c % 256) :: encodedChunks (es.map φf))
      = argsOfEntries (es.map ψf) := by
    rw [show parseVariantArgs ((c % 256) :: encodedChunks (es.map φf))
        = (match (parseVariantLoop (c % 256) (encodedChunks (es.map φf))).map
            (fun es3 => ParsedVariant.mk (c % 256) es3) with
          | none => []
          | some parsed => argsOfEntries parsed.entries) from rfl]
    rw [Nat.mod_eq_of_lt hcount, ← hlen2, hloop2]
    rfl
  have hf1E : es.find? (fun e => e.index = 1) = some portE := by
    rw [← hpvE]
    exact hf1
  have hf4E : es.find? (fun e => e.index = 4) = some routeE := by
    rw [← hpvE]
    exact hf4
  have hf0E : es.find? (fun e => e.index = 0) = some fe := by
    rw [← hpvE]
    exact hf0
  have hfind1 : (es.map ψf).find? (fun e => e.index = 1) = some pE2 := by
    rw [find?_map_index hidx_ψ 1 es, hf1E]
    rw [show (some portE).map ψf = some (ψf portE) from rfl]
    rw [show ψf portE = pE2 from by simp only [hpsidef]; rw [if_pos hport1]]
  have hfind4 : (es.map ψf).find? (fun e => e.index = 4) = some rE2 := by
    rw [find?_map_index hidx_ψ 4 es, hf4E]
    rw [show (some routeE).map ψf = some (ψf routeE) from rfl]
    rw [show ψf routeE = rE2 from by
      simp only [hpsidef]
      rw [if_neg (by rw [hroute4]; decide), if_pos hroute4]]
  have hne0E : es.isEmpty = false := by
    rcases es with _ | ⟨x, xs⟩
    · exact absurd hfeMemE (List.not_mem_nil fe)
    · rfl
  have hndg1 : ((es.map (fun e => if e.index = 1 then f1c e else e)).map
      (fun e => e.index)).Nodup := by
    rw [List.map_map]
    have hcg : es.map ((fun e => e.index) ∘ (fun e => if e.index = 1 then f1c e else e))
        = es.map (fun e => e.index) := by
      apply List.map_congr_left
      intro x _
      simp only [Function.comp]
      by_cases hx1 : x.index = 1
      · rw [if_pos hx1]
        try rfl
      · rw [if_neg hx1]
    rw [hcg]
    exact hndE
  have hcompEq : (es.map (fun e => if e.index = 1 then f1c e else e)).map
      (fun e => if e.index = 4 then f4c e else e) = es.map φf := by
    rw [List.map_map]
    apply List.map_congr_left
    intro x _
    simp only [Function.comp, hphidef]
    by_cases hx1 : x.index = 1
    · rw [if_pos hx1, if_pos hx1]
      rw [if_neg (show ¬ (f1c x).index = 4 from by
        rw [show (f1c x).index = x.index from rfl, hx1]
        decide)]
    · rw [if_neg hx1, if_neg hx1]
  refine ⟨(c % 256) :: encodedChunks (es.map φf), ?_, ?_, ?_⟩
  · unfold rewriteOnSendToServerExtra
    rw [hpvSome]
    simp only [hne0E, Bool.false_eq_true, if_false, hf0E, hfe2, h0, hf1E, hf4E, hrtype,
      h4, hsep, and_self, eq_self_iff_true, if_true,
      (show (ascii "127.0.0.1").isEmpty = false from by decide)]
    rw [← hf1cdef, ← hf4cdef]
    rw [replaceFirst_eq_map f1c 1 hndE]
    rw [replaceFirst_eq_map f4c 4 hndg1]
    rw [hcompEq, hencEq]
    rw [if_neg (by simp)]
  · rw [hargs2, getArg_argsOfEntries hndψ 1, hfind1]
  · rw [hargs2, getArg_argsOfEntries hndψ 4, hfind4]

/-- Claim C1 (amended): for a client-bound byte frame that classifies as
an OnSendToServer tank whose variant entries parse with pairwise
distinct argument indices, and whose arguments provide BOTH an index-1
entry and an index-4 string route containing a pipe, the handler records
the pending endpoint as (route text before the first pipe, the index-1
argument coerced through Number-or-0), leaves the world untouched, and
forwards the rebuilt tank frame (with the trailing-NUL presence
preserved) whose re-decoded argument 1 is exactly the configured listen
port and whose argument 4 is 127.0.0.1 followed by the route text from
its first pipe onward.  The index-1 presence is necessary: without it
the rewrite declines and the original frame passes through unchanged
(see the counterexample). -/
theorem claim1_on_send_to_server (cfgServerPort : Nat) (st : RelayState)
    (rawData : List Nat) (t : TankPacket) (pv : ParsedVariant) (v1 : JsValue)
    (route : List Nat) (sepIdx : Nat)
    (hbytes : ∀ b ∈ rawData, b < 256)
    (hlen : rawData.length < 2 ^ 31)
    (hcfg : cfgServerPort < 2 ^ 31)
    (hparse : parsePacket rawData = .tank t)
    (hpid : t.packetId = .onSendToServer)
    (hpv : parseVariantEntries t.extra = some pv)
    (hnd : (pv.entries.map (fun e => e.index)).Nodup)
    (h1 : getArg (parseVariantArgs t.extra) 1 = some v1)
    (h4 : getArg (parseVariantArgs t.extra) 4 = some (.str route))
    (hsep : route.findIdx? (fun b => b = 124) = some sepIdx) :
    ∃ extra2,
      rewriteOnSendToServerExtra t.extra (ascii "127.0.0.1") (.int cfgServerPort)
        = some extra2 ∧
      (handleClientBoundPacket cfgServerPort st rawData).1.pendingAddress
        = route.takeWhile (fun b => ¬ b = 124) ∧
      (handleClientBoundPacket cfgServerPort st rawData).1.pendingPort
        = Js.or0 (Js.valueToNumber v1) ∧
      (handleClientBoundPacket cfgServerPort st rawData).1.world = st.world ∧
      (handleClientBoundPacket cfgServerPort st rawData).2
        = (if ¬ rawData.isEmpty ∧ rawData.getLast? = some 0
           then ensureNullTerminator
             (buildTankPacket t.header 1 t.netId t.targetNetId t.state t.info extra2)
           else buildTankPacket t.header 1 t.netId t.targetNetId t.state t.info extra2) ∧
      getArg (parseVariantArgs extra2) 1 = some (.num (.int cfgServerPort)) ∧
      getArg (parseVariantArgs extra2) 4
        = some (.str (ascii "127.0.0.1" ++ route.drop sepIdx)) := by
  obtain ⟨hpt1, hvargs, harg0, hextraEq, hsub, hheader⟩ :=
    parseTankPacket_onSendToServer (parsePacket_tank hparse) hpid
  have hbytesE : ∀ b ∈ t.extra, b < 256 := fun b hb => hbytes b (hsub.subset hb)
  have hxlen : t.extra.length < 2 ^ 31 := lt_of_le_of_lt hsub.length_le hlen
  obtain ⟨extra2, hrw, hg1, hg4⟩ := rewriteOnSendToServer_spec hpv hbytesE hxlen hnd
    cfgServerPort hcfg h1 h4 hsep harg0
  have hlen5 : ¬ (parseVariantArgs t.extra).length < 5 := by
    intro hlt
    have h7 : (parseVariantArgs t.extra).get? 4 = none :=
      List.get?_eq_none.mpr (by omega)
    unfold getArg at h4
    rw [h7] at h4
    cases h4
  have hposEq : parseOnSendToServer (parseVariantArgs t.extra)
      = some (SendToServerPayload.mk
          (Js.or0 (numberOfArg (parseVariantArgs t.extra) 1))
          (Js.or0 (numberOfArg (parseVariantArgs t.extra) 2))
          (Js.or0 (numberOfArg (parseVariantArgs t.extra) 3))
          (route.takeWhile (fun b => ¬ b = 124))
          (TextParse.get (TextParse.parse route 10 124)
            (route.takeWhile (fun b => ¬ b = 124)) 0)
          (TextParse.get (TextParse.parse route 10 124)
            (route.takeWhile (fun b => ¬ b = 124)) 1)
          (Js.or0 (match getArg (parseVariantArgs t.extra) 5 with
            | some v => Js.valueToNumber v
            | none => .int 0))
          (match getArg (parseVariantArgs t.extra) 6 with
            | some (.str s) => s
            | _ => [])) := by
    unfold parseOnSendToServer
    rw [if_neg hlen5]
    simp only [h4]
  have hnum1 : numberOfArg (parseVariantArgs t.extra) 1 = Js.valueToNumber v1 := by
    unfold numberOfArg
    rw [h1]
  have hstep : handleClientBoundPacket cfgServerPort st rawData
      = ({ st with pendingAddress := route.takeWhile (fun b => ¬ b = 124),
                   pendingPort := Js.or0 (numberOfArg (parseVariantArgs t.extra) 1) },
         if ¬ rawData.isEmpty ∧ rawData.getLast? = some 0
         then ensureNullTerminator
           (buildTankPacket t.header 1 t.netId t.targetNetId t.state t.info extra2)
         else buildTankPacket t.header 1 t.netId t.targetNetId t.state t.info extra2) := by
    simp only [handleClientBoundPacket, hparse, hpid, hvargs, hposEq, hrw]
  refine ⟨extra2, hrw, ?_, ?_, ?_, ?_, hg1, hg4⟩
  · rw [hstep]
  · rw [hstep]
    show Js.or0 (numberOfArg (parseVariantArgs t.extra) 1) = Js.or0 (Js.valueToNumber v1)
    rw [hnum1]
  · rw [hstep]
  · rw [hstep]

theorem claim1_witness :
    ∃ extra2,
      rewriteOnSendToServerExtra
          (3 :: ((0 :: 2 :: toLE4 14 ++ ascii "OnSendToServer") ++
            (1 :: 5 :: toLE4 17000) ++ (4 :: 2 :: toLE4 13 ++ ascii "a.b|door|uuid")))
          (ascii "127.0.0.1") (.int 16999) = some extra2 ∧
      (handleClientBoundPacket 16999 (RelayState.mk [] (.int 0) WorldState.clear)
          (([4, 0, 0, 0] ++ [1] ++ List.replicate 51 0 ++ toLE4 46) ++
            (3 :: ((0 :: 2 :: toLE4 14 ++ ascii "OnSendToServer") ++
              (1 :: 5 :: toLE4 17000) ++
              (4 :: 2 :: toLE4 13 ++ ascii "a.b|door|uuid"))))).1.pendingAddress
        = (ascii "a.b|door|uuid").takeWhile (fun b => ¬ b = 124) ∧
      (handleClientBoundPacket 16999 (RelayState.mk [] (.int 0) WorldState.clear)
          (([4, 0, 0, 0] ++ [1] ++ List.replicate 51 0 ++ toLE4 46) ++
            (3 :: ((0 :: 2 :: toLE4 14 ++ ascii "OnSendToServer") ++
              (1 :: 5 :: toLE4 17000) ++
              (4 :: 2 :: toLE4 13 ++ ascii "a.b|door|uuid"))))).1.pendingPort
        = Js.or0 (Js.valueToNumber (JsValue.num (.int 17000))) ∧
      (handleClientBoundPacket 16999 (RelayState.mk [] (.int 0) WorldState.clear)
          (([4, 0, 0, 0] ++ [1] ++ List.replicate 51 0 ++ toLE4 46) ++
            (3 :: ((0 :: 2 :: toLE4 14 ++ ascii "OnSendToServer") ++
              (1 :: 5 :: toLE4 17000) ++
              (4 :: 2 :: toLE4 13 ++ ascii "a.b|door|uuid"))))).1.world
        = (RelayState.mk [] (.int 0) WorldState.clear).world ∧
      (handleClientBoundPacket 16999 (RelayState.mk [] (.int 0) WorldState.clear)
          (([4, 0, 0, 0] ++ [1] ++ List.replicate 51 0 ++ toLE4 46) ++
            (3 :: ((0 :: 2 :: toLE4 14 ++ ascii "OnSendToServer") ++
              (1 :: 5 :: toLE4 17000) ++
              (4 :: 2 :: toLE4 13 ++ ascii "a.b|door|uuid"))))).2
        = (if ¬ (([4, 0, 0, 0] ++ [1] ++ List.replicate 51 0 ++ toLE4 46) ++
                (3 :: ((0 :: 2 :: toLE4 14 ++ ascii "OnSendToServer") ++
                  (1 :: 5 :: toLE4 17000) ++
                  (4 :: 2 :: toLE4 13 ++ ascii "a.b|door|uuid")))).isEmpty ∧
              (([4, 0, 0, 0] ++ [1] ++ List.replicate 51 0 ++ toLE4 46) ++
                (3 :: ((0 :: 2 :: toLE4 14 ++ ascii "OnSendToServer") ++
                  (1 :: 5 :: toLE4 17000) ++
                  (4 :: 2 :: toLE4 13 ++ ascii "a.b|door|uuid")))).getLast? = some 0
           then ensureNullTerminator
             (buildTankPacket
               ((([4, 0, 0, 0] ++ [1] ++ List.replicate 51 0 ++ toLE4 46) ++
                 (3 :: ((0 :: 2 :: toLE4 14 ++ ascii "OnSendToServer") ++
                   (1 :: 5 :: toLE4 17000) ++
                   (4 :: 2 :: toLE4 13 ++ ascii "a.b|door|uuid")))).take 60)
               1 0 0 0 0 extra2)
           else buildTankPacket
             ((([4, 0, 0, 0] ++ [1] ++ List.replicate 51 0 ++ toLE4 46) ++
               (3 :: ((0 :: 2 :: toLE4 14 ++ ascii "OnSendToServer") ++
                 (1 :: 5 :: toLE4 17000) ++
                 (4 :: 2 :: toLE4 13 ++ ascii "a.b|door|uuid")))).take 60)
             1 0 0 0 0 extra2) ∧
      getArg (parseVariantArgs extra2) 1 = some (.num (.int 16999)) ∧
      getArg (parseVariantArgs extra2) 4
        = some (.str (ascii "127.0.0.1" ++ (ascii "a.b|door|uuid").drop 3)) :=
  claim1_on_send_to_server 16999 (RelayState.mk [] (.int 0) WorldState.clear)
    (([4, 0, 0, 0] ++ [1] ++ List.replicate 51 0 ++ toLE4 46) ++
      (3 :: ((0 :: 2 :: toLE4 14 ++ ascii "OnSendToServer") ++
        (1 :: 5 :: toLE4 17000) ++ (4 :: 2 :: toLE4 13 ++ ascii "a.b|door|uuid"))))
    (TankPacket.mk 4 1 0 0 0 0 46
      (3 :: ((0 :: 2 :: toLE4 14 ++ ascii "OnSendToServer") ++
        (1 :: 5 :: toLE4 17000) ++ (4 :: 2 :: toLE4 13 ++ ascii "a.b|door|uuid")))
      ((([4, 0, 0, 0] ++ [1] ++ List.replicate 51 0 ++ toLE4 46) ++
        (3 :: ((0 :: 2 :: toLE4 14 ++ ascii "OnSendToServer") ++
          (1 :: 5 :: toLE4 17000) ++
          (4 :: 2 :: toLE4 13 ++ ascii "a.b|door|uuid")))).take 60)
      PacketId.onSendToServer (ascii "OnSendToServer")
      (some (parseVariantArgs
        (3 :: ((0 :: 2 :: toLE4 14 ++ ascii "OnSendToServer") ++
          (1 :: 5 :: toLE4 17000) ++ (4 :: 2 :: toLE4 13 ++ ascii "a.b|door|uuid"))))))
    (ParsedVariant.mk 3
      [VariantEntry.mk 0 2 (.str (ascii "OnSendToServer"))
          (some (0 :: 2 :: toLE4 14 ++ ascii "OnSendToServer")),
       VariantEntry.mk 1 5 (.num (.int 17000)) (some (1 :: 5 :: toLE4 17000)),
       VariantEntry.mk 4 2 (.str (ascii "a.b|door|uuid"))
          (some (4 :: 2 :: toLE4 13 ++ ascii "a.b|door|uuid"))])
    (JsValue.num (.int 17000)) (ascii "a.b|door|uuid") 3
    (by decide) (by decide) (by decide) (by decide) (by decide) (by decide) (by decide)
    (by decide) (by decide) (by decide)

end GrowProxy
